import Mathlib

/-!
# A shallow embedding of the `bonsai` chess core, with proofs about its spec

This file embeds the data model and the operations of the `bonsai-chess` and
`bonsai-engine` crates (board backend, pseudo-legal move generator, position
controller, FEN lexer/parser, transposition table, alpha-beta search) as
executable Lean definitions, translated function-by-function from the Rust
sources, and proves or refutes the specification claims about them.

Modelling conventions:
* `usize`/`isize` become `Nat`/`Int`.  Overflow is modelled explicitly where an
  attacker-reachable overflow changes behaviour (the FEN clock lexer's
  `parse::<usize>().unwrap()`, which fails above `usize::MAX`); elsewhere the
  counters in question can only overflow after ~2^64 plies, and
  `saturating_add` is modelled as `+`, `saturating_sub` on `Nat` is `-`.
* Rust functions that can panic are modelled with an `Option` result
  (`none` = panic); fallible functions return `Except`.
* `Vec` used as a stack (push at the end, `last`, `pop`) is modelled as a
  `List` with its *head* as the stack top; `Vec` used as a sequence of emitted
  moves is modelled as a `List` in the same order.
* `HashMap<PositionSnapshot, usize>` (the repetition table) is modelled as an
  association list in insertion order with the exact entry-API semantics used
  by the source; `HashMap<PositionSnapshot, Entry>` (the transposition table)
  is modelled as a lookup function.
-/

set_option maxRecDepth 10000

namespace Bonsai

/-- `Team` (bonsai-chess/src/atoms/team.rs). -/
inductive Team where
  | White
  | Black
deriving DecidableEq, Repr

/-- `Team::opposite`. -/
def Team.opposite : Team → Team
  | .White => .Black
  | .Black => .White

/-- `Kind` (bonsai-chess/src/pieces/kind.rs). -/
inductive Kind where
  | King
  | Queen
  | Rook
  | Bishop
  | Knight
  | Pawn
deriving DecidableEq, Repr

/-- `ValidPromotions` (bonsai-chess/src/pieces/kind.rs). -/
inductive ValidPromotions where
  | Queen
  | Rook
  | Bishop
  | Knight
deriving DecidableEq, Repr

/-- `Kind::from_valid_promotions`. -/
def Kind.from_valid_promotions : ValidPromotions → Kind
  | .Queen => .Queen
  | .Rook => .Rook
  | .Bishop => .Bishop
  | .Knight => .Knight

/-- `Piece` (bonsai-chess/src/pieces/piece.rs): a `Kind` together with a `Team`.
`Piece::new(team, kind)` is the anonymous constructor (fields in declaration
order `kind`, `team`, as in the Rust struct). -/
structure Piece where
  kind : Kind
  team : Team
deriving DecidableEq, Repr

/-- `Piece::new(team, kind)`. -/
def Piece.new (team : Team) (kind : Kind) : Piece := ⟨kind, team⟩

/-- `Coordinates` (bonsai-chess/src/atoms/coordinates.rs): a validated board
cell.  The Rust struct stores `row, column : usize` guaranteed in `[0,8)` by
the only constructor; we carry the bound in the type as `Fin 8`. -/
structure Coordinates where
  row : Fin 8
  column : Fin 8
deriving DecidableEq, Repr

/-- `Coordinates::new`.  The source is generic over `TryInto<usize>` and is
called with `usize` and `isize` arguments; negative values fail the
conversion, values `≥ 8` fail the range check, so modelling the argument as
`Int` with a `[0,8)` range check captures every call site. -/
def Coordinates.new (row column : Int) : Option Coordinates :=
  if h : 0 ≤ row ∧ row < 8 ∧ 0 ≤ column ∧ column < 8 then
    some ⟨⟨row.toNat, by omega⟩, ⟨column.toNat, by omega⟩⟩
  else
    none

/-- `CastlingSide` (bonsai-chess/src/moves/special_move.rs). -/
inductive CastlingSide where
  | Short
  | Long
deriving DecidableEq, Repr

/-- `SpecialMove` (bonsai-chess/src/moves/special_move.rs).

The `Castle` variant carries its `CastlingSide`, as declared in
`moves/special_move.rs` and consumed by `BoardBackend::{make_move,undo_move}`
(`board_backend.rs` matches `SpecialMove::Castle(side)`). -/
inductive SpecialMove where
  | Castle (side : CastlingSide)
  | EnPassant (captured : Coordinates)
  | Promotion (target : ValidPromotions)
deriving DecidableEq, Repr

/-- `Square` (bonsai-chess/src/board/square.rs): `Option<Piece>`. -/
abbrev Square := Option Piece

/-- `Ply` (bonsai-chess/src/moves/ply.rs). -/
structure Ply where
  starting_square : Coordinates
  ending_square : Coordinates
  piece_moved : Piece
  piece_captured : Square
  special_move : Option SpecialMove
deriving DecidableEq, Repr

/-- `LocatedPiece` (bonsai-chess/src/pieces/located_piece.rs). -/
structure LocatedPiece where
  piece : Piece
  position : Coordinates
deriving DecidableEq, Repr

/-- `CastlingRights` (bonsai-chess/src/atoms/castling_rights.rs): four
independent flags. -/
structure CastlingRights where
  white_king_side : Bool
  white_queen_side : Bool
  black_king_side : Bool
  black_queen_side : Bool
deriving DecidableEq, Repr

namespace CastlingRights

/-- `CastlingRights::new`: all rights enabled. -/
def new : CastlingRights := ⟨true, true, true, true⟩

/-- `CastlingRights::no_rights`. -/
def no_rights : CastlingRights := ⟨false, false, false, false⟩

/-- `CastlingRights::enable_white_king_side` (and siblings below); the Rust
methods mutate in place, modelled as functional record updates. -/
def enable_white_king_side (c : CastlingRights) : CastlingRights :=
  { c with white_king_side := true }

def enable_white_queen_side (c : CastlingRights) : CastlingRights :=
  { c with white_queen_side := true }

def enable_black_king_side (c : CastlingRights) : CastlingRights :=
  { c with black_king_side := true }

def enable_black_queen_side (c : CastlingRights) : CastlingRights :=
  { c with black_queen_side := true }

def disable_white_king_side (c : CastlingRights) : CastlingRights :=
  { c with white_king_side := false }

def disable_white_queen_side (c : CastlingRights) : CastlingRights :=
  { c with white_queen_side := false }

def disable_black_king_side (c : CastlingRights) : CastlingRights :=
  { c with black_king_side := false }

def disable_black_queen_side (c : CastlingRights) : CastlingRights :=
  { c with black_queen_side := false }

end CastlingRights

/-- `MoveCounter` (bonsai-chess/src/atoms/move_counter.rs).  The
`fifty_move_rule_counter` stack is a Rust `Vec` pushed/popped at the end with
`last()` reads; we store it as a list whose *head* is the stack top. -/
structure MoveCounter where
  fifty_move_rule_counter : List Nat
  halfmove : Nat
  fullmove : Nat
deriving DecidableEq, Repr

namespace MoveCounter

/-- `MoveCounter::new`. -/
def new : MoveCounter := ⟨[0], 0, 1⟩

/-- `MoveCounter::from`. -/
def from_parts (fifty halfmove fullmove : Nat) : MoveCounter :=
  ⟨[fifty], halfmove, fullmove⟩

/-- `MoveCounter::tick`.  `saturating_add(1)` is modelled as `+ 1`
(divergence only at `usize::MAX`, which needs 2^64 plies). -/
def tick (m : MoveCounter) (reset_fifty_move_rule_counter : Bool) : MoveCounter :=
  let stack :=
    if reset_fifty_move_rule_counter then
      0 :: m.fifty_move_rule_counter
    else
      match m.fifty_move_rule_counter with
      | [] => []
      | top :: rest => (top + 1) :: rest
  let halfmove := m.halfmove + 1
  let fullmove := if halfmove % 2 = 0 then m.fullmove + 1 else m.fullmove
  ⟨stack, halfmove, fullmove⟩

/-- `MoveCounter::untick`.  Note that the `fullmove` decrement tests the
parity of the *decremented* halfmove counter (the source does the same),
which is what theorem `make_undo_fullmove_bug` below is about. -/
def untick (m : MoveCounter) : MoveCounter :=
  let stack :=
    match m.fifty_move_rule_counter with
    | [] => []
    | top :: rest => if top > 0 then (top - 1) :: rest
        else if rest ≠ [] then rest else top :: rest
  let halfmove := m.halfmove - 1
  let fullmove := if halfmove % 2 = 0 then m.fullmove - 1 else m.fullmove
  ⟨stack, halfmove, fullmove⟩

/-- `MoveCounter::fifty_move_rule_counter()`. -/
def fifty_counter (m : MoveCounter) : Nat :=
  m.fifty_move_rule_counter.headD 0

end MoveCounter

/-- `Outcome`, `WinReason`, `DrawReason` (bonsai-chess/src/rules/outcome.rs). -/
inductive WinReason where
  | Checkmate
  | Resign
  | WinOnTime
  | Forfeit
deriving DecidableEq, Repr

inductive DrawReason where
  | Forfeit
  | Stalemate
  | DeadPosition
  | DrawByAgreement
  | ThreefoldRepetition
  | FiftyMoveRule
  | DrawOnTime
deriving DecidableEq, Repr

inductive Outcome where
  | Win (winner : Team) (reason : WinReason)
  | Draw (reason : DrawReason)
deriving DecidableEq, Repr

/-- Rule thresholds (bonsai-chess/src/rules/mod.rs). -/
def CAN_CLAIM_FIFTY_MOVE_RULE_THRESHOLD : Nat := 100

def FORCED_FIFTY_MOVE_RULE_THRESHOLD : Nat := 150

def CAN_CLAIM_THREEFOLD_REPETITION_THRESHOLD : Nat := 3

def FORCED_THREEFOLD_REPETITION_THRESHOLD : Nat := 5

/-- `Grid` (bonsai-chess/src/board/grid.rs): the 8×8 row-major array of
`Square`s, modelled as a function from (row, column) to the square's
content. -/
def Grid := Fin 8 → Fin 8 → Square

/-- Equality of grids is decidable by comparing all 64 squares; this bespoke
instance reduces cleanly inside the kernel (the generic pi-type instance does
not). -/
instance : DecidableEq Grid := fun g1 g2 =>
  decidable_of_iff
    (∀ r ∈ List.finRange 8, ∀ c ∈ List.finRange 8, g1 r c = g2 r c)
    ⟨fun h => funext fun r => funext fun c =>
        h r (List.mem_finRange r) c (List.mem_finRange c),
      fun h => by subst h; intro r _ c _; rfl⟩

/-- `grid[r][c] = sq` (array store). -/
def Grid.write (g : Grid) (r c : Fin 8) (sq : Square) : Grid :=
  fun r' c' => if r' = r ∧ c' = c then sq else g r' c'

/-- Direction constants (bonsai-chess/src/moves/generator/directions.rs),
as `(delta_row, delta_column)` pairs. -/
def UP : Int × Int := (-1, 0)

def DOWN : Int × Int := (1, 0)

def LEFT : Int × Int := (0, -1)

def RIGHT : Int × Int := (0, 1)

def DIAGONALLY_UP_LEFT : Int × Int := (-1, -1)

def DIAGONALLY_UP_RIGHT : Int × Int := (-1, 1)

def DIAGONALLY_DOWN_LEFT : Int × Int := (1, -1)

def DIAGONALLY_DOWN_RIGHT : Int × Int := (1, 1)

def L_UP_LEFT : Int × Int := (-2, -1)

def L_UP_RIGHT : Int × Int := (-2, 1)

def L_DOWN_LEFT : Int × Int := (2, -1)

def L_DOWN_RIGHT : Int × Int := (2, 1)

def L_LEFT_UP : Int × Int := (-1, -2)

def L_LEFT_DOWN : Int × Int := (1, -2)

def L_RIGHT_UP : Int × Int := (-1, 2)

def L_RIGHT_DOWN : Int × Int := (1, 2)

/-- `BoardBackend` (bonsai-chess/src/board/board_backend.rs): the grid plus
the two cached king locations. -/
structure BoardBackend where
  grid : Grid
  white_king_location : Coordinates
  black_king_location : Coordinates

/-- Field-wise decidable equality (the derived instance does not reduce in
the kernel across the `Grid` synonym). -/
instance : DecidableEq BoardBackend := fun a b =>
  decidable_of_iff (a.grid = b.grid ∧ a.white_king_location = b.white_king_location ∧
      a.black_king_location = b.black_king_location)
    ⟨fun h => by obtain ⟨h1, h2, h3⟩ := h; cases a; cases b; cases h1; cases h2; cases h3; rfl,
      fun h => by subst h; exact ⟨rfl, rfl, rfl⟩⟩

namespace BoardBackend

/-- `BoardBackend::get`. -/
def get (b : BoardBackend) (c : Coordinates) : Square :=
  b.grid c.row c.column

/-- `BoardBackend::set`: place a piece, updating the cached king location
when the piece is a king. -/
def set (b : BoardBackend) (piece : Piece) (c : Coordinates) : BoardBackend :=
  { grid := b.grid.write c.row c.column (some piece)
    white_king_location :=
      if piece.kind = .King ∧ piece.team = .White then c else b.white_king_location
    black_king_location :=
      if piece.kind = .King ∧ piece.team = .Black then c else b.black_king_location }

/-- `BoardBackend::unset`. -/
def unset (b : BoardBackend) (c : Coordinates) : BoardBackend :=
  { b with grid := b.grid.write c.row c.column none }

/-- The rook relocation columns used by castling
(`board_backend.rs`, `make_move`): `(start, end)` columns per side. -/
def LONG_CASTLE_ROOK_START_COLUMN : Fin 8 := 0

def LONG_CASTLE_ROOK_END_COLUMN : Fin 8 := 3

def SHORT_CASTLE_ROOK_START_COLUMN : Fin 8 := 7

def SHORT_CASTLE_ROOK_END_COLUMN : Fin 8 := 5

/-- `BoardBackend::make_move`.  In the source the rook start/end squares are
built with `Coordinates::new(ply.ending_square().row(), column)` which always
succeeds (the row is already a valid row and the columns are constants), so
the `if let (Some, Some)` wrapper is modelled by direct construction. -/
def make_move (b : BoardBackend) (ply : Ply) : BoardBackend :=
  let b := b.unset ply.starting_square
  let b := b.set ply.piece_moved ply.ending_square
  match ply.special_move with
  | none => b
  | some (.EnPassant coordinates) => b.unset coordinates
  | some (.Castle side) =>
      let rook_start : Coordinates :=
        ⟨ply.ending_square.row,
         match side with
         | .Short => SHORT_CASTLE_ROOK_START_COLUMN
         | .Long => LONG_CASTLE_ROOK_START_COLUMN⟩
      let rook_end : Coordinates :=
        ⟨ply.ending_square.row,
         match side with
         | .Short => SHORT_CASTLE_ROOK_END_COLUMN
         | .Long => LONG_CASTLE_ROOK_END_COLUMN⟩
      match b.get rook_start with
      | some rook_to_move => (b.set rook_to_move rook_end).unset rook_start
      | none => b
  | some (.Promotion valid_promotion) =>
      b.set (Piece.new ply.piece_moved.team (Kind.from_valid_promotions valid_promotion))
        ply.ending_square

/-- `BoardBackend::undo_move`. -/
def undo_move (b : BoardBackend) (ply : Ply) : BoardBackend :=
  -- 1. Move the piece back to start
  let b := b.set ply.piece_moved ply.starting_square
  -- 2. Restore the content of the ending square
  let b :=
    match ply.special_move, ply.piece_captured with
    | some (.EnPassant _), _ => b.unset ply.ending_square
    | _, some piece_captured => b.set piece_captured ply.ending_square
    | _, none => b.unset ply.ending_square
  -- 3. Special-move side effects
  match ply.special_move with
  | none => b
  | some (.Castle side) =>
      -- undoing: the rook moves from the *_END_COLUMN back to the corner
      let rook_start : Coordinates :=
        ⟨ply.ending_square.row,
         match side with
         | .Short => SHORT_CASTLE_ROOK_END_COLUMN
         | .Long => LONG_CASTLE_ROOK_END_COLUMN⟩
      let rook_end : Coordinates :=
        ⟨ply.ending_square.row,
         match side with
         | .Short => SHORT_CASTLE_ROOK_START_COLUMN
         | .Long => LONG_CASTLE_ROOK_START_COLUMN⟩
      match b.get rook_start with
      | some rook_to_move => (b.set rook_to_move rook_end).unset rook_start
      | none => b
  | some (.EnPassant captured_pawn_coordinates) =>
      b.set (Piece.new ply.piece_moved.team.opposite Kind.Pawn) captured_pawn_coordinates
  | some (.Promotion _) => b

/-- `BoardBackend::filter_pieces`: scan rows then columns in ascending
order, collecting located pieces matching the filter. -/
def filter_pieces (b : BoardBackend) (filter : Piece → Bool) : List LocatedPiece :=
  (List.finRange 8).flatMap fun row =>
    (List.finRange 8).filterMap fun column =>
      match b.grid row column with
      | some current => if filter current then some ⟨current, ⟨row, column⟩⟩ else none
      | none => none

/-- `BoardBackend::get_all_pieces`. -/
def get_all_pieces (b : BoardBackend) : List LocatedPiece :=
  b.filter_pieces fun _ => true

/-- `BoardBackend::get_white_pieces`. -/
def get_white_pieces (b : BoardBackend) : List LocatedPiece :=
  b.filter_pieces fun p => p.team = .White

/-- `BoardBackend::get_black_pieces`. -/
def get_black_pieces (b : BoardBackend) : List LocatedPiece :=
  b.filter_pieces fun p => p.team = .Black

/-- One ray of `is_square_under_attack`: walk outward from step `k`,
stopping at the first occupied square, reporting whether that square holds an
attacker of one of the two given kinds.  The Rust `while let` loop ends as
soon as the coordinate leaves the board; for every (non-zero) direction used
this happens by step 8, so a fuel of 8 steps is exact. -/
def ray_hits (b : BoardBackend) (attacker : Team) (k1 k2 : Kind)
    (sr sc dr dc : Int) : Nat → Nat → Bool
  | _, 0 => false
  | step, fuel + 1 =>
      match Coordinates.new (sr + dr * step) (sc + dc * step) with
      | none => false
      | some target =>
          match b.get target with
          | some piece => piece.team = attacker ∧ (piece.kind = k1 ∨ piece.kind = k2)
          | none => ray_hits b attacker k1 k2 sr sc dr dc (step + 1) fuel

/-- One fixed-offset probe of `is_square_under_attack`. -/
def offset_hits (b : BoardBackend) (attacker : Team) (kind : Kind)
    (sr sc : Int) (d : Int × Int) : Bool :=
  match Coordinates.new (sr + d.1) (sc + d.2) with
  | none => false
  | some target =>
      match b.get target with
      | some piece => piece.team = attacker ∧ piece.kind = kind
      | none => false

/-- `BoardBackend::is_square_under_attack`: reverse probes for knights,
kings, pawns, then orthogonal and diagonal rays. -/
def is_square_under_attack (b : BoardBackend) (location : Coordinates)
    (attacker_team : Team) : Bool :=
  let KNIGHT_DIRECTIONS := [L_UP_LEFT, L_UP_RIGHT, L_DOWN_LEFT, L_DOWN_RIGHT,
    L_LEFT_UP, L_LEFT_DOWN, L_RIGHT_UP, L_RIGHT_DOWN]
  let KING_DIRECTIONS := [UP, DOWN, LEFT, RIGHT, DIAGONALLY_UP_LEFT,
    DIAGONALLY_UP_RIGHT, DIAGONALLY_DOWN_LEFT, DIAGONALLY_DOWN_RIGHT]
  let DIAGONAL_DIRECTIONS := [DIAGONALLY_UP_LEFT, DIAGONALLY_UP_RIGHT,
    DIAGONALLY_DOWN_LEFT, DIAGONALLY_DOWN_RIGHT]
  let ORTHOGONAL_DIRECTIONS := [UP, DOWN, LEFT, RIGHT]
  let start_row : Int := location.row
  let start_column : Int := location.column
  (KNIGHT_DIRECTIONS.any fun d =>
    offset_hits b attacker_team .Knight start_row start_column d) ||
  (KING_DIRECTIONS.any fun d =>
    offset_hits b attacker_team .King start_row start_column d) ||
  ((match attacker_team with
    | .White => [DIAGONALLY_DOWN_LEFT, DIAGONALLY_DOWN_RIGHT]
    | .Black => [DIAGONALLY_UP_LEFT, DIAGONALLY_UP_RIGHT]).any fun d =>
    offset_hits b attacker_team .Pawn start_row start_column d) ||
  (ORTHOGONAL_DIRECTIONS.any fun d =>
    ray_hits b attacker_team .Rook .Queen start_row start_column d.1 d.2 1 8) ||
  (DIAGONAL_DIRECTIONS.any fun d =>
    ray_hits b attacker_team .Bishop .Queen start_row start_column d.1 d.2 1 8)

end BoardBackend

/-! ## Pseudo-legal move generation (bonsai-chess/src/moves/generator/) -/

/-- One direction of `slide` (moves/generator/sliding.rs): step outward from
step 1 up to `distance` steps (the fuel argument counts the remaining steps);
an empty square emits a quiet move and continues, an enemy square emits a
capture and stops, a friendly square or the board edge stops. -/
def slide_dir (lp : LocatedPiece) (b : BoardBackend) (dr dc : Int) :
    Nat → Nat → List Ply
  | _, 0 => []
  | step, fuel + 1 =>
      match Coordinates.new ((lp.position.row : Int) + dr * step)
          ((lp.position.column : Int) + dc * step) with
      | none => []
      | some e =>
          let target_square := b.get e
          let potential_move : Ply := ⟨lp.position, e, lp.piece, target_square, none⟩
          match target_square with
          | none => potential_move :: slide_dir lp b dr dc (step + 1) fuel
          | some captured_piece =>
              if captured_piece.team ≠ lp.piece.team then [potential_move] else []

/-- `slide` (moves/generator/sliding.rs): emit moves direction by direction. -/
def slide (lp : LocatedPiece) (distance : Nat) (directions : List (Int × Int))
    (b : BoardBackend) : List Ply :=
  directions.flatMap fun d => slide_dir lp b d.1 d.2 1 distance

/-- `rook::pseudo_legal_moves`. -/
def rook_moves (lp : LocatedPiece) (b : BoardBackend) : List Ply :=
  slide lp 7 [UP, DOWN, LEFT, RIGHT] b

/-- `bishop::pseudo_legal_moves`. -/
def bishop_moves (lp : LocatedPiece) (b : BoardBackend) : List Ply :=
  slide lp 7 [DIAGONALLY_UP_LEFT, DIAGONALLY_UP_RIGHT, DIAGONALLY_DOWN_LEFT,
    DIAGONALLY_DOWN_RIGHT] b

/-- `queen::pseudo_legal_moves`: rook moves then bishop moves. -/
def queen_moves (lp : LocatedPiece) (b : BoardBackend) : List Ply :=
  rook_moves lp b ++ bishop_moves lp b

/-- `knight::pseudo_legal_moves`. -/
def knight_moves (lp : LocatedPiece) (b : BoardBackend) : List Ply :=
  slide lp 1 [L_UP_LEFT, L_UP_RIGHT, L_DOWN_LEFT, L_DOWN_RIGHT,
    L_LEFT_UP, L_LEFT_DOWN, L_RIGHT_UP, L_RIGHT_DOWN] b

/-- `get_promotions` (moves/generator/pawn.rs). -/
def get_promotions : List SpecialMove :=
  [.Promotion .Queen, .Promotion .Rook, .Promotion .Bishop, .Promotion .Knight]

/-- `pawn::pseudo_legal_moves` (moves/generator/pawn.rs), translated arm by
arm: forward pushes (with promotion expansion), the double push from the
starting row, then for each diagonal the en-passant branch followed by the
standard-capture branch. -/
def pawn_moves (lp : LocatedPiece) (b : BoardBackend)
    (en_passant_target : Option Coordinates) : List Ply :=
  let direction : Int := match lp.piece.team with | .White => -1 | .Black => 1
  let starting_row : Fin 8 := match lp.piece.team with | .White => 6 | .Black => 1
  let promotion_row : Fin 8 := match lp.piece.team with | .White => 0 | .Black => 7
  let current_position := lp.position
  let forward_row : Int := (current_position.row : Int) + direction
  let pushes :=
    match Coordinates.new forward_row (current_position.column : Int) with
    | none => []
    | some one_forward_coords =>
        if b.get one_forward_coords ≠ none then []
        else if one_forward_coords.row = promotion_row then
          get_promotions.map fun promotion =>
            (⟨current_position, one_forward_coords, lp.piece, none, some promotion⟩ : Ply)
        else
          (⟨current_position, one_forward_coords, lp.piece, none, none⟩ : Ply) ::
          (if current_position.row = starting_row then
            let two_forward_row : Int := (current_position.row : Int) + 2 * direction
            match Coordinates.new two_forward_row (current_position.column : Int) with
            | some two_forward_coords =>
                if b.get two_forward_coords = none then
                  [⟨current_position, two_forward_coords, lp.piece, none, none⟩]
                else []
            | none => []
          else [])
  let diagonal (col_offset : Int) : List Ply :=
    match Coordinates.new forward_row ((current_position.column : Int) + col_offset) with
    | none => []
    | some capture_coords =>
        let ep :=
          match en_passant_target with
          | some available_en_passant =>
              if capture_coords = available_en_passant then
                -- `Coordinates::new(current row, capture col).unwrap()` always succeeds
                let captured_pawn_position : Coordinates :=
                  ⟨current_position.row, capture_coords.column⟩
                [⟨current_position, capture_coords, lp.piece,
                  some (Piece.new lp.piece.team.opposite .Pawn),
                  some (.EnPassant captured_pawn_position)⟩]
              else []
          | none => []
        let standard :=
          match b.get capture_coords with
          | some target_piece =>
              if target_piece.team ≠ lp.piece.team then
                if capture_coords.row = promotion_row then
                  get_promotions.map fun promotion =>
                    (⟨current_position, capture_coords, lp.piece, some target_piece,
                      some promotion⟩ : Ply)
                else
                  [⟨current_position, capture_coords, lp.piece, some target_piece, none⟩]
              else []
          | none => []
        ep ++ standard
  pushes ++ diagonal (-1) ++ diagonal 1

/-- The `is_rook_in_place` test of `king::get_castling_moves` (inlined twice
in the source): the square holds an allied rook. -/
def rook_in_place (b : BoardBackend) (c : Coordinates) (ally : Team) : Bool :=
  match b.get c with
  | some potential_rook => potential_rook.kind = .Rook ∧ potential_rook.team = ally
  | none => false

/-- `king::get_castling_moves` (moves/generator/king.rs lines 59–168).

The conditions are exactly the source's: not currently in check, then per
side: the right is held, the fixed between-squares on the back rank are
empty, the king-transit squares are not attacked, and an allied rook sits on
the expected corner.  The emitted ply's `special_move` is the `Castle`
constructor of `moves/special_move.rs`, which carries the `CastlingSide`; the
kingside branch produces `Short` and the queenside branch `Long` (this is the
tag `BoardBackend::make_move` dispatches on to pick the rook relocation
columns for that branch's destination). -/
def get_castling_moves (lp : LocatedPiece) (b : BoardBackend)
    (castling_rights : CastlingRights) : List Ply :=
  let FILE_B : Fin 8 := 1
  let FILE_C : Fin 8 := 2
  let FILE_D : Fin 8 := 3
  let FILE_F : Fin 8 := 5
  let FILE_G : Fin 8 := 6
  let FILE_A : Fin 8 := 0
  let FILE_H : Fin 8 := 7
  let ally := lp.piece.team
  let enemy := ally.opposite
  if b.is_square_under_attack lp.position enemy then []
  else
    let castling_row : Fin 8 := match ally with | .White => 7 | .Black => 0
    let to_coordinates (column : Fin 8) : Coordinates := ⟨castling_row, column⟩
    let can_castle_short := match ally with
      | .White => castling_rights.white_king_side
      | .Black => castling_rights.black_king_side
    let short_moves :=
      if can_castle_short then
        let f_square := to_coordinates FILE_F
        let g_square := to_coordinates FILE_G
        let is_path_clear := (b.get f_square).isNone && (b.get g_square).isNone
        let is_path_safe := !b.is_square_under_attack f_square enemy &&
          !b.is_square_under_attack g_square enemy
        let is_rook_in_place : Bool := rook_in_place b (to_coordinates FILE_H) ally
        if is_path_clear && is_path_safe && is_rook_in_place then
          [⟨lp.position, g_square, lp.piece, none, some (.Castle .Short)⟩]
        else []
      else []
    let can_castle_long := match ally with
      | .White => castling_rights.white_queen_side
      | .Black => castling_rights.black_queen_side
    let long_moves :=
      if can_castle_long then
        let b_square := to_coordinates FILE_B
        let c_square := to_coordinates FILE_C
        let d_square := to_coordinates FILE_D
        let is_path_clear := (b.get b_square).isNone && (b.get c_square).isNone &&
          (b.get d_square).isNone
        let is_path_safe := !b.is_square_under_attack c_square enemy &&
          !b.is_square_under_attack d_square enemy
        let is_rook_in_place : Bool := rook_in_place b (to_coordinates FILE_A) ally
        if is_path_clear && is_path_safe && is_rook_in_place then
          [⟨lp.position, c_square, lp.piece, none, some (.Castle .Long)⟩]
        else []
      else []
    short_moves ++ long_moves

/-- `king::pseudo_legal_moves`: the 1-step slide in all eight directions,
plus the castling candidates when any castling right remains. -/
def king_moves (lp : LocatedPiece) (b : BoardBackend)
    (castling_rights : CastlingRights) : List Ply :=
  let base := slide lp 1 [UP, DOWN, LEFT, RIGHT, DIAGONALLY_UP_LEFT,
    DIAGONALLY_UP_RIGHT, DIAGONALLY_DOWN_LEFT, DIAGONALLY_DOWN_RIGHT] b
  if castling_rights ≠ CastlingRights.no_rights then
    base ++ get_castling_moves lp b castling_rights
  else base

/-- `generate_pseudo_legal_moves` (moves/generator/mod.rs): dispatch on the
piece kind. -/
def generate_pseudo_legal_moves (what_to_move : LocatedPiece) (b : BoardBackend)
    (en_passant_target : Option Coordinates)
    (castling_rights : CastlingRights) : List Ply :=
  match what_to_move.piece.kind with
  | .King => king_moves what_to_move b castling_rights
  | .Queen => queen_moves what_to_move b
  | .Rook => rook_moves what_to_move b
  | .Bishop => bishop_moves what_to_move b
  | .Knight => knight_moves what_to_move b
  | .Pawn => pawn_moves what_to_move b en_passant_target

/-! ## Position controller (bonsai-chess/src/board/board_frontend.rs) -/

/-- `PositionSnapshot` (board_frontend.rs / board/snapshot.rs): the hashable
identity of a position. -/
structure PositionSnapshot where
  pieces_positions : Grid
  turn : Team
  remaining_castling_rights : CastlingRights
  en_passant : Option Coordinates

/-- Field-wise decidable equality (see `BoardBackend`'s instance). -/
instance : DecidableEq PositionSnapshot := fun a b =>
  decidable_of_iff (a.pieces_positions = b.pieces_positions ∧ a.turn = b.turn ∧
      a.remaining_castling_rights = b.remaining_castling_rights ∧
      a.en_passant = b.en_passant)
    ⟨fun h => by
        obtain ⟨h1, h2, h3, h4⟩ := h
        cases a; cases b; cases h1; cases h2; cases h3; cases h4; rfl,
      fun h => by subst h; exact ⟨rfl, rfl, rfl, rfl⟩⟩

/-- The repetition table `HashMap<PositionSnapshot, usize>`, modelled as an
association list in insertion order (`HashMap` equality is key-value set
equality; equality of this representation is finer, so every equation proved
on it also holds of the `HashMap`). -/
abbrev RepetitionTable := List (PositionSnapshot × Nat)

/-- `HashMap::get`. -/
def rep_get (t : RepetitionTable) (k : PositionSnapshot) : Option Nat :=
  match t with
  | [] => none
  | (k', v) :: rest => if k' = k then some v else rep_get rest k

/-- `*self.repetition_table.entry(snapshot).or_insert(0) += 1` — returns the
updated table and the incremented count. -/
def rep_increment (t : RepetitionTable) (k : PositionSnapshot) :
    RepetitionTable × Nat :=
  match t with
  | [] => ([(k, 1)], 1)
  | (k', v) :: rest =>
      if k' = k then ((k', v + 1) :: rest, v + 1)
      else
        let (rest', n) := rep_increment rest k
        ((k', v) :: rest', n)

/-- The undo path: if the entry is occupied, decrement it and remove it when
it reaches zero; an absent key leaves the table unchanged. -/
def rep_decrement (t : RepetitionTable) (k : PositionSnapshot) : RepetitionTable :=
  match t with
  | [] => []
  | (k', v) :: rest =>
      if k' = k then
        if v - 1 = 0 then rest else (k', v - 1) :: rest
      else (k', v) :: rep_decrement rest k

/-- `BoardFrontend` (board_frontend.rs).  `castling_rights_log` and
`move_log` are stacks (list head = most recent). -/
structure BoardFrontend where
  backend : BoardBackend
  turn : Team
  castling_rights_log : List CastlingRights
  en_passant_target : Option Coordinates
  move_counter : MoveCounter
  move_log : List Ply
  repetition_table : RepetitionTable
  outcome : Option Outcome
  in_check : Bool

/-- Field-wise decidable equality (see `BoardBackend`'s instance). -/
instance : DecidableEq BoardFrontend := fun a b =>
  decidable_of_iff (a.backend = b.backend ∧ a.turn = b.turn ∧
      a.castling_rights_log = b.castling_rights_log ∧
      a.en_passant_target = b.en_passant_target ∧
      a.move_counter = b.move_counter ∧ a.move_log = b.move_log ∧
      a.repetition_table = b.repetition_table ∧ a.outcome = b.outcome ∧
      a.in_check = b.in_check)
    ⟨fun h => by
        obtain ⟨h1, h2, h3, h4, h5, h6, h7, h8, h9⟩ := h
        cases a; cases b
        cases h1; cases h2; cases h3; cases h4; cases h5
        cases h6; cases h7; cases h8; cases h9; rfl,
      fun h => by subst h; exact ⟨rfl, rfl, rfl, rfl, rfl, rfl, rfl, rfl, rfl⟩⟩

namespace BoardFrontend

/-- `BoardFrontend::create_snapshot`. -/
def create_snapshot (s : BoardFrontend) : PositionSnapshot :=
  { pieces_positions := s.backend.grid
    turn := s.turn
    remaining_castling_rights := s.castling_rights_log.headD CastlingRights.no_rights
    en_passant := s.en_passant_target }

/-- `BoardFrontend::get_pseudo_legal_moves`: all pseudo-legal moves of the
side to move, piece by piece in board-scan order. -/
def get_pseudo_legal_moves (s : BoardFrontend) : List Ply :=
  let pieces := match s.turn with
    | .White => s.backend.get_white_pieces
    | .Black => s.backend.get_black_pieces
  pieces.flatMap fun current_piece =>
    generate_pseudo_legal_moves current_piece s.backend s.en_passant_target
      (s.castling_rights_log.headD CastlingRights.no_rights)

/-- `BoardFrontend::is_in_check`: find the king of the side to move among its
pieces and probe whether its square is attacked.  The source panics
(`expect`) when the king is missing; `none` models that panic. -/
def is_in_check (s : BoardFrontend) : Option Bool :=
  let pieces := match s.turn with
    | .White => s.backend.get_white_pieces
    | .Black => s.backend.get_black_pieces
  match pieces.find? (fun lp => lp.piece.kind = .King) with
  | some lp => some (s.backend.is_square_under_attack lp.position s.turn.opposite)
  | none => none

/-- `BoardFrontend::change_turn`. -/
def change_turn (s : BoardFrontend) : BoardFrontend :=
  { s with turn := s.turn.opposite }

/-- The loop body of `BoardFrontend::get_legal_moves`: tentatively make each
pseudo-legal move on the backend, keep it when the king is safe, and undo it.
`none` models the `is_in_check` panic. -/
def legal_filter (s : BoardFrontend) :
    List Ply → BoardFrontend → List Ply → Option (List Ply × BoardFrontend)
  | [], st, acc => some (acc.reverse, st)
  | m :: rest, st, acc => do
      let st := { st with backend := st.backend.make_move m }
      let ck ← st.is_in_check
      let acc := if !ck then m :: acc else acc
      let st := { st with backend := st.backend.undo_move m }
      legal_filter s rest st acc

/-- `BoardFrontend::get_legal_moves`.  The Rust method takes `&mut self`
because of the tentative make/undo; the model returns the resulting state
alongside the legal-move list so that claim C10 can speak about it. -/
def get_legal_moves (s : BoardFrontend) : Option (List Ply × BoardFrontend) :=
  legal_filter s s.get_pseudo_legal_moves s []

/-- `BoardFrontend::get_en_passant_target` (the private helper): the square
jumped over by a pawn double push.  The row arithmetic
(`row - 1` / `row + 1`) is `usize` arithmetic in the source feeding
`Coordinates::new`; it is modelled on `Int` (release-mode wrapping of a
negative intermediate also fails `Coordinates::new`'s range check). -/
def get_en_passant_target (ply : Ply) : Option Coordinates :=
  if ply.piece_moved.kind = .Pawn then
    let jump_distance : Nat :=
      max (ply.starting_square.row - ply.ending_square.row : Int).toNat
        (ply.ending_square.row - ply.starting_square.row : Int).toNat
    if jump_distance = 2 then
      Coordinates.new
        (match ply.piece_moved.team with
         | .White => (ply.starting_square.row : Int) - 1
         | .Black => (ply.starting_square.row : Int) + 1)
        (ply.starting_square.column : Int)
    else none
  else none

/-- `BoardFrontend::update_castling_rights`: disable rights on king moves,
rook moves from a corner, and captures landing on a corner; push the result
onto the rights log. -/
def update_castling_rights (s : BoardFrontend) (ply : Ply) : BoardFrontend :=
  let castling_rights := s.castling_rights_log.headD CastlingRights.no_rights
  let castling_rights :=
    if ply.piece_moved.kind = .King then
      match ply.piece_moved.team with
      | .White => (castling_rights.disable_white_king_side).disable_white_queen_side
      | .Black => (castling_rights.disable_black_king_side).disable_black_queen_side
    else castling_rights
  let check_then_ban (c : Coordinates) (cr : CastlingRights) : CastlingRights :=
    if c.row = 0 ∧ c.column = 0 then cr.disable_black_queen_side
    else if c.row = 0 ∧ c.column = 7 then cr.disable_black_king_side
    else if c.row = 7 ∧ c.column = 0 then cr.disable_white_queen_side
    else if c.row = 7 ∧ c.column = 7 then cr.disable_white_king_side
    else cr
  let castling_rights :=
    if ply.piece_moved.kind = .Rook then check_then_ban ply.starting_square castling_rights
    else castling_rights
  let castling_rights :=
    match ply.piece_captured with
    | some piece_captured =>
        if piece_captured.kind = .Rook then check_then_ban ply.ending_square castling_rights
        else castling_rights
    | none => castling_rights
  { s with castling_rights_log := castling_rights :: s.castling_rights_log }

/-- Stage 1 of `BoardFrontend::make_move` (after the early return): backend
move, move log, en-passant target, castling rights, turn flip, check flag.
`none` models the `is_in_check` panic. -/
def mm_core (s : BoardFrontend) (ply : Ply) : Option BoardFrontend := do
  let s := { s with backend := s.backend.make_move ply }
  let s := { s with move_log := ply :: s.move_log }
  let s := { s with en_passant_target := get_en_passant_target ply }
  let s := s.update_castling_rights ply
  let s := s.change_turn
  let ck ← s.is_in_check
  pure { s with in_check := ck }

/-- Stage 2 of `make_move`: increment the repetition count of the new
snapshot and declare the forced (fivefold) repetition draw when the count
reaches `FORCED_THREEFOLD_REPETITION_THRESHOLD` and no outcome is set. -/
def mm_repetition (s : BoardFrontend) : BoardFrontend :=
  let snapshot := s.create_snapshot
  let (table, repetitions) := rep_increment s.repetition_table snapshot
  let s := { s with repetition_table := table }
  if repetitions ≥ FORCED_THREEFOLD_REPETITION_THRESHOLD ∧ s.outcome = none then
    { s with outcome := some (.Draw .ThreefoldRepetition) }
  else s

/-- Stage 3 of `make_move`: the dead-position check (every remaining piece is
a king). -/
def mm_dead_position (s : BoardFrontend) : BoardFrontend :=
  if s.backend.get_all_pieces.all (fun lp => lp.piece.kind = .King) then
    { s with outcome := some (.Draw .DeadPosition) }
  else s

/-- Stage 4 of `make_move`: tick the move counter (resetting on a pawn move
or capture) and declare the forced draw when the fifty-move counter reaches
`FORCED_FIFTY_MOVE_RULE_THRESHOLD` and no outcome is set. -/
def mm_fifty (s : BoardFrontend) (ply : Ply) : BoardFrontend :=
  let is_pawn_move := ply.piece_moved.kind = .Pawn
  let is_capture := ply.piece_captured.isSome
  let s := { s with move_counter := s.move_counter.tick (is_pawn_move ∨ is_capture) }
  if s.move_counter.fifty_counter ≥ FORCED_FIFTY_MOVE_RULE_THRESHOLD ∧
      s.outcome = none then
    { s with outcome := some (.Draw .FiftyMoveRule) }
  else s

/-- Stage 5 of `make_move`: checkmate / stalemate detection on the new side
to move. -/
def mm_mate (s : BoardFrontend) : Option BoardFrontend := do
  let (legal_moves_after_move, s) ← s.get_legal_moves
  if legal_moves_after_move.isEmpty then
    let ck ← s.is_in_check
    if ck then
      pure { s with outcome := some (.Win s.turn.opposite .Checkmate) }
    else
      pure { s with outcome := some (.Draw .Stalemate) }
  else
    pure s

/-- `BoardFrontend::make_move`: a no-op when an outcome is already set,
otherwise the composition of the five stages above (which mirror the
source's sequential blocks). -/
def make_move (s : BoardFrontend) (ply : Ply) : Option BoardFrontend :=
  if s.outcome.isSome then some s
  else do
    let s ← mm_core s ply
    let s := mm_repetition s
    let s := mm_dead_position s
    let s := mm_fifty s ply
    mm_mate s

/-- `BoardFrontend::undo_move` (the private helper). -/
def undo_move (s : BoardFrontend) (ply : Ply) : Option BoardFrontend := do
  let s := { s with outcome := none }
  let snapshot := s.create_snapshot
  let s := { s with repetition_table := rep_decrement s.repetition_table snapshot }
  let s := { s with backend := s.backend.undo_move ply }
  let s :=
    match s.move_log.head? with
    | some possible_pawn_move =>
        { s with en_passant_target := get_en_passant_target possible_pawn_move }
    | none => { s with en_passant_target := none }
  let s := { s with move_counter := s.move_counter.untick }
  let s :=
    if s.castling_rights_log.length > 1 then
      { s with castling_rights_log := s.castling_rights_log.tail }
    else s
  let s := s.change_turn
  let ck ← s.is_in_check
  pure { s with in_check := ck }

/-- `BoardFrontend::undo_last_move`: pop the move log and revert. -/
def undo_last_move (s : BoardFrontend) : Option BoardFrontend :=
  match s.move_log with
  | [] => some s
  | last_move :: rest => undo_move { s with move_log := rest } last_move

/-- `BoardFrontend::can_claim_threefold_repetition`. -/
def can_claim_threefold_repetition (s : BoardFrontend) : Bool :=
  match rep_get s.repetition_table s.create_snapshot with
  | some count => count ≥ CAN_CLAIM_THREEFOLD_REPETITION_THRESHOLD
  | none => false

/-- `BoardFrontend::can_claim_fifty_move_rule`. -/
def can_claim_fifty_move_rule (s : BoardFrontend) : Bool :=
  s.move_counter.fifty_counter ≥ CAN_CLAIM_FIFTY_MOVE_RULE_THRESHOLD

/-- `BoardFrontend::claim_threefold_repetition`: the returned value plus the
resulting state (the Rust method mutates `self` and returns a `Result`). -/
def claim_threefold_repetition (s : BoardFrontend) :
    Except String Unit × BoardFrontend :=
  if ¬ s.can_claim_threefold_repetition then
    (.error "Cannot claim Threefold Repetition: Conditions not met.", s)
  else
    (.ok (), { s with outcome := some (.Draw .ThreefoldRepetition) })

/-- `BoardFrontend::claim_fifty_move_rule`. -/
def claim_fifty_move_rule (s : BoardFrontend) :
    Except String Unit × BoardFrontend :=
  if ¬ s.can_claim_fifty_move_rule then
    (.error "Cannot claim Fifty Move Rule: Conditions not met.", s)
  else
    (.ok (), { s with outcome := some (.Draw .FiftyMoveRule) })

end BoardFrontend

/-! ## Transposition table (bonsai-engine/src/transposition_table.rs) -/

/-- `NodeType`. -/
inductive NodeType where
  | Exact
  | Upper
  | Lower
deriving DecidableEq, Repr

/-- `Entry`. -/
structure TTEntry where
  score : Int
  depth : Nat
  node_type : NodeType
  best_move : Option Ply
deriving DecidableEq

/-- `TranspositionTable`: the `HashMap<PositionSnapshot, Entry>` modelled as
a lookup function (only `get` and `insert` are exposed by the source). -/
def TranspositionTable := PositionSnapshot → Option TTEntry

namespace TranspositionTable

/-- `TranspositionTable::new`. -/
def new : TranspositionTable := fun _ => none

/-- `TranspositionTable::get`. -/
def get (t : TranspositionTable) (snapshot : PositionSnapshot) : Option TTEntry :=
  t snapshot

/-- The raw `HashMap::insert`. -/
def raw_insert (t : TranspositionTable) (snapshot : PositionSnapshot)
    (entry : TTEntry) : TranspositionTable :=
  fun k => if k = snapshot then some entry else t k

/-- `TranspositionTable::insert`: depth-priority replacement. -/
def insert (t : TranspositionTable) (snapshot : PositionSnapshot)
    (entry : TTEntry) : TranspositionTable :=
  match t.get snapshot with
  | some existing =>
      if entry.depth ≥ existing.depth then t.raw_insert snapshot entry else t
  | none => t.raw_insert snapshot entry

end TranspositionTable

/-! ## Constructors -/

/-- `STARTING_POSITION` (bonsai-chess/src/board/positions/mod.rs). -/
def STARTING_POSITION : Grid := fun r c =>
  let back_rank (team : Team) : Piece :=
    Piece.new team
      (match c.val with
       | 0 => .Rook
       | 1 => .Knight
       | 2 => .Bishop
       | 3 => .Queen
       | 4 => .King
       | 5 => .Bishop
       | 6 => .Knight
       | _ => .Rook)
  match r.val with
  | 0 => some (back_rank .Black)
  | 1 => some (Piece.new .Black .Pawn)
  | 6 => some (Piece.new .White .Pawn)
  | 7 => some (back_rank .White)
  | _ => none

/-- `BoardBackend::from_starting_position`. -/
def BoardBackend.from_starting_position : BoardBackend :=
  { grid := STARTING_POSITION
    white_king_location := ⟨7, 4⟩
    black_king_location := ⟨0, 4⟩ }

/-- The scan of `BoardBackend::new`: all squares holding a king of the given
team, in row-major order. -/
def king_squares (g : Grid) (team : Team) : List Coordinates :=
  (List.finRange 8).flatMap fun row =>
    (List.finRange 8).filterMap fun column =>
      match g row column with
      | some p => if p.kind = .King ∧ p.team = team then some ⟨row, column⟩ else none
      | none => none

/-- `BoardBackend::new`: panics (modelled as `none`) unless each team has
exactly one king; caches the two king locations. -/
def BoardBackend.new_checked (g : Grid) : Option BoardBackend :=
  match king_squares g .White, king_squares g .Black with
  | [w], [b] => some ⟨g, w, b⟩
  | _, _ => none

/-- `BoardFrontend::from_starting_position`. -/
def BoardFrontend.from_starting_position : BoardFrontend :=
  { backend := BoardBackend.from_starting_position
    turn := .White
    castling_rights_log := [CastlingRights.new]
    en_passant_target := none
    move_counter := MoveCounter.new
    move_log := []
    repetition_table := []
    outcome := none
    in_check := false }

/-- `usize::MAX` on the 64-bit targets the crate is built for. -/
def USIZE_MAX : Nat := 2 ^ 64 - 1

/-- `str::parse::<usize>`: an optional leading `+`, then one or more ASCII
digits, failing on overflow past `usize::MAX`. -/
def parse_usize (l : List Char) : Option Nat :=
  let digits := match l with | '+' :: rest => rest | _ => l
  if digits ≠ [] ∧ digits.all Char.isDigit then
    let v := digits.foldl (fun acc c => acc * 10 + (c.toNat - '0'.toNat)) 0
    if v ≤ USIZE_MAX then some v else none
  else none

/-- `str::split_whitespace`, on a character list. -/
def split_whitespace : List Char → List (List Char) :=
  go []
where
  go (cur : List Char) : List Char → List (List Char)
    | [] => if cur.isEmpty then [] else [cur.reverse]
    | c :: rest =>
        if c.isWhitespace then
          if cur.isEmpty then go [] rest else cur.reverse :: go [] rest
        else go (c :: cur) rest

/-- `str::split('/')`, on a character list (keeps empty segments). -/
def split_slash : List Char → List (List Char)
  | [] => [[]]
  | c :: rest =>
      if c = '/' then [] :: split_slash rest
      else match split_slash rest with
        | seg :: segs => (c :: seg) :: segs
        | [] => [[c]]

/-- The piece-character decoding of `BoardFrontend::from_fen`: team from
`is_uppercase`, kind from the lowercased letter, panic (`none`) otherwise. -/
def char_to_piece (c : Char) : Option Piece :=
  let team : Team := if c.isUpper then .White else .Black
  match c.toLower with
  | 'p' => some (Piece.new team .Pawn)
  | 'n' => some (Piece.new team .Knight)
  | 'b' => some (Piece.new team .Bishop)
  | 'r' => some (Piece.new team .Rook)
  | 'q' => some (Piece.new team .Queen)
  | 'k' => some (Piece.new team .King)
  | _ => none

/-- The inner character loop of `BoardFrontend::from_fen`'s placement parse:
digits skip columns, piece letters are written when the column is still in
range.  `none` models the panic on an invalid piece character. -/
def ff_row (row_index : Fin 8) : List Char → Nat → Grid → Option Grid
  | [], _, g => some g
  | c :: rest, column_index, g =>
      if c.isDigit then
        ff_row row_index rest (column_index + (c.toNat - '0'.toNat)) g
      else
        match char_to_piece c with
        | none => none
        | some piece =>
            if h : column_index < 8 then
              ff_row row_index rest (column_index + 1)
                (g.write row_index ⟨column_index, h⟩ (some piece))
            else ff_row row_index rest column_index g

/-- The placement loop of `BoardFrontend::from_fen`: ranks split on `/`,
indices at or past `BOARD_ROWS` ignored (the source `break`s). -/
def ff_placement : List (List Char) → Nat → Grid → Option Grid
  | [], _, g => some g
  | row_str :: rest, row_index, g =>
      if h : row_index < 8 then do
        let g ← ff_row ⟨row_index, h⟩ row_str 0 g
        ff_placement rest (row_index + 1) g
      else some g

/-- `BoardFrontend::from_fen` (board_frontend.rs lines 120–242): the
documentation-level FEN loader, which panics on malformed placement data and
falls back to defaults for missing fields.  `none` models a panic. -/
def BoardFrontend.from_fen (fen : String) : Option BoardFrontend := do
  let parts := split_whitespace fen.toList
  let placement ← parts.head?   -- `expect("Invalid FEN: Missing placement data")`
  let grid ← ff_placement (split_slash placement) 0 (fun _ _ => none)
  let backend ← BoardBackend.new_checked grid
  let active_color := (parts.getD 1 ['w'])
  let turn : Team := if active_color = ['w'] then .White else .Black
  let castling := parts.getD 2 ['-']
  let castling_rights :=
    if castling ≠ ['-'] then
      let cr := CastlingRights.no_rights
      let cr := if castling.contains 'K' then cr.enable_white_king_side else cr
      let cr := if castling.contains 'Q' then cr.enable_white_queen_side else cr
      let cr := if castling.contains 'k' then cr.enable_black_king_side else cr
      if castling.contains 'q' then cr.enable_black_queen_side else cr
    else CastlingRights.no_rights
  let en_passant_str := parts.getD 3 ['-']
  let en_passant_target :=
    if en_passant_str = ['-'] then none
    else match en_passant_str with
      | [file, rank] =>
          -- `(file as usize).wrapping_sub('a')` and `8.wrapping_sub(rank digit)`:
          -- out-of-range wraps fail `Coordinates::new`'s bound check, exactly
          -- like a negative `Int` here.
          let col : Int := (file.toNat : Int) - ('a'.toNat : Int)
          let row : Int :=
            if rank.isDigit then (8 : Int) - (rank.toNat - '0'.toNat : Nat) else 99
          Coordinates.new row col
      | _ => none
  let halfmove_clock := (parse_usize (parts.getD 4 ['0'])).getD 0
  let fullmove_clock := (parse_usize (parts.getD 5 ['1'])).getD 1
  let move_counter := MoveCounter.from_parts halfmove_clock 0 fullmove_clock
  let board : BoardFrontend :=
    { backend
      turn
      castling_rights_log := [castling_rights]
      en_passant_target
      move_counter
      move_log := []
      repetition_table := []
      outcome := none
      in_check := false }
  let ck ← board.is_in_check
  let board := { board with in_check := ck }
  let snapshot := board.create_snapshot
  pure { board with repetition_table := [(snapshot, 1)] }

/-! ## FEN lexer/parser (bonsai-chess/src/board/fen.rs)

`from_fen` returns `Result<(PositionSnapshot, MoveCounter), FenParsingError>`;
the clock lexers additionally contain `num_str.parse().unwrap()`, which
panics when the digit string exceeds `usize::MAX`.  The model therefore has
type `Option (Except FenParsingError _)` with the outer `none` standing for
that panic.  The `String` payloads of the error variants abbreviate the
source's `format!` payloads. -/

/-- `FenToken` (fen.rs). -/
inductive FenToken where
  | WhiteSpace
  | EmptySquares (n : Nat)
  | PieceTok (p : Piece)
  | RankSeparator
  | SideToMove (t : Team)
  | NoCastling
  | CastlingEnabled (t : Team) (side : CastlingSide)
  | NoEnPassant
  | EnPassantFile (c : Char)
  | EnPassantRank (c : Char)
  | Halfmove (n : Nat)
  | Fullmove (n : Nat)
deriving DecidableEq, Repr

/-- `FenParsingError` (fen.rs). -/
inductive FenParsingError where
  | UnexpectedEndOfInput
  | InvalidPiecePlacement (s : String)
  | InvalidSideToMove (s : String)
  | InvalidCastlingRights (s : String)
  | InvalidEnPassant (s : String)
  | InvalidClock (s : String)
  | UnexpectedToken (s : String)
deriving DecidableEq, Repr

/-- `Lexer::lex_piece_placement`, as a function of the consumed character. -/
def lex_piece_placement_char (c : Char) : Option FenToken :=
  if c = '/' then some .RankSeparator
  else if '1' ≤ c ∧ c ≤ '8' then some (.EmptySquares (c.toNat - '0'.toNat))
  else
    match char_to_piece c with
    | some p =>
        -- the twelve explicit `'P' => …, 'k' => …` arms of the source
        if c.isUpper ∨ c.isLower then some (.PieceTok p) else none
    | none => none

/-- `Lexer::lex_side_to_move`, as a function of the consumed character. -/
def lex_side_char (c : Char) : Option FenToken :=
  if c = 'w' then some (.SideToMove .White)
  else if c = 'b' then some (.SideToMove .Black)
  else none

/-- `Lexer::lex_castling`, as a function of the consumed character. -/
def lex_castling_char (c : Char) : Option FenToken :=
  if c = '-' then some .NoCastling
  else if c = 'K' then some (.CastlingEnabled .White .Short)
  else if c = 'Q' then some (.CastlingEnabled .White .Long)
  else if c = 'k' then some (.CastlingEnabled .Black .Short)
  else if c = 'q' then some (.CastlingEnabled .Black .Long)
  else none

/-- `Lexer::lex_en_passant`, as a function of the consumed character. -/
def lex_en_passant_char (c : Char) : Option FenToken :=
  if 'a' ≤ c ∧ c ≤ 'h' then some (.EnPassantFile c)
  else if c = '3' ∨ c = '6' then some (.EnPassantRank c)
  else if c = '-' then some .NoEnPassant
  else none

/-- The lexer state (fen.rs `Lexer`): remaining input and current field. -/
structure FenLexer where
  input : List Char
  current_field : Nat
deriving DecidableEq, Repr

/-- `Lexer::next_token`.  A leading space is consumed as `WhiteSpace` and
advances the field; otherwise the current field's sub-lexer runs.  The
result's outer `none` is the `parse().unwrap()` panic of
`lex_halfmove_clock`/`lex_fullmove_counter` on a clock value above
`usize::MAX`. -/
def FenLexer.next_token (lx : FenLexer) : Option (Option FenToken × FenLexer) :=
  match lx.input with
  | ' ' :: rest => some (some .WhiteSpace, ⟨rest, lx.current_field + 1⟩)
  | input =>
      match lx.current_field with
      | 0 =>
          match input with
          | [] => some (none, lx)
          | c :: rest => some (lex_piece_placement_char c, ⟨rest, 0⟩)
      | 1 =>
          match input with
          | [] => some (none, lx)
          | c :: rest => some (lex_side_char c, ⟨rest, 1⟩)
      | 2 =>
          match input with
          | [] => some (none, lx)
          | c :: rest => some (lex_castling_char c, ⟨rest, 2⟩)
      | 3 =>
          match input with
          | [] => some (none, lx)
          | c :: rest => some (lex_en_passant_char c, ⟨rest, 3⟩)
      | 4 =>
          let num_str := input.takeWhile Char.isDigit
          let rest := input.dropWhile Char.isDigit
          if num_str.isEmpty then some (none, ⟨rest, 4⟩)
          else
            match parse_usize num_str with
            | some v => some (some (.Halfmove v), ⟨rest, 4⟩)
            | none => none
      | 5 =>
          let num_str := input.takeWhile Char.isDigit
          let rest := input.dropWhile Char.isDigit
          if num_str.isEmpty then some (none, ⟨rest, 5⟩)
          else
            match parse_usize num_str with
            | some v => some (some (.Fullmove v), ⟨rest, 5⟩)
            | none => none
      | _ => some (none, lx)

/-- The piece-placement loop of `from_fen` (fen.rs step 1), specialised to
the field-0 tokens `next_token` can produce there (`WhiteSpace` on a leading
space, otherwise `lex_piece_placement` of the consumed character, with `none`
mapped to `UnexpectedEndOfInput` exactly as in the source's `None` arm). -/
def fen_placement_loop : List Char → Nat → Nat → Grid →
    Except FenParsingError (Grid × List Char)
  | [], _, _, _ => .error .UnexpectedEndOfInput
  | ' ' :: rest, row, col, g =>
      if row = 7 ∧ col = 8 then .ok (g, rest)
      else .error (.InvalidPiecePlacement "Board incomplete")
  | c :: rest, row, col, g =>
      match lex_piece_placement_char c with
      | some (.PieceTok p) =>
          if h : row ≤ 7 ∧ col ≤ 7 then
            fen_placement_loop rest row (col + 1)
              (g.write ⟨row, by omega⟩ ⟨col, by omega⟩ (some p))
          else .error (.InvalidPiecePlacement "Out of bounds")
      | some (.EmptySquares n) =>
          if row > 7 ∨ col + n > 8 then .error (.InvalidPiecePlacement "Row overflow")
          else fen_placement_loop rest row (col + n) g
      | some .RankSeparator =>
          if col ≠ 8 then
            .error (.InvalidPiecePlacement
              ("Row " ++ toString row ++ " incomplete (width " ++ toString col ++ ")"))
          else fen_placement_loop rest (row + 1) 0 g
      | some _ => .error (.UnexpectedToken "in Piece Placement")
      | none => .error .UnexpectedEndOfInput

/-- The castling-rights loop of `from_fen` (fen.rs step 3), specialised to
the field-2 tokens. -/
def fen_castling_loop : List Char → CastlingRights →
    Except FenParsingError (CastlingRights × List Char)
  | [], _ => .error .UnexpectedEndOfInput
  | ' ' :: rest, castling => .ok (castling, rest)
  | c :: rest, castling =>
      match lex_castling_char c with
      | some .NoCastling => fen_castling_loop rest castling
      | some (.CastlingEnabled t side) =>
          let castling := match t, side with
            | .White, .Short => castling.enable_white_king_side
            | .White, .Long => castling.enable_white_queen_side
            | .Black, .Short => castling.enable_black_king_side
            | .Black, .Long => castling.enable_black_queen_side
          fen_castling_loop rest castling
      | some _ => .error (.UnexpectedToken "in Castling Rights")
      | none => .error .UnexpectedEndOfInput

/-- The en-passant step of `from_fen` (fen.rs step 4): one token, plus the
rank token after a file token.  Returns the target and the remaining lexer
state (field 3). -/
def fen_en_passant : List Char →
    Except FenParsingError (Option Coordinates × List Char)
  | [] => .error .UnexpectedEndOfInput
  | ' ' :: _ => .error (.UnexpectedToken "WhiteSpace in En Passant")
  | c :: rest =>
      match lex_en_passant_char c with
      | some .NoEnPassant => .ok (none, rest)
      | some (.EnPassantFile file) =>
          -- the inner `next_token` looking for the rank
          (match rest with
          | c2 :: rest2 =>
              if c2 = ' ' then .error (.InvalidEnPassant "Missing rank after file")
              else
                match lex_en_passant_char c2 with
                | some (.EnPassantRank rank_char) =>
                    let file_idx : Int := (file.toNat : Int) - ('a'.toNat : Int)
                    let rank_val : Nat := rank_char.toNat - '0'.toNat
                    let row_idx : Int := 8 - (rank_val : Int)
                    .ok (Coordinates.new row_idx file_idx, rest2)
                | _ => .error (.InvalidEnPassant "Missing rank after file")
          | [] => .error (.InvalidEnPassant "Missing rank after file"))
      | some (.EnPassantRank _) => .error (.UnexpectedToken "in En Passant")
      | some _ => .error (.UnexpectedToken "in En Passant")
      | none => .error .UnexpectedEndOfInput

/-- Steps 5–6 of `from_fen`: the optional clock fields, using the general
`next_token` (these are the only places the lexer can panic). -/
def fen_clocks (lx : FenLexer) :
    Option (Except FenParsingError (Nat × Nat)) :=
  -- 5. Halfmove clock
  match lx.next_token with
  | none => none
  | some (none, lx) => fen_full lx 0
  | some (some .WhiteSpace, lx) =>
      (match lx.next_token with
      | none => none
      | some (some (.Halfmove v), lx) => fen_full lx v
      | some (_, _) => some (.error (.InvalidClock "Expected halfmove clock")))
  | some (some _, _) =>
      some (.error (.UnexpectedToken "expected whitespace before halfmove"))
where
  /-- 6. Fullmove counter. -/
  fen_full (lx : FenLexer) (halfmove_clock : Nat) :
      Option (Except FenParsingError (Nat × Nat)) :=
    match lx.next_token with
    | none => none
    | some (none, _) => some (.ok (halfmove_clock, 1))
    | some (some .WhiteSpace, lx) =>
        (match lx.next_token with
        | none => none
        | some (some (.Fullmove v), _) => some (.ok (halfmove_clock, v))
        | some (_, _) => some (.error (.InvalidClock "Expected fullmove counter")))
    | some (some _, _) =>
        some (.error (.UnexpectedToken "expected whitespace before fullmove"))

/-- `from_fen` (fen.rs lines 182–370), on a character list.  The outer
`Option` is the `parse().unwrap()` panic. -/
def from_fen_chars (input : List Char) :
    Option (Except FenParsingError (PositionSnapshot × MoveCounter)) :=
  match fen_placement_loop input 0 0 (fun _ _ => none) with
  | .error e => some (.error e)
  | .ok (grid, rest) =>
      -- 2. Side to move, then the expected whitespace
      match rest with
      | [] => some (.error .UnexpectedEndOfInput)
      | c :: rest =>
          if c = ' ' then some (.error (.UnexpectedToken "WhiteSpace in Side to Move"))
          else
            match lex_side_char c with
            | some (.SideToMove turn) =>
                (match rest with
                | [] => some (.error .UnexpectedEndOfInput)
                | c2 :: rest =>
                    if c2 = ' ' then
                      -- 3. Castling rights
                      match fen_castling_loop rest CastlingRights.no_rights with
                      | .error e => some (.error e)
                      | .ok (castling, rest) =>
                          -- 4. En passant
                          match fen_en_passant rest with
                          | .error e => some (.error e)
                          | .ok (en_passant, rest) =>
                              -- 5.–6. Clocks
                              match fen_clocks ⟨rest, 3⟩ with
                              | none => none
                              | some (.error e) => some (.error e)
                              | some (.ok (halfmove_clock, fullmove_number)) =>
                                  let total_halfmoves :=
                                    (fullmove_number - 1) * 2 +
                                      (if turn = .Black then 1 else 0)
                                  let move_counter := MoveCounter.from_parts
                                    halfmove_clock total_halfmoves fullmove_number
                                  let position : PositionSnapshot :=
                                    ⟨grid, turn, castling, en_passant⟩
                                  some (.ok (position, move_counter))
                    else
                      if (lex_side_char c2).isSome then
                        some (.error (.UnexpectedToken "expected whitespace after side"))
                      else some (.error .UnexpectedEndOfInput))
            | _ => some (.error .UnexpectedEndOfInput)

/-- `from_fen` on a `String`. -/
def from_fen (fen : String) :
    Option (Except FenParsingError (PositionSnapshot × MoveCounter)) :=
  from_fen_chars fen.toList

/-- The `Display` character of a piece (pieces/piece.rs): uppercase for
White, lowercase for Black. -/
def piece_char (p : Piece) : Char :=
  match p.team, p.kind with
  | .White, .King => 'K'
  | .White, .Queen => 'Q'
  | .White, .Rook => 'R'
  | .White, .Bishop => 'B'
  | .White, .Knight => 'N'
  | .White, .Pawn => 'P'
  | .Black, .King => 'k'
  | .Black, .Queen => 'q'
  | .Black, .Rook => 'r'
  | .Black, .Bishop => 'b'
  | .Black, .Knight => 'n'
  | .Black, .Pawn => 'p'

/-- `usize::to_string`, decimal.  Structural recursion on a fuel bounded by
the value itself (any fuel above the digit count gives the same digits), so
that the definition evaluates inside the kernel. -/
def nat_to_chars_go : Nat → Nat → List Char
  | 0, _ => []
  | fuel + 1, n =>
      if n < 10 then [Char.ofNat ('0'.toNat + n)]
      else nat_to_chars_go fuel (n / 10) ++ [Char.ofNat ('0'.toNat + n % 10)]

/-- `usize::to_string`, decimal, as a character list. -/
def nat_to_chars (n : Nat) : List Char :=
  nat_to_chars_go (n + 1) n

/-- One rank of `to_fen`'s piece placement: runs of empty squares become
their count, pieces become their `Display` character; a trailing run is
flushed at the end. -/
def row_to_fen : List Square → Nat → List Char
  | [], empty_count => if empty_count > 0 then nat_to_chars empty_count else []
  | some piece :: rest, empty_count =>
      (if empty_count > 0 then nat_to_chars empty_count else []) ++
        piece_char piece :: row_to_fen rest 0
  | none :: rest, empty_count => row_to_fen rest (empty_count + 1)

/-- One row of the grid as the list of its eight squares. -/
def grid_row (g : Grid) (r : Fin 8) : List Square :=
  (List.finRange 8).map fun c => g r c

/-- Ranks joined with `/` (to_fen pushes `/` after every rank but the
last). -/
def join_slash : List (List Char) → List Char
  | [] => []
  | [x] => x
  | x :: xs => x ++ '/' :: join_slash xs

/-- `Coordinates::to_algebraic_notation`: file letter then rank digit
(row 0 is rank 8). -/
def to_algebraic (c : Coordinates) : List Char :=
  [Char.ofNat ('a'.toNat + c.column), Char.ofNat ('0'.toNat + (8 - c.row.val))]

/-- `to_fen` (fen.rs lines 101–178), producing the character list of the
six space-separated fields. -/
def to_fen_chars (position : PositionSnapshot) (clocks : MoveCounter) : List Char :=
  let placement := join_slash
    ((List.finRange 8).map fun r => row_to_fen (grid_row position.pieces_positions r) 0)
  let side : List Char := match position.turn with
    | .White => ['w']
    | .Black => ['b']
  let castling_str :=
    (if position.remaining_castling_rights.white_king_side then ['K'] else []) ++
    (if position.remaining_castling_rights.white_queen_side then ['Q'] else []) ++
    (if position.remaining_castling_rights.black_king_side then ['k'] else []) ++
    (if position.remaining_castling_rights.black_queen_side then ['q'] else [])
  let castling := if castling_str.isEmpty then ['-'] else castling_str
  let ep := match position.en_passant with
    | some coord => to_algebraic coord
    | none => ['-']
  placement ++ ' ' :: side ++ ' ' :: castling ++ ' ' :: ep ++ ' ' ::
    nat_to_chars clocks.fifty_counter ++ ' ' :: nat_to_chars clocks.fullmove

/-- `to_fen` on `String`. -/
def to_fen (position : PositionSnapshot) (clocks : MoveCounter) : String :=
  ⟨to_fen_chars position clocks⟩

/-! ## Search engine (bonsai-engine/src) -/

/-- Engine constants (bonsai-engine/src/config/mod.rs). -/
def SCORING_PROMOTING_PAWNS_BONUS : Int := 800

def CHECKMATE_SCORE : Int := 1000000

def DRAW_SCORE : Int := 0

def MAX_DEPTH : Nat := 50

/-- `get_piece_value` (bonsai-engine/src/evaluation/mod.rs). -/
def get_piece_value : Kind → Int
  | .Pawn => 100
  | .Knight => 320
  | .Bishop => 330
  | .Rook => 500
  | .Queen => 900
  | .King => 20000

/-- `score_move` (bonsai-engine/src/evaluation/score_move.rs): MVV-LVA plus
a promotion bonus. -/
def score_move (ply : Ply) : Int :=
  let score : Int := 0
  let score := match ply.piece_captured with
    | some captured =>
        score + 10 * get_piece_value captured.kind - get_piece_value ply.piece_moved.kind
    | none => score
  match ply.special_move with
  | some (.Promotion _) => score + SCORING_PROMOTING_PAWNS_BONUS
  | _ => score

/-- Modelled from the spec: the piece-square tables
(`bonsai-engine/src/evaluation/piece_square_tables.rs`, which is not present
under `src/`).  The spec says only that they are per-square positional
bonuses, mirrored vertically for the opposing team; their numeric entries are
unspecified (and irrelevant to every claim), so they are modelled as the zero
table. -/
def PAWN_TABLE : Nat → Int := fun _ => 0

/-- Modelled from the spec: see `PAWN_TABLE`. -/
def KNIGHT_TABLE : Nat → Int := fun _ => 0

/-- Modelled from the spec: the vertical mirror of a 0–63 square index
(`piece_square_tables.rs` is not present under `src/`). -/
def flip_square (sq : Nat) : Nat := 63 - sq

/-- `evaluate_position` (bonsai-engine/src/evaluation/score_position.rs):
mate/draw score on a terminal outcome, otherwise material plus piece-square
bonus summed relative to the side to move. -/
def evaluate_position (state : BoardFrontend) : Int :=
  match state.outcome with
  | some (.Win winner _) =>
      if winner = state.turn then CHECKMATE_SCORE else -CHECKMATE_SCORE
  | some (.Draw _) => DRAW_SCORE
  | none =>
      state.backend.get_all_pieces.foldl
        (fun score lp =>
          let kind := lp.piece.kind
          let team := lp.piece.team
          let material := get_piece_value kind
          let sq_index := lp.position.row.val * 8 + lp.position.column.val
          let position_bonus :=
            match kind with
            | .Pawn =>
                if team = .White then PAWN_TABLE sq_index
                else PAWN_TABLE (flip_square sq_index)
            | .Knight =>
                if team = .White then KNIGHT_TABLE sq_index
                else KNIGHT_TABLE (flip_square sq_index)
            | _ => 0
          let total_val := material + position_bonus
          if team = state.turn then score + total_val else score - total_val)
        0

/-- `isize::MAX`, the sort key given to the hash move. -/
def ISIZE_MAX : Int := 2 ^ 63 - 1

/-- `sort_by_cached_key` is a stable ascending sort by key; modelled with the
stable `List.mergeSort`. -/
def sort_by_key (key : Ply → Int) (l : List Ply) : List Ply :=
  l.mergeSort (fun a b => key a ≤ key b)

/-- The capture loop of `quiescence` (make, recurse negated, undo, beta
cutoff), abstracted over the recursive call (`recurse` is the
one-fuel-smaller `quiescence`, so that the recursion below is structural on
the fuel and reduces in the kernel). -/
def quiescence_loop
    (recurse : BoardFrontend → Int → Int → Option (Int × BoardFrontend)) :
    List Ply → BoardFrontend → Int → Int → Option (Int × BoardFrontend)
  | [], state, alpha, _ => some (alpha, state)
  | ply :: rest, state, alpha, beta => do
      let state ← state.make_move ply
      let (s, state) ← recurse state (-beta) (-alpha)
      let score := -s
      let state ← state.undo_last_move
      if score ≥ beta then
        pure (beta, state)
      else
        quiescence_loop recurse rest state (if score > alpha then score else alpha) beta

/-- `quiescence` (bonsai-engine/src/search/quiescence.rs).  The recursion has
no syntactic decreasing measure (it terminates because each recursive step
captures a piece), so the model takes a fuel argument; `none` means the fuel
ran out or a panic path inside the chess core was hit.  The Rust function
mutates `state` through its make/undo pairs, so the resulting state is
returned alongside the score. -/
def quiescence : Nat → BoardFrontend → Int → Int → Option (Int × BoardFrontend)
  | 0, _, _, _ => none
  | fuel + 1, state, alpha, beta => do
      let stand_pat := evaluate_position state
      if stand_pat ≥ beta then
        pure (beta, state)
      else
        let alpha := if stand_pat > alpha then stand_pat else alpha
        let (moves, state) ← state.get_legal_moves
        let moves := moves.filter fun m => m.piece_captured.isSome
        let moves := sort_by_key (fun m => -score_move m) moves
        quiescence_loop (quiescence fuel) moves state alpha beta

/-- The negamax loop of `alpha_beta` over the ordered moves, abstracted over
the recursive call (`recurse` is the one-fuel-smaller `alpha_beta`; the
`-(2 ^ 63)` initial best score at the call site is `isize::MIN`). -/
def ab_loop
    (recurse : BoardFrontend → Nat → Int → Int → Option Ply →
      TranspositionTable →
      Option (Int × Option Ply × BoardFrontend × TranspositionTable))
    (depth : Nat) : List Ply → BoardFrontend → Int → Int → Option Ply → Int →
    TranspositionTable →
    Option (Int × Option Ply × BoardFrontend × TranspositionTable)
  | [], state, _, _, best_move, best_score, tt =>
      some (best_score, best_move, state, tt)
  | ply :: rest, state, alpha, beta, best_move, best_score, tt => do
      let state ← state.make_move ply
      let (s, _, state, tt) ← recurse state (depth - 1) (-beta) (-alpha) none tt
      let score := -s
      let state ← state.undo_last_move
      let (best_score, best_move) :=
        if score > best_score then (score, some ply) else (best_score, best_move)
      let alpha := max alpha score
      if alpha ≥ beta then
        pure (best_score, best_move, state, tt)
      else
        ab_loop recurse depth rest state alpha beta best_move best_score tt

/-- `alpha_beta` (bonsai-engine/src/search/alpha_beta_prunning.rs).

Mirrors the source step by step: transposition-table probe (hash move,
depth-covered early return or window narrowing), terminal-outcome mate/draw
scores, quiescence hand-off at depth 0, the defensive static-evaluation
fallback, hash-move-first MVV-LVA ordering, the negamax loop with beta
cutoff, and the depth-priority store classified against the original window.

The `best_move_found : Option Ply` argument is the Rust `&mut` out-parameter:
its input value is what the caller's variable held, the second component of
the result is its final value.  The result also carries the final state and
transposition table (both mutated through `&mut` in Rust).  The recursion is
modelled with fuel (`none` = fuel exhausted or a panic inside the chess
core); every terminating Rust execution is reproduced by every sufficiently
large fuel. -/
def alpha_beta : Nat → BoardFrontend → Nat → Int → Int → Option Ply →
    TranspositionTable → Option (Int × Option Ply × BoardFrontend × TranspositionTable)
  | 0, _, _, _, _, _, _ => none
  | fuel + 1, state, depth, alpha, beta, best_move_found, tt => do
      let snapshot := state.create_snapshot
      -- 1. Transposition table lookup
      let probe : Option (Int × Option Ply) ×
          (Int × Int × Option Ply) :=
        match tt.get snapshot with
        | none => (none, (alpha, beta, none))
        | some entry =>
            let hash_move := entry.best_move
            if entry.depth ≥ depth then
              match entry.node_type with
              | .Exact =>
                  (some (entry.score,
                    match entry.best_move with
                    | some mv => some mv
                    | none => best_move_found), (alpha, beta, hash_move))
              | .Lower =>
                  let alpha := max alpha entry.score
                  if alpha ≥ beta then
                    (some (entry.score,
                      match entry.best_move with
                      | some mv => some mv
                      | none => best_move_found), (alpha, beta, hash_move))
                  else (none, (alpha, beta, hash_move))
              | .Upper =>
                  let beta := min beta entry.score
                  if alpha ≥ beta then
                    (some (entry.score,
                      match entry.best_move with
                      | some mv => some mv
                      | none => best_move_found), (alpha, beta, hash_move))
                  else (none, (alpha, beta, hash_move))
            else (none, (alpha, beta, hash_move))
      match probe.1 with
      | some (score, bm) => pure (score, bm, state, tt)
      | none =>
          let (alpha, beta, hash_move) := probe.2
          -- 2. Terminal outcome
          match state.outcome with
          | some (.Win winner _) =>
              let score := CHECKMATE_SCORE + (depth : Int)
              pure (if winner = state.turn then score else -score,
                best_move_found, state, tt)
          | some (.Draw _) => pure (DRAW_SCORE, best_move_found, state, tt)
          | none =>
              -- 3. Depth exhaustion: quiescence
              if depth = 0 then do
                let (score, state) ← quiescence fuel state alpha beta
                pure (score, best_move_found, state, tt)
              else do
                let (moves, state) ← state.get_legal_moves
                -- 4. Defensive fallback
                if moves.isEmpty then
                  pure (evaluate_position state, best_move_found, state, tt)
                else
                  -- 5. Move ordering: hash move first, then MVV-LVA
                  let moves := sort_by_key
                    (fun m => if some m = hash_move then ISIZE_MAX else -score_move m)
                    moves
                  let old_alpha := alpha
                  -- 6. Negamax loop
                  let (best_score, best_move, state, tt) ←
                    ab_loop (alpha_beta fuel) depth moves state alpha beta none
                      (- (2 ^ 63)) tt
                  -- 7. Store, classified against the original window
                  let node_type : NodeType :=
                    if best_score ≤ old_alpha then .Upper
                    else if best_score ≥ beta then .Lower
                    else .Exact
                  let tt := tt.insert snapshot
                    ⟨best_score, depth, node_type, best_move⟩
                  pure (best_score, best_move, state, tt)


/-! ## Example states used by witnesses -/

/-- A position controller with an outcome already set (used to witness the
no-op behaviour of `make_move`). -/
def finished_game : BoardFrontend :=
  { BoardFrontend.from_starting_position with
      outcome := some (.Draw .DrawByAgreement) }

/-- An arbitrary concrete ply (a white pawn push a2a3). -/
def sample_ply : Ply :=
  ⟨⟨6, 0⟩, ⟨5, 0⟩, Piece.new .White .Pawn, none, none⟩

/-- A controller whose current snapshot has repetition count 3 and whose
fifty-move counter is 100 (both claim thresholds met, neither forced
threshold met). -/
def claimable_state : BoardFrontend :=
  let s := BoardFrontend.from_starting_position
  { s with
      repetition_table := [(s.create_snapshot, 3)]
      move_counter := MoveCounter.from_parts 100 0 1 }

/-- The king move a1→b1 in the two-kings position below. -/
def kings_ply : Ply :=
  ⟨⟨7, 0⟩, ⟨7, 1⟩, Piece.new .White .King, none, none⟩

/-- A state whose game is already decided (used for C9): Black is to move
and White has won. -/
def mated_state : BoardFrontend :=
  { BoardFrontend.from_starting_position with
      turn := .Black
      outcome := some (.Win .White .Checkmate) }

/-- A transposition table holding an `Exact`, depth-3 entry with score 42
for `mated_state`'s snapshot. -/
def poisoned_tt : TranspositionTable :=
  TranspositionTable.new.insert mated_state.create_snapshot
    ⟨42, 3, .Exact, none⟩


/-- The two-kings-and-a-pawn FEN with a bogus en-passant target (no black
pawn ever double-pushed to make a5/a6 an en-passant context); used by the
C2 and C10 counterexamples. -/
def bogus_ep_fen : String := "k7/8/8/1P6/8/8/8/K7 w - a6 0 1"

/-- The en-passant capture b5xa6 the generator emits in `bogus_ep_fen`'s
position (captured-pawn coordinate a5 — which is empty there). -/
def ep_ply : Ply :=
  ⟨⟨3, 1⟩, ⟨2, 0⟩, Piece.new .White .Pawn, some (Piece.new .Black .Pawn),
    some (.EnPassant ⟨3, 0⟩)⟩

/-- The frontend state parsed from `bogus_ep_fen`. -/
def bogus_ep_state : BoardFrontend :=
  (BoardFrontend.from_fen bogus_ep_fen).getD BoardFrontend.from_starting_position

/-! ## Predicates used by the make/undo-inverse claims -/

/-- The cached king location of a team. -/
def BoardBackend.king_loc (b : BoardBackend) : Team → Coordinates
  | .White => b.white_king_location
  | .Black => b.black_king_location

/-- The backend's king-cache invariant, established by `BoardBackend::new`
(exactly one king per team, cached locations correct): a square holds the
`t`-king iff it is the cached location for `t`.  Stated with bounded list
quantifiers so that it is decidable on concrete boards. -/
def BoardBackend.Inv (b : BoardBackend) : Prop :=
  ∀ r ∈ List.finRange 8, ∀ cl ∈ List.finRange 8,
    (b.get ⟨r, cl⟩ = some (Piece.new .White .King) ↔
      (⟨r, cl⟩ : Coordinates) = b.white_king_location) ∧
    (b.get ⟨r, cl⟩ = some (Piece.new .Black .King) ↔
      (⟨r, cl⟩ : Coordinates) = b.black_king_location)

instance (b : BoardBackend) : Decidable b.Inv := by
  unfold BoardBackend.Inv
  infer_instance

/-- The facts about a ply (relative to the board it was generated in) that
hold of every pseudo-legal move — proved in `generate_sound` — and that,
together with `BoardBackend.Inv` and (for en passant only) `EpOk`, make
`undo_move` the exact inverse of `make_move`. -/
def MoveOk (b : BoardBackend) (m : Ply) : Prop :=
  b.get m.starting_square = some m.piece_moved ∧
  m.starting_square ≠ m.ending_square ∧
  (∀ p, m.piece_captured = some p → p.team ≠ m.piece_moved.team) ∧
  match m.special_move with
  | none => m.piece_captured = b.get m.ending_square
  | some (.Promotion _) =>
      m.piece_captured = b.get m.ending_square ∧ m.piece_moved.kind = .Pawn
  | some (.EnPassant cc) =>
      m.piece_moved.kind = .Pawn ∧ cc ≠ m.starting_square ∧ cc ≠ m.ending_square
  | some (.Castle side) =>
      m.piece_moved.kind = .King ∧ m.piece_captured = none ∧
      b.get m.ending_square = none ∧
      m.ending_square.column = (match side with | .Short => (6 : Fin 8) | .Long => 2) ∧
      b.get ⟨m.ending_square.row,
        match side with | .Short => (5 : Fin 8) | .Long => 3⟩ = none ∧
      ∃ rook, b.get ⟨m.ending_square.row,
        match side with | .Short => (7 : Fin 8) | .Long => 0⟩ = some rook ∧
          rook.kind = .Rook

/-- A well-formed en-passant context for a ply: the captured-pawn square
holds the enemy pawn and the landing square is empty — exactly what an
actual immediately-preceding double push guarantees.  (Claim C2's
counterexample shows `undo_move ∘ make_move = id` genuinely needs this.)
Trivially true for non-en-passant plies. -/
def EpOk (b : BoardBackend) (m : Ply) : Prop :=
  match m.special_move with
  | some (.EnPassant cc) =>
      b.get cc = some (Piece.new m.piece_moved.team.opposite .Pawn) ∧
      b.get m.ending_square = none
  | _ => True

instance (b : BoardBackend) (m : Ply) : Decidable (EpOk b m) := by
  unfold EpOk
  exact match m.special_move with
  | some (.Castle _) => isTrue trivial
  | some (.EnPassant _) => instDecidableAnd
  | some (.Promotion _) => isTrue trivial
  | none => isTrue trivial

/-! ## The castling conditions in the specification's words (for C8) -/

/-- The back rank of a team. -/
def castle_row : Team → Fin 8
  | .White => 7
  | .Black => 0

/-- The squares strictly between the king's home square and the rook's
corner. -/
def between_squares (side : CastlingSide) (row : Fin 8) : List Coordinates :=
  match side with
  | .Short => [⟨row, 5⟩, ⟨row, 6⟩]
  | .Long => [⟨row, 1⟩, ⟨row, 2⟩, ⟨row, 3⟩]

/-- The squares the king transits through, including its destination. -/
def king_transit_squares (side : CastlingSide) (row : Fin 8) : List Coordinates :=
  match side with
  | .Short => [⟨row, 5⟩, ⟨row, 6⟩]
  | .Long => [⟨row, 3⟩, ⟨row, 2⟩]

/-- The corner the rook is expected on. -/
def rook_corner (side : CastlingSide) (row : Fin 8) : Coordinates :=
  match side with
  | .Short => ⟨row, 7⟩
  | .Long => ⟨row, 0⟩

/-- The king's castling destination. -/
def castle_destination (side : CastlingSide) (row : Fin 8) : Coordinates :=
  match side with
  | .Short => ⟨row, 6⟩
  | .Long => ⟨row, 2⟩

/-- Does this side/team combination still hold the castling right? -/
def right_held (cr : CastlingRights) (team : Team) (side : CastlingSide) : Bool :=
  match team, side with
  | .White, .Short => cr.white_king_side
  | .White, .Long => cr.white_queen_side
  | .Black, .Short => cr.black_king_side
  | .Black, .Long => cr.black_queen_side

/-- The specification's castling conditions (spec §4.1): the right is still
held, the king is not currently attacked, all squares strictly between king
and rook are empty, every square the king transits through (including its
destination) is not attacked by the opponent, and a rook of the correct team
sits at the expected corner. -/
def spec_castle_ok (lp : LocatedPiece) (b : BoardBackend) (cr : CastlingRights)
    (side : CastlingSide) : Prop :=
  let ally := lp.piece.team
  let enemy := ally.opposite
  let row := castle_row ally
  right_held cr ally side = true ∧
  ¬ b.is_square_under_attack lp.position enemy ∧
  (∀ c ∈ between_squares side row, b.get c = none) ∧
  (∀ c ∈ king_transit_squares side row, ¬ b.is_square_under_attack c enemy) ∧
  b.get (rook_corner side row) = some (Piece.new ally .Rook)

instance (lp : LocatedPiece) (b : BoardBackend) (cr : CastlingRights)
    (side : CastlingSide) : Decidable (spec_castle_ok lp b cr side) := by
  unfold spec_castle_ok
  infer_instance

/-- A genuine en-passant position: the same board as `bogus_ep_fen` but with
the black pawn that just double-pushed actually standing on a5, so `ep_ply`
is a well-formed en-passant capture here. -/
def real_ep_state : BoardFrontend :=
  (BoardFrontend.from_fen "k7/8/8/pP6/8/8/8/K7 w - a6 0 1").getD
    BoardFrontend.from_starting_position

/-- The legal-move list `get_legal_moves` computes in `real_ep_state`
(with an irrelevant fallback), used by the C10 witness. -/
def real_ep_legal_moves : List Ply :=
  ((real_ep_state.get_legal_moves).getD ([], real_ep_state)).fst

/-- A castling position (white to move, both white rights held):
`4k3/8/8/8/8/8/8/R3K2R w KQ - 0 1`. -/
def castle_state : BoardFrontend :=
  (BoardFrontend.from_fen "4k3/8/8/8/8/8/8/R3K2R w KQ - 0 1").getD
    BoardFrontend.from_starting_position

/-- A syntactically valid FEN used as the concrete round-trip witness. -/
def sample_fen : String := "r3k2r/8/8/pP6/8/8/8/R3K2R b Kq c6 42 99"

/-- `sample_fen`'s parse (total, with an irrelevant fallback). -/
def sample_parse : PositionSnapshot × MoveCounter :=
  (((from_fen sample_fen).getD (.error .UnexpectedEndOfInput)).toOption).getD
    ⟨⟨fun _ _ => none, .White, CastlingRights.no_rights, none⟩, MoveCounter.new⟩

/-! ## Board-backend lemmas -/

theorem Coordinates.eq_iff {c d : Coordinates} :
    c = d ↔ c.row = d.row ∧ c.column = d.column := by
  constructor
  · intro h; subst h; exact ⟨rfl, rfl⟩
  · intro ⟨h1, h2⟩; cases c; cases d; cases h1; cases h2; rfl

theorem Coordinates.new_eq_some {x y : Int} {c : Coordinates} :
    Coordinates.new x y = some c ↔ (c.row : Int) = x ∧ (c.column : Int) = y := by
  unfold Coordinates.new
  split
  · next h =>
      constructor
      · intro he
        injection he with he
        subst he
        constructor
        · show ((x.toNat : Nat) : Int) = x
          omega
        · show ((y.toNat : Nat) : Int) = y
          omega
      · intro ⟨h1, h2⟩
        congr 1
        rw [Coordinates.eq_iff]
        refine ⟨Fin.ext ?_, Fin.ext ?_⟩
        · show x.toNat = (c.row : Nat)
          omega
        · show y.toNat = (c.column : Nat)
          omega
  · next h =>
      constructor
      · intro he; cases he
      · intro ⟨h1, h2⟩
        exfalso
        apply h
        have hr := c.row.isLt
        have hc := c.column.isLt
        refine ⟨by omega, by omega, by omega, by omega⟩

theorem BoardBackend.get_set (b : BoardBackend) (p : Piece) (c c' : Coordinates) :
    (b.set p c).get c' = if c' = c then some p else b.get c' := by
  unfold BoardBackend.set BoardBackend.get Grid.write
  simp only [Coordinates.eq_iff]

theorem BoardBackend.get_unset (b : BoardBackend) (c c' : Coordinates) :
    (b.unset c).get c' = if c' = c then none else b.get c' := by
  unfold BoardBackend.unset BoardBackend.get Grid.write
  simp only [Coordinates.eq_iff]

theorem BoardBackend.set_wkl (b : BoardBackend) (p : Piece) (c : Coordinates) :
    (b.set p c).white_king_location =
      if p.kind = .King ∧ p.team = .White then c else b.white_king_location := rfl

theorem BoardBackend.set_bkl (b : BoardBackend) (p : Piece) (c : Coordinates) :
    (b.set p c).black_king_location =
      if p.kind = .King ∧ p.team = .Black then c else b.black_king_location := rfl

theorem BoardBackend.unset_wkl (b : BoardBackend) (c : Coordinates) :
    (b.unset c).white_king_location = b.white_king_location := rfl

theorem BoardBackend.unset_bkl (b : BoardBackend) (c : Coordinates) :
    (b.unset c).black_king_location = b.black_king_location := rfl

/-- Two backends are equal when they agree square-wise and on the cached
king locations. -/
theorem BoardBackend.eq_of_parts {b1 b2 : BoardBackend}
    (hg : ∀ c, b1.get c = b2.get c)
    (hw : b1.white_king_location = b2.white_king_location)
    (hb : b1.black_king_location = b2.black_king_location) : b1 = b2 := by
  obtain ⟨g1, w1, k1⟩ := b1
  obtain ⟨g2, w2, k2⟩ := b2
  cases hw; cases hb
  have : g1 = g2 := funext fun r => funext fun cl => hg ⟨r, cl⟩
  cases this
  rfl

/-- The `Inv` invariant, repackaged over all coordinates. -/
theorem BoardBackend.inv_iff {b : BoardBackend} (h : b.Inv) :
    ∀ (c : Coordinates) (t : Team),
      b.get c = some (Piece.new t .King) ↔ c = b.king_loc t := by
  intro c t
  have hc := h c.row (List.mem_finRange _) c.column (List.mem_finRange _)
  cases t
  · exact hc.1
  · exact hc.2

/-! ## Soundness of the pseudo-legal generator -/

theorem slide_dir_sound {lp : LocatedPiece} {b : BoardBackend} {dr dc : Int}
    (hlp : b.get lp.position = some lp.piece) (hd : ¬(dr = 0 ∧ dc = 0)) :
    ∀ (fuel step : Nat), 1 ≤ step → ∀ m ∈ slide_dir lp b dr dc step fuel,
      MoveOk b m ∧ m.special_move = none ∧
      m.starting_square = lp.position ∧ m.piece_moved = lp.piece := by
  intro fuel
  induction fuel with
  | zero => intro step _ m hm; simp [slide_dir] at hm
  | succ fuel ih =>
      intro step hstep m hm
      rw [slide_dir] at hm
      rcases he : Coordinates.new ((lp.position.row : Int) + dr * step)
          ((lp.position.column : Int) + dc * step) with _ | e
      · rw [he] at hm; simp at hm
      · obtain ⟨h1, h2⟩ := Coordinates.new_eq_some.mp he
        have hne : lp.position ≠ e := by
          intro h
          rw [← h] at h1 h2
          have hdr : dr * step = 0 := by omega
          have hdc : dc * step = 0 := by omega
          rcases Int.mul_eq_zero.mp hdr with h' | h'
          · rcases Int.mul_eq_zero.mp hdc with h'' | h''
            · exact hd ⟨h', h''⟩
            · omega
          · omega
        cases hb : b.get e with
        | none =>
            simp only [he, hb, List.mem_cons] at hm
            rcases hm with rfl | hm
            · refine ⟨⟨hlp, hne, ?_, ?_⟩, rfl, rfl, rfl⟩
              · intro p hp
                cases hp
              · show (none : Square) = b.get e
                rw [hb]
            · exact ih (step + 1) (by omega) m hm
        | some captured =>
            simp only [he, hb] at hm
            by_cases hteam : captured.team = lp.piece.team
            · simp only [hteam, ne_eq, not_true_eq_false, ite_false, if_false,
                List.not_mem_nil, reduceIte] at hm
            · simp only [ne_eq, hteam, not_false_eq_true, ite_true, if_true,
                List.mem_singleton, reduceIte] at hm
              subst hm
              refine ⟨⟨hlp, hne, ?_, ?_⟩, rfl, rfl, rfl⟩
              · intro p hp
                injection hp with hp
                subst hp
                exact hteam
              · show some captured = b.get e
                rw [hb]

/-- Everything `slide` emits over non-zero directions satisfies `MoveOk`. -/
theorem slide_sound {lp : LocatedPiece} {b : BoardBackend}
    (hlp : b.get lp.position = some lp.piece) (dist : Nat)
    (dirs : List (Int × Int)) (hdirs : ∀ d ∈ dirs, ¬(d.1 = 0 ∧ d.2 = 0)) :
    ∀ m ∈ slide lp dist dirs b,
      MoveOk b m ∧ m.special_move = none ∧
      m.starting_square = lp.position ∧ m.piece_moved = lp.piece := by
  intro m hm
  unfold slide at hm
  rw [List.mem_flatMap] at hm
  obtain ⟨d, hdm, hmd⟩ := hm
  exact slide_dir_sound hlp (hdirs d hdm) dist 1 (le_refl 1) m hmd

theorem Team.opposite_ne (t : Team) : t.opposite ≠ t := by
  cases t <;> simp [Team.opposite]

theorem moveok_quiet {lp : LocatedPiece} {b : BoardBackend} {e : Coordinates}
    (hlp : b.get lp.position = some lp.piece) (hne : lp.position ≠ e)
    (hempty : b.get e = none) :
    MoveOk b ⟨lp.position, e, lp.piece, none, none⟩ := by
  refine ⟨hlp, hne, ?_, ?_⟩
  · intro p hp
    cases hp
  · show (none : Square) = b.get e
    rw [hempty]

theorem moveok_capture {lp : LocatedPiece} {b : BoardBackend} {e : Coordinates}
    {target : Piece} (hlp : b.get lp.position = some lp.piece)
    (hne : lp.position ≠ e) (hcap : b.get e = some target)
    (hteam : ¬target.team = lp.piece.team) :
    MoveOk b ⟨lp.position, e, lp.piece, some target, none⟩ := by
  refine ⟨hlp, hne, ?_, hcap.symm⟩
  intro p hp
  injection hp with hp
  subst hp
  exact hteam

theorem moveok_promo {lp : LocatedPiece} {b : BoardBackend} {e : Coordinates}
    {pc : Square} (hlp : b.get lp.position = some lp.piece)
    (hne : lp.position ≠ e) (hcap : b.get e = pc)
    (hteam : ∀ p, pc = some p → ¬p.team = lp.piece.team)
    (hkind : lp.piece.kind = .Pawn) :
    ∀ pr ∈ get_promotions, MoveOk b ⟨lp.position, e, lp.piece, pc, some pr⟩ := by
  intro pr hpr
  have hshape : ∃ v, pr = SpecialMove.Promotion v := by
    simp only [get_promotions, List.mem_cons, List.not_mem_nil, or_false] at hpr
    rcases hpr with rfl | rfl | rfl | rfl <;> exact ⟨_, rfl⟩
  obtain ⟨v, rfl⟩ := hshape
  refine ⟨hlp, hne, hteam, ?_⟩
  show pc = b.get e ∧ lp.piece.kind = .Pawn
  exact ⟨hcap.symm, hkind⟩

theorem moveok_ep {lp : LocatedPiece} {b : BoardBackend} {e cc : Coordinates}
    (hlp : b.get lp.position = some lp.piece) (hne : lp.position ≠ e)
    (hkind : lp.piece.kind = .Pawn) (hccs : cc ≠ lp.position) (hcce : cc ≠ e) :
    MoveOk b ⟨lp.position, e, lp.piece,
      some (Piece.new lp.piece.team.opposite .Pawn), some (.EnPassant cc)⟩ := by
  refine ⟨hlp, hne, ?_, ?_⟩
  · intro p hp
    injection hp with hp
    subst hp
    exact Team.opposite_ne _
  · show lp.piece.kind = .Pawn ∧ cc ≠ lp.position ∧ cc ≠ e
    exact ⟨hkind, hccs, hcce⟩

theorem pawn_moves_sound {lp : LocatedPiece} {b : BoardBackend}
    {ept : Option Coordinates} (hlp : b.get lp.position = some lp.piece)
    (hkind : lp.piece.kind = .Pawn) :
    ∀ m ∈ pawn_moves lp b ept, MoveOk b m := by
  have hdir : (match lp.piece.team with | Team.White => (-1 : Int) | Team.Black => 1) = -1 ∨
      (match lp.piece.team with | Team.White => (-1 : Int) | Team.Black => 1) = 1 := by
    cases lp.piece.team
    · exact Or.inl rfl
    · exact Or.inr rfl
  intro m hm
  unfold pawn_moves at hm
  simp only [List.mem_append] at hm
  rcases hm with (hm | hm) | hm
  · -- forward pushes
    split at hm
    · exact absurd hm (List.not_mem_nil m)
    · rename_i onef heq
      obtain ⟨hr, _⟩ := Coordinates.new_eq_some.mp heq
      have hne : lp.position ≠ onef := by
        intro he
        rw [← he] at hr
        rcases hdir with h | h <;> rw [h] at hr <;> omega
      split at hm
      · exact absurd hm (List.not_mem_nil m)
      · rename_i hocc
        have hocc' : b.get onef = none := not_not.mp hocc
        split at hm
        · rw [List.mem_map] at hm
          obtain ⟨pr, hpr, rfl⟩ := hm
          exact moveok_promo hlp hne hocc' (fun p hp => by cases hp) hkind pr hpr
        · rcases List.mem_cons.mp hm with rfl | hm
          · exact moveok_quiet hlp hne hocc'
          · split at hm
            · split at hm
              · rename_i twof heq2
                split at hm
                · rename_i hocc2
                  rcases List.mem_singleton.mp hm with rfl
                  obtain ⟨hr2, _⟩ := Coordinates.new_eq_some.mp heq2
                  have hne2 : lp.position ≠ twof := by
                    intro he
                    rw [← he] at hr2
                    rcases hdir with h | h <;> rw [h] at hr2 <;> omega
                  exact moveok_quiet hlp hne2 hocc2
                · exact absurd hm (List.not_mem_nil m)
              · exact absurd hm (List.not_mem_nil m)
            · exact absurd hm (List.not_mem_nil m)
  · -- left diagonal
    split at hm
    · exact absurd hm (List.not_mem_nil m)
    · rename_i cap heq
      obtain ⟨hr, hc⟩ := Coordinates.new_eq_some.mp heq
      have hne : lp.position ≠ cap := by
        intro he
        rw [← he] at hr
        rcases hdir with h | h <;> rw [h] at hr <;> omega
      rcases List.mem_append.mp hm with hm | hm
      · -- en passant
        split at hm
        · split at hm
          · rcases List.mem_singleton.mp hm with rfl
            refine moveok_ep hlp hne hkind ?_ ?_
            · intro he
              rw [Coordinates.eq_iff] at he
              have h2 : cap.column = lp.position.column := he.2
              have h2' := congrArg Fin.val h2
              omega
            · intro he
              rw [Coordinates.eq_iff] at he
              have h1 : lp.position.row = cap.row := he.1
              have h1' := congrArg Fin.val h1
              rcases hdir with h | h <;> rw [h] at hr <;> omega
          · exact absurd hm (List.not_mem_nil m)
        · exact absurd hm (List.not_mem_nil m)
      · -- standard capture
        split at hm
        · rename_i target htarget
          split at hm
          · rename_i hteam
            split at hm
            · rw [List.mem_map] at hm
              obtain ⟨pr, hpr, rfl⟩ := hm
              refine moveok_promo hlp hne htarget ?_ hkind pr hpr
              intro p hp
              injection hp with hp
              subst hp
              exact hteam
            · rcases List.mem_singleton.mp hm with rfl
              exact moveok_capture hlp hne htarget hteam
          · exact absurd hm (List.not_mem_nil m)
        · exact absurd hm (List.not_mem_nil m)
  · -- right diagonal
    split at hm
    · exact absurd hm (List.not_mem_nil m)
    · rename_i cap heq
      obtain ⟨hr, hc⟩ := Coordinates.new_eq_some.mp heq
      have hne : lp.position ≠ cap := by
        intro he
        rw [← he] at hr
        rcases hdir with h | h <;> rw [h] at hr <;> omega
      rcases List.mem_append.mp hm with hm | hm
      · split at hm
        · split at hm
          · rcases List.mem_singleton.mp hm with rfl
            refine moveok_ep hlp hne hkind ?_ ?_
            · intro he
              rw [Coordinates.eq_iff] at he
              have h2 : cap.column = lp.position.column := he.2
              have h2' := congrArg Fin.val h2
              omega
            · intro he
              rw [Coordinates.eq_iff] at he
              have h1 : lp.position.row = cap.row := he.1
              have h1' := congrArg Fin.val h1
              rcases hdir with h | h <;> rw [h] at hr <;> omega
          · exact absurd hm (List.not_mem_nil m)
        · exact absurd hm (List.not_mem_nil m)
      · split at hm
        · rename_i target htarget
          split at hm
          · rename_i hteam
            split at hm
            · rw [List.mem_map] at hm
              obtain ⟨pr, hpr, rfl⟩ := hm
              refine moveok_promo hlp hne htarget ?_ hkind pr hpr
              intro p hp
              injection hp with hp
              subst hp
              exact hteam
            · rcases List.mem_singleton.mp hm with rfl
              exact moveok_capture hlp hne htarget hteam
          · exact absurd hm (List.not_mem_nil m)
        · exact absurd hm (List.not_mem_nil m)

theorem rook_in_place_iff {b : BoardBackend} {c : Coordinates} {t : Team} :
    rook_in_place b c t = true ↔ b.get c = some (Piece.new t .Rook) := by
  unfold rook_in_place
  cases hg : b.get c with
  | none => simp
  | some pr =>
      simp only [decide_eq_true_eq, Option.some.injEq]
      constructor
      · intro hh
        cases pr
        cases hh.1
        cases hh.2
        rfl
      · intro hh
        subst hh
        exact ⟨rfl, rfl⟩

theorem castling_sound {lp : LocatedPiece} {b : BoardBackend} {cr : CastlingRights}
    (hlp : b.get lp.position = some lp.piece) (hkind : lp.piece.kind = .King) :
    ∀ m ∈ get_castling_moves lp b cr, MoveOk b m := by
  intro m hm
  simp only [get_castling_moves] at hm
  split at hm
  · exact absurd hm (List.not_mem_nil m)
  · rcases List.mem_append.mp hm with hm | hm
    · -- kingside
      split at hm
      · split at hm
        · rename_i hcond
          rcases List.mem_singleton.mp hm with rfl
          simp only [Bool.and_eq_true] at hcond
          obtain ⟨⟨⟨hf, hg⟩, _hsafe⟩, hrook⟩ := hcond
          rw [Option.isNone_iff_eq_none] at hf hg
          have hne : lp.position ≠
              (⟨match lp.piece.team with | .White => 7 | .Black => 0, 6⟩ : Coordinates) := by
            intro he
            rw [he, hg] at hlp
            cases hlp
          refine ⟨hlp, hne, ?_, ?_⟩
          · intro p hp
            cases hp
          · refine ⟨hkind, rfl, hg, rfl, hf, ?_⟩
            rw [rook_in_place_iff] at hrook
            exact ⟨_, hrook, rfl⟩
        · exact absurd hm (List.not_mem_nil m)
      · exact absurd hm (List.not_mem_nil m)
    · -- queenside
      split at hm
      · split at hm
        · rename_i hcond
          rcases List.mem_singleton.mp hm with rfl
          simp only [Bool.and_eq_true] at hcond
          obtain ⟨⟨⟨⟨_hb, hc⟩, hd⟩, _hsafe⟩, hrook⟩ := hcond
          rw [Option.isNone_iff_eq_none] at hc hd
          have hne : lp.position ≠
              (⟨match lp.piece.team with | .White => 7 | .Black => 0, 2⟩ : Coordinates) := by
            intro he
            rw [he, hc] at hlp
            cases hlp
          refine ⟨hlp, hne, ?_, ?_⟩
          · intro p hp
            cases hp
          · refine ⟨hkind, rfl, hc, rfl, hd, ?_⟩
            rw [rook_in_place_iff] at hrook
            exact ⟨_, hrook, rfl⟩
        · exact absurd hm (List.not_mem_nil m)
      · exact absurd hm (List.not_mem_nil m)

/-- The eight unit directions and eight knight jumps are all non-zero. -/
theorem king_dirs_nonzero :
    ∀ d ∈ [UP, DOWN, LEFT, RIGHT, DIAGONALLY_UP_LEFT, DIAGONALLY_UP_RIGHT,
      DIAGONALLY_DOWN_LEFT, DIAGONALLY_DOWN_RIGHT], ¬(d.1 = 0 ∧ d.2 = 0) := by
  decide

theorem knight_dirs_nonzero :
    ∀ d ∈ [L_UP_LEFT, L_UP_RIGHT, L_DOWN_LEFT, L_DOWN_RIGHT, L_LEFT_UP,
      L_LEFT_DOWN, L_RIGHT_UP, L_RIGHT_DOWN], ¬(d.1 = 0 ∧ d.2 = 0) := by
  decide

theorem orth_dirs_nonzero :
    ∀ d ∈ [UP, DOWN, LEFT, RIGHT], ¬(d.1 = 0 ∧ d.2 = 0) := by decide

theorem diag_dirs_nonzero :
    ∀ d ∈ [DIAGONALLY_UP_LEFT, DIAGONALLY_UP_RIGHT, DIAGONALLY_DOWN_LEFT,
      DIAGONALLY_DOWN_RIGHT], ¬(d.1 = 0 ∧ d.2 = 0) := by decide

theorem king_moves_sound {lp : LocatedPiece} {b : BoardBackend} {cr : CastlingRights}
    (hlp : b.get lp.position = some lp.piece) (hkind : lp.piece.kind = .King) :
    ∀ m ∈ king_moves lp b cr, MoveOk b m := by
  intro m hm
  unfold king_moves at hm
  split at hm
  · rcases List.mem_append.mp hm with hm | hm
    · exact (slide_sound hlp 1 _ king_dirs_nonzero m hm).1
    · exact castling_sound hlp hkind m hm
  · exact (slide_sound hlp 1 _ king_dirs_nonzero m hm).1

/-- Every pseudo-legal move of a piece that is really on its square
satisfies `MoveOk`. -/
theorem generate_sound {lp : LocatedPiece} {b : BoardBackend}
    {ept : Option Coordinates} {cr : CastlingRights}
    (hlp : b.get lp.position = some lp.piece) :
    ∀ m ∈ generate_pseudo_legal_moves lp b ept cr, MoveOk b m := by
  intro m hm
  unfold generate_pseudo_legal_moves at hm
  cases hk : lp.piece.kind <;> rw [hk] at hm
  · exact king_moves_sound hlp hk m hm
  · unfold queen_moves at hm
    rcases List.mem_append.mp hm with hm | hm
    · exact (slide_sound hlp 7 _ orth_dirs_nonzero m hm).1
    · exact (slide_sound hlp 7 _ diag_dirs_nonzero m hm).1
  · exact (slide_sound hlp 7 _ orth_dirs_nonzero m hm).1
  · exact (slide_sound hlp 7 _ diag_dirs_nonzero m hm).1
  · exact (slide_sound hlp 1 _ knight_dirs_nonzero m hm).1
  · exact pawn_moves_sound hlp hk m hm

theorem piece_eq_new {p : Piece} {t : Team} (hk : p.kind = .King)
    (ht : p.team = t) : p = Piece.new t .King := by
  cases p
  cases hk
  cases ht
  rfl

theorem promo_kind_ne_king (v : ValidPromotions) :
    Kind.from_valid_promotions v ≠ .King := by
  cases v <;> simp [Kind.from_valid_promotions]

/-- make/undo inverse, plain (non-special) moves. -/
theorem make_undo_id_plain {b : BoardBackend} {s e : Coordinates} {pm : Piece}
    {pc : Square} (hinv : b.Inv) (hstart : b.get s = some pm) (hne : s ≠ e)
    (hcap : ∀ p, pc = some p → p.team ≠ pm.team) (hpc : pc = b.get e) :
    (b.make_move ⟨s, e, pm, pc, none⟩).undo_move ⟨s, e, pm, pc, none⟩ = b := by
  have inv := BoardBackend.inv_iff hinv
  unfold BoardBackend.make_move BoardBackend.undo_move
  cases pc with
  | none =>
      refine BoardBackend.eq_of_parts ?_ ?_ ?_
      · intro c
        simp only [BoardBackend.get_unset, BoardBackend.get_set]
        by_cases h1 : c = e
        · subst h1
          simp only [if_pos rfl]
          exact hpc
        · by_cases h2 : c = s
          · subst h2
            simp only [h1, if_neg h1, if_pos rfl, ite_false]
            exact hstart.symm
          · simp only [h1, h2, if_neg h1, if_neg h2, ite_false]
      · simp only [BoardBackend.unset_wkl, BoardBackend.set_wkl]
        by_cases hpw : pm.kind = Kind.King ∧ pm.team = Team.White
        · rw [if_pos hpw]
          exact (inv s .White).mp (by rw [hstart, piece_eq_new hpw.1 hpw.2])
        · rw [if_neg hpw, if_neg hpw]
      · simp only [BoardBackend.unset_bkl, BoardBackend.set_bkl]
        by_cases hpw : pm.kind = Kind.King ∧ pm.team = Team.Black
        · rw [if_pos hpw]
          exact (inv s .Black).mp (by rw [hstart, piece_eq_new hpw.1 hpw.2])
        · rw [if_neg hpw, if_neg hpw]
  | some p =>
      refine BoardBackend.eq_of_parts ?_ ?_ ?_
      · intro c
        simp only [BoardBackend.get_unset, BoardBackend.get_set]
        by_cases h1 : c = e
        · subst h1
          simp only [if_pos rfl]
          exact hpc
        · by_cases h2 : c = s
          · subst h2
            simp only [h1, if_neg h1, if_pos rfl, ite_false]
            exact hstart.symm
          · simp only [h1, h2, if_neg h1, if_neg h2, ite_false]
      · simp only [BoardBackend.unset_wkl, BoardBackend.set_wkl]
        by_cases hqw : p.kind = Kind.King ∧ p.team = Team.White
        · rw [if_pos hqw]
          exact (inv e .White).mp (by rw [← hpc, piece_eq_new hqw.1 hqw.2])
        · by_cases hpw : pm.kind = Kind.King ∧ pm.team = Team.White
          · rw [if_neg hqw, if_pos hpw]
            exact (inv s .White).mp (by rw [hstart, piece_eq_new hpw.1 hpw.2])
          · rw [if_neg hqw, if_neg hpw, if_neg hpw]
      · simp only [BoardBackend.unset_bkl, BoardBackend.set_bkl]
        by_cases hqw : p.kind = Kind.King ∧ p.team = Team.Black
        · rw [if_pos hqw]
          exact (inv e .Black).mp (by rw [← hpc, piece_eq_new hqw.1 hqw.2])
        · by_cases hpw : pm.kind = Kind.King ∧ pm.team = Team.Black
          · rw [if_neg hqw, if_pos hpw]
            exact (inv s .Black).mp (by rw [hstart, piece_eq_new hpw.1 hpw.2])
          · rw [if_neg hqw, if_neg hpw, if_neg hpw]

/-- make/undo inverse, promotion moves. -/
theorem make_undo_id_promo {b : BoardBackend} {s e : Coordinates} {pm : Piece}
    {pc : Square} {v : ValidPromotions} (hinv : b.Inv)
    (hstart : b.get s = some pm) (hne : s ≠ e)
    (hpc : pc = b.get e) (hpmk : pm.kind = .Pawn) :
    (b.make_move ⟨s, e, pm, pc, some (.Promotion v)⟩).undo_move
      ⟨s, e, pm, pc, some (.Promotion v)⟩ = b := by
  have inv := BoardBackend.inv_iff hinv
  have hpmW : ¬(pm.kind = Kind.King ∧ pm.team = Team.White) := by
    intro hh
    rw [hpmk] at hh
    cases hh.1
  have hpmB : ¬(pm.kind = Kind.King ∧ pm.team = Team.Black) := by
    intro hh
    rw [hpmk] at hh
    cases hh.1
  have hprW : ¬((Piece.new pm.team (Kind.from_valid_promotions v)).kind = Kind.King ∧
      (Piece.new pm.team (Kind.from_valid_promotions v)).team = Team.White) := by
    intro hh
    exact promo_kind_ne_king v hh.1
  have hprB : ¬((Piece.new pm.team (Kind.from_valid_promotions v)).kind = Kind.King ∧
      (Piece.new pm.team (Kind.from_valid_promotions v)).team = Team.Black) := by
    intro hh
    exact promo_kind_ne_king v hh.1
  unfold BoardBackend.make_move BoardBackend.undo_move
  cases pc with
  | none =>
      refine BoardBackend.eq_of_parts ?_ ?_ ?_
      · intro c
        simp only [BoardBackend.get_unset, BoardBackend.get_set]
        by_cases h1 : c = e
        · subst h1
          simp only [if_pos rfl]
          exact hpc
        · by_cases h2 : c = s
          · subst h2
            simp only [h1, if_neg h1, if_pos rfl, ite_false]
            exact hstart.symm
          · simp only [h1, h2, if_neg h1, if_neg h2, ite_false]
      · simp only [BoardBackend.unset_wkl, BoardBackend.set_wkl]
        rw [if_neg hpmW, if_neg hprW, if_neg hpmW]
      · simp only [BoardBackend.unset_bkl, BoardBackend.set_bkl]
        rw [if_neg hpmB, if_neg hprB, if_neg hpmB]
  | some p =>
      refine BoardBackend.eq_of_parts ?_ ?_ ?_
      · intro c
        simp only [BoardBackend.get_unset, BoardBackend.get_set]
        by_cases h1 : c = e
        · subst h1
          simp only [if_pos rfl]
          exact hpc
        · by_cases h2 : c = s
          · subst h2
            simp only [h1, if_neg h1, if_pos rfl, ite_false]
            exact hstart.symm
          · simp only [h1, h2, if_neg h1, if_neg h2, ite_false]
      · simp only [BoardBackend.unset_wkl, BoardBackend.set_wkl]
        by_cases hqw : p.kind = Kind.King ∧ p.team = Team.White
        · rw [if_pos hqw]
          exact (inv e .White).mp (by rw [← hpc, piece_eq_new hqw.1 hqw.2])
        · rw [if_neg hqw, if_neg hpmW, if_neg hprW, if_neg hpmW]
      · simp only [BoardBackend.unset_bkl, BoardBackend.set_bkl]
        by_cases hqw : p.kind = Kind.King ∧ p.team = Team.Black
        · rw [if_pos hqw]
          exact (inv e .Black).mp (by rw [← hpc, piece_eq_new hqw.1 hqw.2])
        · rw [if_neg hqw, if_neg hpmB, if_neg hprB, if_neg hpmB]

/-- make/undo inverse, en-passant moves with a well-formed context. -/
theorem make_undo_id_ep {b : BoardBackend} {s e cc : Coordinates} {pm : Piece}
    {pc : Square} (hstart : b.get s = some pm) (hne : s ≠ e)
    (hpmk : pm.kind = .Pawn) (hccs : cc ≠ s) (hcce : cc ≠ e)
    (hcc : b.get cc = some (Piece.new pm.team.opposite .Pawn))
    (hee : b.get e = none) :
    (b.make_move ⟨s, e, pm, pc, some (.EnPassant cc)⟩).undo_move
      ⟨s, e, pm, pc, some (.EnPassant cc)⟩ = b := by
  have hpmW : ¬(pm.kind = Kind.King ∧ pm.team = Team.White) := by
    intro hh
    rw [hpmk] at hh
    cases hh.1
  have hpmB : ¬(pm.kind = Kind.King ∧ pm.team = Team.Black) := by
    intro hh
    rw [hpmk] at hh
    cases hh.1
  have hepW : ¬((Piece.new pm.team.opposite Kind.Pawn).kind = Kind.King ∧
      (Piece.new pm.team.opposite Kind.Pawn).team = Team.White) := by
    intro hh
    cases hh.1
  have hepB : ¬((Piece.new pm.team.opposite Kind.Pawn).kind = Kind.King ∧
      (Piece.new pm.team.opposite Kind.Pawn).team = Team.Black) := by
    intro hh
    cases hh.1
  unfold BoardBackend.make_move BoardBackend.undo_move
  refine BoardBackend.eq_of_parts ?_ ?_ ?_
  · intro c
    simp only [BoardBackend.get_unset, BoardBackend.get_set]
    by_cases h0 : c = cc
    · subst h0
      simp only [if_pos rfl]
      exact hcc.symm
    · by_cases h1 : c = e
      · subst h1
        simp only [h0, if_neg h0, if_pos rfl, ite_false]
        exact hee.symm
      · by_cases h2 : c = s
        · subst h2
          simp only [h0, h1, if_neg h0, if_neg h1, if_pos rfl, ite_false]
          exact hstart.symm
        · simp only [h0, h1, h2, if_neg h0, if_neg h1, if_neg h2, ite_false]
  · simp only [BoardBackend.unset_wkl, BoardBackend.set_wkl]
    rw [if_neg hepW, if_neg hpmW, if_neg hpmW]
  · simp only [BoardBackend.unset_bkl, BoardBackend.set_bkl]
    rw [if_neg hepB, if_neg hpmB, if_neg hpmB]

/-- make/undo inverse, castling moves. -/
theorem make_undo_id_castle {b : BoardBackend} {s e : Coordinates} {pm : Piece}
    {side : CastlingSide} (hinv : b.Inv) (hstart : b.get s = some pm)
    (hkingk : pm.kind = .King) (hee : b.get e = none)
    (hcol : e.column = (match side with | .Short => (6 : Fin 8) | .Long => 2))
    (hre : b.get ⟨e.row,
      match side with | .Short => (5 : Fin 8) | .Long => 3⟩ = none)
    (hrs : ∃ rook, b.get ⟨e.row,
      match side with | .Short => (7 : Fin 8) | .Long => 0⟩ = some rook ∧
        rook.kind = .Rook) :
    (b.make_move ⟨s, e, pm, none, some (.Castle side)⟩).undo_move
      ⟨s, e, pm, none, some (.Castle side)⟩ = b := by
  have inv := BoardBackend.inv_iff hinv
  obtain ⟨rook, hrsv, hrk⟩ := hrs
  have hrW : ¬(rook.kind = Kind.King ∧ rook.team = Team.White) := by
    intro hh
    rw [hrk] at hh
    cases hh.1
  have hrB : ¬(rook.kind = Kind.King ∧ rook.team = Team.Black) := by
    intro hh
    rw [hrk] at hh
    cases hh.1
  cases side
  case Short =>
      have hre2 : b.get ⟨e.row, BoardBackend.SHORT_CASTLE_ROOK_END_COLUMN⟩ = none := hre
      have hrsv2 : b.get ⟨e.row, BoardBackend.SHORT_CASTLE_ROOK_START_COLUMN⟩ = some rook := hrsv
      have hcol2 : e.column = (6 : Fin 8) := hcol
      have hrse : ¬((⟨e.row, BoardBackend.SHORT_CASTLE_ROOK_START_COLUMN⟩ : Coordinates) = e) := by
        intro h
        rw [h] at hrsv2
        rw [hee] at hrsv2
        cases hrsv2
      have hrss : ¬((⟨e.row, BoardBackend.SHORT_CASTLE_ROOK_START_COLUMN⟩ : Coordinates) = s) := by
        intro h
        rw [h] at hrsv2
        rw [hstart] at hrsv2
        injection hrsv2 with hh
        rw [hh] at hkingk
        rw [hrk] at hkingk
        cases hkingk
      have hree : ¬((⟨e.row, BoardBackend.SHORT_CASTLE_ROOK_END_COLUMN⟩ : Coordinates) = e) := by
        intro h
        have hc : BoardBackend.SHORT_CASTLE_ROOK_END_COLUMN = (6 : Fin 8) := (congrArg Coordinates.column h).trans hcol2
        exact absurd hc (by decide)
      have hres : ¬((⟨e.row, BoardBackend.SHORT_CASTLE_ROOK_END_COLUMN⟩ : Coordinates) = s) := by
        intro h
        rw [h] at hre2
        rw [hstart] at hre2
        cases hre2
      have hrers : ¬((⟨e.row, BoardBackend.SHORT_CASTLE_ROOK_END_COLUMN⟩ : Coordinates) = (⟨e.row, BoardBackend.SHORT_CASTLE_ROOK_START_COLUMN⟩ : Coordinates)) := by
        intro h
        have hc : BoardBackend.SHORT_CASTLE_ROOK_END_COLUMN = BoardBackend.SHORT_CASTLE_ROOK_START_COLUMN := congrArg Coordinates.column h
        exact absurd hc (by decide)
      have hb2 : ((b.unset s).set pm e).get ⟨e.row, BoardBackend.SHORT_CASTLE_ROOK_START_COLUMN⟩ = some rook := by
        rw [BoardBackend.get_set, if_neg hrse, BoardBackend.get_unset, if_neg hrss]
        exact hrsv2
      have hu2 : ((((((b.unset s).set pm e).set rook ⟨e.row, BoardBackend.SHORT_CASTLE_ROOK_END_COLUMN⟩).unset
          ⟨e.row, BoardBackend.SHORT_CASTLE_ROOK_START_COLUMN⟩).set pm s).unset e).get ⟨e.row, BoardBackend.SHORT_CASTLE_ROOK_END_COLUMN⟩ = some rook := by
        rw [BoardBackend.get_unset, if_neg hree, BoardBackend.get_set, if_neg hres,
          BoardBackend.get_unset, if_neg hrers, BoardBackend.get_set, if_pos rfl]
      have hmake : b.make_move ⟨s, e, pm, none, some (.Castle .Short)⟩ =
          (((b.unset s).set pm e).set rook ⟨e.row, BoardBackend.SHORT_CASTLE_ROOK_END_COLUMN⟩).unset ⟨e.row, BoardBackend.SHORT_CASTLE_ROOK_START_COLUMN⟩ := by
        unfold BoardBackend.make_move
        simp only []
        rw [hb2]
      rw [hmake]
      unfold BoardBackend.undo_move
      simp only []
      rw [hu2]
      refine BoardBackend.eq_of_parts ?_ ?_ ?_
      · intro c
        simp only [BoardBackend.get_unset, BoardBackend.get_set]
        by_cases h1 : c = (⟨e.row, BoardBackend.SHORT_CASTLE_ROOK_END_COLUMN⟩ : Coordinates)
        · subst h1
          rw [if_pos rfl]
          exact hre2.symm
        · by_cases h2 : c = (⟨e.row, BoardBackend.SHORT_CASTLE_ROOK_START_COLUMN⟩ : Coordinates)
          · subst h2
            rw [if_neg h1, if_pos rfl]
            exact hrsv2.symm
          · by_cases h3 : c = e
            · subst h3
              rw [if_neg h1, if_neg h2, if_pos rfl]
              exact hee.symm
            · by_cases h4 : c = s
              · subst h4
                rw [if_neg h1, if_neg h2, if_neg h3, if_pos rfl]
                exact hstart.symm
              · simp only [if_neg h1, if_neg h2, if_neg h3, if_neg h4]
      · simp only [BoardBackend.unset_wkl, BoardBackend.set_wkl]
        by_cases hpw : pm.kind = Kind.King ∧ pm.team = Team.White
        · rw [if_neg hrW, if_pos hpw]
          exact (inv s .White).mp (by rw [hstart, piece_eq_new hpw.1 hpw.2])
        · rw [if_neg hrW, if_neg hpw, if_neg hrW, if_neg hpw]
      · simp only [BoardBackend.unset_bkl, BoardBackend.set_bkl]
        by_cases hpb : pm.kind = Kind.King ∧ pm.team = Team.Black
        · rw [if_neg hrB, if_pos hpb]
          exact (inv s .Black).mp (by rw [hstart, piece_eq_new hpb.1 hpb.2])
        · rw [if_neg hrB, if_neg hpb, if_neg hrB, if_neg hpb]

  case Long =>
      have hre2 : b.get ⟨e.row, BoardBackend.LONG_CASTLE_ROOK_END_COLUMN⟩ = none := hre
      have hrsv2 : b.get ⟨e.row, BoardBackend.LONG_CASTLE_ROOK_START_COLUMN⟩ = some rook := hrsv
      have hcol2 : e.column = (2 : Fin 8) := hcol
      have hrse : ¬((⟨e.row, BoardBackend.LONG_CASTLE_ROOK_START_COLUMN⟩ : Coordinates) = e) := by
        intro h
        rw [h] at hrsv2
        rw [hee] at hrsv2
        cases hrsv2
      have hrss : ¬((⟨e.row, BoardBackend.LONG_CASTLE_ROOK_START_COLUMN⟩ : Coordinates) = s) := by
        intro h
        rw [h] at hrsv2
        rw [hstart] at hrsv2
        injection hrsv2 with hh
        rw [hh] at hkingk
        rw [hrk] at hkingk
        cases hkingk
      have hree : ¬((⟨e.row, BoardBackend.LONG_CASTLE_ROOK_END_COLUMN⟩ : Coordinates) = e) := by
        intro h
        have hc : BoardBackend.LONG_CASTLE_ROOK_END_COLUMN = (2 : Fin 8) := (congrArg Coordinates.column h).trans hcol2
        exact absurd hc (by decide)
      have hres : ¬((⟨e.row, BoardBackend.LONG_CASTLE_ROOK_END_COLUMN⟩ : Coordinates) = s) := by
        intro h
        rw [h] at hre2
        rw [hstart] at hre2
        cases hre2
      have hrers : ¬((⟨e.row, BoardBackend.LONG_CASTLE_ROOK_END_COLUMN⟩ : Coordinates) = (⟨e.row, BoardBackend.LONG_CASTLE_ROOK_START_COLUMN⟩ : Coordinates)) := by
        intro h
        have hc : BoardBackend.LONG_CASTLE_ROOK_END_COLUMN = BoardBackend.LONG_CASTLE_ROOK_START_COLUMN := congrArg Coordinates.column h
        exact absurd hc (by decide)
      have hb2 : ((b.unset s).set pm e).get ⟨e.row, BoardBackend.LONG_CASTLE_ROOK_START_COLUMN⟩ = some rook := by
        rw [BoardBackend.get_set, if_neg hrse, BoardBackend.get_unset, if_neg hrss]
        exact hrsv2
      have hu2 : ((((((b.unset s).set pm e).set rook ⟨e.row, BoardBackend.LONG_CASTLE_ROOK_END_COLUMN⟩).unset
          ⟨e.row, BoardBackend.LONG_CASTLE_ROOK_START_COLUMN⟩).set pm s).unset e).get ⟨e.row, BoardBackend.LONG_CASTLE_ROOK_END_COLUMN⟩ = some rook := by
        rw [BoardBackend.get_unset, if_neg hree, BoardBackend.get_set, if_neg hres,
          BoardBackend.get_unset, if_neg hrers, BoardBackend.get_set, if_pos rfl]
      have hmake : b.make_move ⟨s, e, pm, none, some (.Castle .Long)⟩ =
          (((b.unset s).set pm e).set rook ⟨e.row, BoardBackend.LONG_CASTLE_ROOK_END_COLUMN⟩).unset ⟨e.row, BoardBackend.LONG_CASTLE_ROOK_START_COLUMN⟩ := by
        unfold BoardBackend.make_move
        simp only []
        rw [hb2]
      rw [hmake]
      unfold BoardBackend.undo_move
      simp only []
      rw [hu2]
      refine BoardBackend.eq_of_parts ?_ ?_ ?_
      · intro c
        simp only [BoardBackend.get_unset, BoardBackend.get_set]
        by_cases h1 : c = (⟨e.row, BoardBackend.LONG_CASTLE_ROOK_END_COLUMN⟩ : Coordinates)
        · subst h1
          rw [if_pos rfl]
          exact hre2.symm
        · by_cases h2 : c = (⟨e.row, BoardBackend.LONG_CASTLE_ROOK_START_COLUMN⟩ : Coordinates)
          · subst h2
            rw [if_neg h1, if_pos rfl]
            exact hrsv2.symm
          · by_cases h3 : c = e
            · subst h3
              rw [if_neg h1, if_neg h2, if_pos rfl]
              exact hee.symm
            · by_cases h4 : c = s
              · subst h4
                rw [if_neg h1, if_neg h2, if_neg h3, if_pos rfl]
                exact hstart.symm
              · simp only [if_neg h1, if_neg h2, if_neg h3, if_neg h4]
      · simp only [BoardBackend.unset_wkl, BoardBackend.set_wkl]
        by_cases hpw : pm.kind = Kind.King ∧ pm.team = Team.White
        · rw [if_neg hrW, if_pos hpw]
          exact (inv s .White).mp (by rw [hstart, piece_eq_new hpw.1 hpw.2])
        · rw [if_neg hrW, if_neg hpw, if_neg hrW, if_neg hpw]
      · simp only [BoardBackend.unset_bkl, BoardBackend.set_bkl]
        by_cases hpb : pm.kind = Kind.King ∧ pm.team = Team.Black
        · rw [if_neg hrB, if_pos hpb]
          exact (inv s .Black).mp (by rw [hstart, piece_eq_new hpb.1 hpb.2])
        · rw [if_neg hrB, if_neg hpb, if_neg hrB, if_neg hpb]


/-- make/undo inverse: for any ply satisfying `MoveOk` (guaranteed by the
generator, see `generate_sound`) and `EpOk`, on a board whose king cache is
coherent, `undo_move` exactly inverts `make_move`. -/
theorem make_undo_id {b : BoardBackend} {m : Ply} (hinv : b.Inv)
    (hok : MoveOk b m) (hep : EpOk b m) :
    (b.make_move m).undo_move m = b := by
  obtain ⟨s, e, pm, pc, sp⟩ := m
  obtain ⟨hstart, hne, hcap, hspec⟩ := hok
  cases sp with
  | none => exact make_undo_id_plain hinv hstart hne hcap hspec
  | some sm =>
    cases sm with
    | Promotion v => exact make_undo_id_promo hinv hstart hne hspec.1 hspec.2
    | EnPassant cc =>
        obtain ⟨hpmk, hccs, hcce⟩ := hspec
        obtain ⟨hcc, hee⟩ := hep
        exact make_undo_id_ep hstart hne hpmk hccs hcce hcc hee
    | Castle side =>
        obtain ⟨hkingk, hpc, hee, hcol, hre, hrs⟩ := hspec
        cases hpc
        cases side
        · exact make_undo_id_castle hinv hstart hkingk hee hcol hre hrs
        · exact make_undo_id_castle hinv hstart hkingk hee hcol hre hrs

/-- Every located piece produced by `filter_pieces` really is on its
square. -/
theorem filter_pieces_located {b : BoardBackend} {f : Piece → Bool} :
    ∀ lp ∈ b.filter_pieces f, b.get lp.position = some lp.piece := by
  intro lp hlp
  unfold BoardBackend.filter_pieces at hlp
  rcases List.mem_flatMap.mp hlp with ⟨row, _, hcol⟩
  rcases List.mem_filterMap.mp hcol with ⟨col, _, hmatch⟩
  split at hmatch
  · next cur hcur =>
      split at hmatch
      · injection hmatch with hh
        subst hh
        exact hcur
      · cases hmatch
  · cases hmatch

/-- Every move of `get_pseudo_legal_moves` satisfies `MoveOk` on the
frontend's backend. -/
theorem pseudo_legal_sound {s : BoardFrontend} :
    ∀ m ∈ s.get_pseudo_legal_moves, MoveOk s.backend m := by
  intro m hm
  unfold BoardFrontend.get_pseudo_legal_moves at hm
  rcases List.mem_flatMap.mp hm with ⟨lp, hlp, hgen⟩
  cases ht : s.turn <;> rw [ht] at hlp
  · exact generate_sound (filter_pieces_located lp hlp) m hgen
  · exact generate_sound (filter_pieces_located lp hlp) m hgen

/-- The legality-filter loop leaves the threaded state exactly at `s` when
every move in the list satisfies `MoveOk` and `EpOk` (each tentative
`make_move` is exactly undone). -/
theorem legal_filter_frame {s : BoardFrontend} (hinv : s.backend.Inv) :
    ∀ (l : List Ply) (acc : List Ply),
      (∀ m ∈ l, MoveOk s.backend m ∧ EpOk s.backend m) →
      ∀ ms st, BoardFrontend.legal_filter s l s acc = some (ms, st) → st = s := by
  intro l
  induction l with
  | nil =>
      intro acc _ ms st h
      simp only [BoardFrontend.legal_filter, Option.some.injEq, Prod.mk.injEq] at h
      exact h.2.symm
  | cons m rest ih =>
      intro acc hall ms st h
      simp only [BoardFrontend.legal_filter] at h
      cases hck : ({ s with backend := s.backend.make_move m } :
          BoardFrontend).is_in_check with
      | none =>
          rw [hck] at h
          cases h
      | some ck =>
          rw [hck] at h
          simp only [Option.bind_eq_bind, Option.some_bind] at h
          have hmu : (s.backend.make_move m).undo_move m = s.backend :=
            make_undo_id hinv (hall m (List.mem_cons_self m rest)).1
              (hall m (List.mem_cons_self m rest)).2
          rw [hmu] at h
          exact ih _ (fun x hx => hall x (List.mem_cons_of_mem m hx)) ms st h

/-- Sliding generation only emits plain moves: no special tag. -/
theorem slide_dir_special_none {lp : LocatedPiece} {b : BoardBackend}
    {dr dc : Int} :
    ∀ fuel step, ∀ m ∈ slide_dir lp b dr dc step fuel,
      m.special_move = none := by
  intro fuel
  induction fuel with
  | zero =>
      intro step m hm
      unfold slide_dir at hm
      cases hm
  | succ n ih =>
      intro step m hm
      unfold slide_dir at hm
      split at hm
      · cases hm
      · simp only [] at hm
        split at hm
        · rcases List.mem_cons.mp hm with hm | hm
          · subst hm
            rfl
          · exact ih (step + 1) m hm
        · split at hm
          · rcases List.mem_singleton.mp hm with rfl
            rfl
          · cases hm

/-- `slide` only emits plain moves. -/
theorem slide_special_none {lp : LocatedPiece} {b : BoardBackend}
    {distance : Nat} {dirs : List (Int × Int)} :
    ∀ m ∈ slide lp distance dirs b, m.special_move = none := by
  intro m hm
  rcases List.mem_flatMap.mp hm with ⟨d, _, hd⟩
  exact slide_dir_special_none distance 1 m hd

/-- A castle-tagged member of `king_moves` comes from the castling
generator. -/
theorem king_moves_castle_mem {lp : LocatedPiece} {b : BoardBackend}
    {cr : CastlingRights} {m : Ply} {side : CastlingSide}
    (hm : m ∈ king_moves lp b cr)
    (htag : m.special_move = some (.Castle side)) :
    m ∈ get_castling_moves lp b cr := by
  unfold king_moves at hm
  split at hm
  · rcases List.mem_append.mp hm with hm | hm
    · rw [slide_special_none m hm] at htag
      cases htag
    · exact hm
  · rw [slide_special_none m hm] at htag
    cases htag

/-- Conversely, castling candidates are in `king_moves` when some right
remains. -/
theorem castling_sub_king {lp : LocatedPiece} {b : BoardBackend}
    {cr : CastlingRights} {m : Ply}
    (hcr : cr ≠ CastlingRights.no_rights)
    (hm : m ∈ get_castling_moves lp b cr) : m ∈ king_moves lp b cr := by
  unfold king_moves
  rw [if_pos hcr]
  exact List.mem_append_right _ hm

/-- Membership in the castling generator, characterised by the
specification-side conditions: exactly the two canonical castle plies, each
present iff its side's `spec_castle_ok` holds. -/
theorem mem_castling_char {lp : LocatedPiece} {b : BoardBackend}
    {cr : CastlingRights} {m : Ply} :
    m ∈ get_castling_moves lp b cr ↔
      ((spec_castle_ok lp b cr .Short ∧
        m = ⟨lp.position, castle_destination .Short (castle_row lp.piece.team),
          lp.piece, none, some (.Castle .Short)⟩) ∨
       (spec_castle_ok lp b cr .Long ∧
        m = ⟨lp.position, castle_destination .Long (castle_row lp.piece.team),
          lp.piece, none, some (.Castle .Long)⟩)) := by
  cases htm : lp.piece.team with
  | White =>
      unfold get_castling_moves
      simp only [htm]
      by_cases hatk : b.is_square_under_attack lp.position (Team.opposite Team.White) = true
      · rw [if_pos hatk]
        simp [spec_castle_ok, htm, hatk]
      · rw [if_neg hatk]
        simp only [List.mem_append, List.mem_ite_nil_right, List.mem_singleton,
          Bool.and_eq_true, Option.isNone_iff_eq_none, Bool.not_eq_true',
          Bool.eq_false_iff, rook_in_place_iff]
        simp only [spec_castle_ok, right_held, castle_row, between_squares,
          king_transit_squares, rook_corner, castle_destination, htm,
          List.forall_mem_cons, List.forall_mem_singleton, List.not_mem_nil,
          false_implies, implies_true, and_true]
        constructor
        · rintro (⟨hks, ⟨⟨⟨hf, hg⟩, h5, h6⟩, hrook⟩, rfl⟩ |
            ⟨hqs, ⟨⟨⟨⟨h1, h2⟩, h3⟩, hA2, hA3⟩, hrook⟩, rfl⟩)
          · exact Or.inl ⟨⟨hks, hatk, ⟨hf, hg⟩, ⟨h5, h6⟩, hrook⟩, rfl⟩
          · exact Or.inr ⟨⟨hqs, hatk, ⟨h1, h2, h3⟩, ⟨hA3, hA2⟩, hrook⟩, rfl⟩
        · rintro (⟨⟨hks, hat2, ⟨hf, hg⟩, ⟨h5, h6⟩, hrook⟩, rfl⟩ |
            ⟨⟨hqs, hat2, ⟨h1, h2, h3⟩, ⟨hA3, hA2⟩, hrook⟩, rfl⟩)
          · exact Or.inl ⟨hks, ⟨⟨⟨hf, hg⟩, h5, h6⟩, hrook⟩, rfl⟩
          · exact Or.inr ⟨hqs, ⟨⟨⟨⟨h1, h2⟩, h3⟩, hA2, hA3⟩, hrook⟩, rfl⟩

  | Black =>
      unfold get_castling_moves
      simp only [htm]
      by_cases hatk : b.is_square_under_attack lp.position (Team.opposite Team.Black) = true
      · rw [if_pos hatk]
        simp [spec_castle_ok, htm, hatk]
      · rw [if_neg hatk]
        simp only [List.mem_append, List.mem_ite_nil_right, List.mem_singleton,
          Bool.and_eq_true, Option.isNone_iff_eq_none, Bool.not_eq_true',
          Bool.eq_false_iff, rook_in_place_iff]
        simp only [spec_castle_ok, right_held, castle_row, between_squares,
          king_transit_squares, rook_corner, castle_destination, htm,
          List.forall_mem_cons, List.forall_mem_singleton, List.not_mem_nil,
          false_implies, implies_true, and_true]
        constructor
        · rintro (⟨hks, ⟨⟨⟨hf, hg⟩, h5, h6⟩, hrook⟩, rfl⟩ |
            ⟨hqs, ⟨⟨⟨⟨h1, h2⟩, h3⟩, hA2, hA3⟩, hrook⟩, rfl⟩)
          · exact Or.inl ⟨⟨hks, hatk, ⟨hf, hg⟩, ⟨h5, h6⟩, hrook⟩, rfl⟩
          · exact Or.inr ⟨⟨hqs, hatk, ⟨h1, h2, h3⟩, ⟨hA3, hA2⟩, hrook⟩, rfl⟩
        · rintro (⟨⟨hks, hat2, ⟨hf, hg⟩, ⟨h5, h6⟩, hrook⟩, rfl⟩ |
            ⟨⟨hqs, hat2, ⟨h1, h2, h3⟩, ⟨hA3, hA2⟩, hrook⟩, rfl⟩)
          · exact Or.inl ⟨hks, ⟨⟨⟨hf, hg⟩, h5, h6⟩, hrook⟩, rfl⟩
          · exact Or.inr ⟨hqs, ⟨⟨⟨⟨h1, h2⟩, h3⟩, hA2, hA3⟩, hrook⟩, rfl⟩


/-- A held castling right rules out the all-rights-lost record. -/
theorem right_held_ne_no_rights {cr : CastlingRights} {t : Team}
    {side : CastlingSide} (h : right_held cr t side = true) :
    cr ≠ CastlingRights.no_rights := by
  intro hcr
  subst hcr
  cases t <;> cases side <;> exact absurd h (by decide)

/-! ## FEN printer/parser round-trip lemmas (for C4) -/

theorem char_toNat_ofNat {n : Nat} (h : n < 55296) :
    (Char.ofNat n).toNat = n := by
  unfold Char.ofNat
  rw [dif_pos (Or.inl (by omega) : Nat.isValidChar n)]
  unfold Char.ofNatAux
  simp [Char.toNat, UInt32.toNat, BitVec.toNat_ofNatLt]

theorem char_eq_iff {a b : Char} : a = b ↔ a.toNat = b.toNat := by
  constructor
  · intro h
    rw [h]
  · intro h
    exact Char.eq_of_val_eq (UInt32.ext h)

theorem char_le_iff {a b : Char} : a ≤ b ↔ a.toNat ≤ b.toNat := Iff.rfl

theorem digit_char_isDigit {d : Nat} (h : d < 10) :
    (Char.ofNat (48 + d)).isDigit = true := by
  unfold Char.isDigit
  simp only [Bool.and_eq_true, decide_eq_true_eq]
  constructor
  · show (48 : UInt32).toNat ≤ (Char.ofNat (48 + d)).toNat
    rw [char_toNat_ofNat (by omega)]
    show 48 ≤ 48 + d
    omega
  · show (Char.ofNat (48 + d)).toNat ≤ (57 : UInt32).toNat
    rw [char_toNat_ofNat (by omega)]
    show 48 + d ≤ 57
    omega

theorem digit_char_toNat {d : Nat} (h : d < 10) :
    (Char.ofNat (48 + d)).toNat = 48 + d :=
  char_toNat_ofNat (by omega)

theorem nat_to_chars_go_digits :
    ∀ fuel n, n < fuel →
      (nat_to_chars_go fuel n).all Char.isDigit = true ∧
        nat_to_chars_go fuel n ≠ [] := by
  intro fuel
  induction fuel with
  | zero =>
      intro n hn
      omega
  | succ f ih =>
      intro n hn
      unfold nat_to_chars_go
      by_cases h10 : n < 10
      · rw [if_pos h10]
        refine ⟨?_, by simp⟩
        simp only [List.all_cons, List.all_nil, Bool.and_true]
        exact digit_char_isDigit h10
      · rw [if_neg h10]
        have hd : n / 10 < f := by omega
        obtain ⟨ha, hne⟩ := ih (n / 10) hd
        constructor
        · rw [List.all_append, ha]
          simp only [List.all_cons, List.all_nil, Bool.and_true, Bool.true_and]
          exact digit_char_isDigit (by omega)
        · simp

theorem nat_to_chars_go_foldl :
    ∀ fuel n acc, n < fuel →
      (nat_to_chars_go fuel n).foldl
          (fun acc c => acc * 10 + (c.toNat - '0'.toNat)) acc =
        acc * 10 ^ (nat_to_chars_go fuel n).length + n := by
  intro fuel
  induction fuel with
  | zero =>
      intro n acc hn
      omega
  | succ f ih =>
      intro n acc hn
      unfold nat_to_chars_go
      by_cases h10 : n < 10
      · rw [if_pos h10]
        simp only [List.foldl_cons, List.foldl_nil, List.length_cons,
          List.length_nil, pow_one, zero_add]
        have h0 : '0'.toNat = 48 := by decide
        rw [h0, digit_char_toNat h10]
        omega
      · rw [if_neg h10]
        have hd : n / 10 < f := by omega
        rw [List.foldl_append, ih (n / 10) acc hd]
        simp only [List.foldl_cons, List.foldl_nil, List.length_append,
          List.length_cons, List.length_nil]
        have h0 : '0'.toNat = 48 := by decide
        rw [h0, digit_char_toNat (show n % 10 < 10 by omega)]
        have h2 : n / 10 * 10 + (48 + n % 10 - 48) = n := by omega
        calc (acc * 10 ^ (nat_to_chars_go f (n / 10)).length + n / 10) * 10 +
              (48 + n % 10 - 48)
            = acc * (10 ^ (nat_to_chars_go f (n / 10)).length * 10) +
                (n / 10 * 10 + (48 + n % 10 - 48)) := by ring
          _ = acc * 10 ^ ((nat_to_chars_go f (n / 10)).length + (0 + 1)) + n := by
              rw [h2, pow_succ]

theorem nat_to_chars_digits (n : Nat) :
    (nat_to_chars n).all Char.isDigit = true ∧ nat_to_chars n ≠ [] :=
  nat_to_chars_go_digits (n + 1) n (by omega)

theorem parse_usize_nat_to_chars {n : Nat} (h : n ≤ USIZE_MAX) :
    parse_usize (nat_to_chars n) = some n := by
  obtain ⟨hall, hne⟩ := nat_to_chars_digits n
  unfold parse_usize
  rcases hgo : nat_to_chars n with _ | ⟨c, t⟩
  · exact absurd hgo hne
  · rw [hgo] at hall
    have hcd : c.isDigit = true := by
      simp only [List.all_cons, Bool.and_eq_true] at hall
      exact hall.1
    have hcne : c ≠ '+' := by
      intro hc
      subst hc
      exact absurd hcd (by decide)
    split
    · next heq =>
        exact absurd (List.head_eq_of_cons_eq heq) hcne
    · rw [if_pos ⟨by simp, hall⟩]
      have hval := nat_to_chars_go_foldl (n + 1) n 0 (by omega)
      unfold nat_to_chars at hgo
      rw [hgo] at hval
      rw [hval]
      simp only [zero_mul, zero_add]
      rw [if_pos h]

theorem takeWhile_digits_space {ds r : List Char}
    (h : ds.all Char.isDigit = true) :
    (ds ++ ' ' :: r).takeWhile Char.isDigit = ds ∧
      (ds ++ ' ' :: r).dropWhile Char.isDigit = ' ' :: r := by
  induction ds with
  | nil =>
      simp [List.takeWhile, List.dropWhile]
  | cons c t ih =>
      simp only [List.all_cons, Bool.and_eq_true] at h
      obtain ⟨hc, ht⟩ := h
      obtain ⟨h1, h2⟩ := ih ht
      constructor
      · simp only [List.cons_append, List.takeWhile_cons, hc]
        simp [h1]
      · simp only [List.cons_append, List.dropWhile_cons, hc]
        simp [h2]

theorem takeWhile_digits_all {ds : List Char}
    (h : ds.all Char.isDigit = true) :
    ds.takeWhile Char.isDigit = ds ∧ ds.dropWhile Char.isDigit = [] := by
  induction ds with
  | nil => simp
  | cons c t ih =>
      simp only [List.all_cons, Bool.and_eq_true] at h
      obtain ⟨hc, ht⟩ := h
      obtain ⟨h1, h2⟩ := ih ht
      constructor
      · simp only [List.takeWhile_cons, hc]
        simp [h1]
      · simp only [List.dropWhile_cons, hc]
        simp [h2]

theorem piece_char_lex (p : Piece) :
    lex_piece_placement_char (piece_char p) = some (.PieceTok p) := by
  cases p with
  | mk a b =>
      cases a <;> cases b <;> decide

theorem piece_char_ne_space (p : Piece) : piece_char p ≠ ' ' := by
  cases p with
  | mk a b =>
      cases a <;> cases b <;> decide

theorem digit_char_ne_space {d : Nat} (h : d < 10) :
    Char.ofNat (48 + d) ≠ ' ' := by
  intro hc
  rw [char_eq_iff, char_toNat_ofNat (by omega)] at hc
  have h32 : ' '.toNat = 32 := by decide
  omega

theorem empty_char_lex {d : Nat} (h1 : 1 ≤ d) (h8 : d ≤ 8) :
    lex_piece_placement_char (Char.ofNat (48 + d)) =
      some (.EmptySquares d) := by
  have hc : (Char.ofNat (48 + d)).toNat = 48 + d := char_toNat_ofNat (by omega)
  have h0 : '0'.toNat = 48 := by decide
  have h1c : '1'.toNat = 49 := by decide
  have h8c : '8'.toNat = 56 := by decide
  have hslash : ¬(Char.ofNat (48 + d) = '/') := by
    intro he
    rw [char_eq_iff, hc] at he
    have h47 : '/'.toNat = 47 := by decide
    omega
  have hrange : '1' ≤ Char.ofNat (48 + d) ∧ Char.ofNat (48 + d) ≤ '8' := by
    constructor
    · show '1'.toNat ≤ (Char.ofNat (48 + d)).toNat
      omega
    · show (Char.ofNat (48 + d)).toNat ≤ '8'.toNat
      omega
  have hsub : (Char.ofNat (48 + d)).toNat - '0'.toNat = d := by
    omega
  unfold lex_piece_placement_char
  rw [if_neg hslash, if_pos hrange, hsub]

/-- The grid `fen_placement_loop` builds while consuming one printed rank:
the `some` squares of `sq` are written at columns `c0`, `c0+1`, …. -/
def write_row (g : Grid) (r : Fin 8) : Nat → List Square → Grid
  | _, [] => g
  | c, none :: rest => write_row g r (c + 1) rest
  | c, some p :: rest =>
      if h : c < 8 then write_row (g.write r ⟨c, h⟩ (some p)) r (c + 1) rest
      else write_row g r (c + 1) rest

/-- One `fen_placement_loop` step on a printed piece character. -/
theorem placement_step_piece {p : Piece} {rest : List Char} {row col : Nat}
    {g : Grid} (hrow : row ≤ 7) (hcol : col ≤ 7) :
    fen_placement_loop (piece_char p :: rest) row col g =
      fen_placement_loop rest row (col + 1)
        (g.write ⟨row, by omega⟩ ⟨col, by omega⟩ (some p)) := by
  obtain ⟨t, k⟩ := p
  cases t <;> cases k <;>
    simp [piece_char, fen_placement_loop, lex_piece_placement_char,
      char_to_piece, Piece.new, hrow, hcol]

/-- One `fen_placement_loop` step on a printed empty-run digit. -/
theorem placement_step_empty {d : Nat} {rest : List Char} {row col : Nat}
    {g : Grid} (h1 : 1 ≤ d) (h8 : d ≤ 8) (hrow : row ≤ 7)
    (hcol : col + d ≤ 8) :
    fen_placement_loop (Char.ofNat (48 + d) :: rest) row col g =
      fen_placement_loop rest row (col + d) g := by
  interval_cases d <;>
    (simp [fen_placement_loop, lex_piece_placement_char, char_to_piece]
     exact fun hbad => absurd hbad (by omega))

theorem placement_step_sep {rest : List Char} {row col : Nat} {g : Grid}
    (hcol : col = 8) :
    fen_placement_loop ('/' :: rest) row col g =
      fen_placement_loop rest (row + 1) 0 g := by
  simp [fen_placement_loop, lex_piece_placement_char, hcol]

theorem placement_step_space {rest : List Char} {row col : Nat} {g : Grid}
    (hrow : row = 7) (hcol : col = 8) :
    fen_placement_loop (' ' :: rest) row col g = .ok (g, rest) := by
  simp [fen_placement_loop, hrow, hcol]

theorem nat_to_chars_small {n : Nat} (_h1 : 0 < n) (h9 : n < 10) :
    nat_to_chars n = [Char.ofNat (48 + n)] := by
  unfold nat_to_chars nat_to_chars_go
  rw [if_pos h9]
  have h0 : '0'.toNat = 48 := by decide
  rw [h0]

/-- Parsing one printed rank: the parser advances to column 8, writing the
rank's pieces. -/
theorem placement_row_round_trip {row : Nat} (hrow : row ≤ 7) :
    ∀ (sq : List Square) (ec c0 : Nat) (g : Grid) (tail : List Char),
      c0 + ec + sq.length = 8 →
      fen_placement_loop (row_to_fen sq ec ++ tail) row c0 g =
        fen_placement_loop tail row 8
          (write_row g ⟨row, by omega⟩ (c0 + ec) sq) := by
  intro sq
  induction sq with
  | nil =>
      intro ec c0 g tail hinv
      simp only [List.length_nil, Nat.add_zero] at hinv
      unfold row_to_fen
      by_cases hec : ec > 0
      · rw [if_pos hec, nat_to_chars_small hec (by omega), List.cons_append,
          List.nil_append]
        rw [placement_step_empty (by omega) (by omega) hrow (by omega)]
        rw [show c0 + ec = 8 from hinv]
        rfl
      · rw [if_neg hec, List.nil_append]
        rw [show c0 = 8 from by omega]
        have hec0 : ec = 0 := by omega
        rw [hec0]
        rfl
  | cons sq0 rest ih =>
      intro ec c0 g tail hinv
      cases sq0 with
      | none =>
          show fen_placement_loop (row_to_fen (none :: rest) ec ++ tail) row c0 g = _
          rw [show row_to_fen (none :: rest) ec = row_to_fen rest (ec + 1) from rfl]
          rw [ih (ec + 1) c0 g tail (by simp at hinv ⊢; omega)]
          rw [show c0 + (ec + 1) = c0 + ec + 1 from by omega]
          rfl
      | some p =>
          show fen_placement_loop (row_to_fen (some p :: rest) ec ++ tail) row c0 g = _
          rw [show row_to_fen (some p :: rest) ec =
            (if ec > 0 then nat_to_chars ec else []) ++
              piece_char p :: row_to_fen rest 0 from rfl]
          have hlen : c0 + ec + (1 + rest.length) = 8 := by
            simp at hinv
            omega
          by_cases hec : ec > 0
          · rw [if_pos hec, nat_to_chars_small hec (by omega)]
            simp only [List.cons_append, List.append_assoc, List.nil_append]
            rw [placement_step_empty (by omega) (by omega) hrow (by omega)]
            rw [placement_step_piece hrow (by omega)]
            rw [ih 0 (c0 + ec + 1) _ tail (by simp; omega)]
            rw [show c0 + ec + 1 + 0 = c0 + ec + 1 from by omega]
            show _ = fen_placement_loop tail row 8 (write_row g _ (c0 + ec) (some p :: rest))
            rw [show write_row g ⟨row, by omega⟩ (c0 + ec) (some p :: rest) =
              write_row (g.write ⟨row, by omega⟩ ⟨c0 + ec, by omega⟩ (some p))
                ⟨row, by omega⟩ (c0 + ec + 1) rest from by
                  simp only [write_row]
                  rw [dif_pos (by omega)]]
          · rw [if_neg hec, List.nil_append, List.cons_append]
            rw [placement_step_piece hrow (by omega)]
            rw [ih 0 (c0 + 1) _ tail (by simp; omega)]
            have hec0 : ec = 0 := by omega
            subst hec0
            rw [show c0 + 1 + 0 = c0 + 0 + 1 from by omega]
            show _ = fen_placement_loop tail row 8 (write_row g _ (c0 + 0) (some p :: rest))
            rw [show write_row g ⟨row, by omega⟩ (c0 + 0) (some p :: rest) =
              write_row (g.write ⟨row, by omega⟩ ⟨c0 + 0, by omega⟩ (some p))
                ⟨row, by omega⟩ (c0 + 0 + 1) rest from by
                  simp only [write_row]
                  rw [dif_pos (by omega)]]
            rfl

theorem write_row_other {r : Fin 8} :
    ∀ (sq : List Square) (c0 : Nat) (g0 : Grid) (r' c' : Fin 8), r' ≠ r →
      write_row g0 r c0 sq r' c' = g0 r' c' := by
  intro sq
  induction sq with
  | nil =>
      intro c0 g0 r' c' hne
      rfl
  | cons sq0 rest ih =>
      intro c0 g0 r' c' hne
      cases sq0 with
      | none => exact ih (c0 + 1) g0 r' c' hne
      | some p =>
          show write_row g0 r c0 (some p :: rest) r' c' = g0 r' c'
          simp only [write_row]
          split
          · rw [ih (c0 + 1) _ r' c' hne]
            unfold Grid.write
            rw [if_neg (fun hh => hne hh.1)]
          · exact ih (c0 + 1) g0 r' c' hne

theorem write_row_value {r : Fin 8} :
    ∀ (sq : List Square) (c0 : Nat) (g0 : Grid) (c : Fin 8),
      c0 + sq.length ≤ 8 →
      write_row g0 r c0 sq r c =
        (if c0 ≤ c.val ∧ c.val < c0 + sq.length then
          match sq.getD (c.val - c0) none with
          | some p => some p
          | none => g0 r c
        else g0 r c) := by
  intro sq
  induction sq with
  | nil =>
      intro c0 g0 c hlen
      rw [if_neg (by simp)]
      rfl
  | cons sq0 rest ih =>
      intro c0 g0 c hlen
      simp only [List.length_cons] at hlen ⊢
      cases sq0 with
      | none =>
          show write_row g0 r (c0 + 1) rest r c = _
          rw [ih (c0 + 1) g0 c (by omega)]
          by_cases h1 : c0 + 1 ≤ c.val ∧ c.val < c0 + 1 + rest.length
          · rw [if_pos h1, if_pos (by omega),
              show c.val - c0 = (c.val - (c0 + 1)) + 1 from by omega,
              List.getD_cons_succ]
          · rw [if_neg h1]
            by_cases h2 : c0 ≤ c.val ∧ c.val < c0 + (rest.length + 1)
            · have hc0 : c.val = c0 := by omega
              rw [if_pos h2, hc0]
              simp only [Nat.sub_self, List.getD_cons_zero]
            · rw [if_neg h2]
      | some p =>
          show write_row g0 r c0 (some p :: rest) r c = _
          simp only [write_row]
          rw [dif_pos (by omega)]
          rw [ih (c0 + 1) _ c (by omega)]
          by_cases h1 : c0 + 1 ≤ c.val ∧ c.val < c0 + 1 + rest.length
          · rw [if_pos h1, if_pos (by omega),
              show c.val - c0 = (c.val - (c0 + 1)) + 1 from by omega,
              List.getD_cons_succ]
            cases hgd : rest.getD (c.val - (c0 + 1)) none with
            | some q => rfl
            | none =>
                unfold Grid.write
                rw [if_neg (by
                  intro hh
                  have h3 : c.val = c0 := congrArg Fin.val hh.2
                  omega)]
          · by_cases h2 : c0 ≤ c.val ∧ c.val < c0 + (rest.length + 1)
            · have hc0 : c.val = c0 := by omega
              rw [if_neg h1, if_pos h2, hc0]
              simp only [Nat.sub_self, List.getD_cons_zero]
              unfold Grid.write
              rw [if_pos ⟨rfl, Fin.ext hc0⟩]
            · rw [if_neg h1, if_neg h2]
              unfold Grid.write
              rw [if_neg (by
                intro hh
                have h3 : c.val = c0 := congrArg Fin.val hh.2
                omega)]

theorem grid_row_getD (g : Grid) (r c : Fin 8) :
    (grid_row g r).getD c.val none = g r c := by
  fin_cases c <;> rfl

theorem grid_row_length (g : Grid) (r : Fin 8) : (grid_row g r).length = 8 := by
  unfold grid_row
  rw [List.length_map, List.length_finRange]

/-- Writing a printed rank back over a blank rank reproduces the rank. -/
theorem write_row_grid_row {g0 g : Grid} {r : Fin 8}
    (hblank : ∀ c, g0 r c = none) (c : Fin 8) :
    write_row g0 r 0 (grid_row g r) r c = g r c := by
  rw [write_row_value (grid_row g r) 0 g0 c (by rw [grid_row_length])]
  rw [if_pos (by rw [grid_row_length]; omega)]
  rw [Nat.sub_zero, grid_row_getD]
  cases hg : g r c with
  | none => exact hblank c
  | some p => rfl

/-- The grid rebuilt by parsing all eight printed ranks over `g0`. -/
def write_board (g0 g : Grid) : Grid :=
  (List.finRange 8).foldl (fun acc r => write_row acc r 0 (grid_row g r)) g0

/-- Parsing the full printed placement yields the rebuilt grid and hands the
remainder to the next field. -/
theorem placement_board_round_trip {g g0 : Grid} {tail : List Char} :
    fen_placement_loop
      (join_slash ((List.finRange 8).map fun r => row_to_fen (grid_row g r) 0) ++
        ' ' :: tail) 0 0 g0 =
      .ok (write_board g0 g, tail) := by
  have hfr : List.finRange 8 =
      ([0, 1, 2, 3, 4, 5, 6, 7] : List (Fin 8)) := by decide
  rw [hfr]
  simp only [List.map_cons, List.map_nil, join_slash, List.cons_append,
    List.append_assoc]
  rw [placement_row_round_trip (show (0 : Nat) ≤ 7 from by omega)
    (grid_row g 0) 0 0 _ _ (by rw [grid_row_length])]
  rw [placement_step_sep rfl]
  rw [placement_row_round_trip (show (1 : Nat) ≤ 7 from by omega)
    (grid_row g 1) 0 0 _ _ (by rw [grid_row_length])]
  rw [placement_step_sep rfl]
  rw [placement_row_round_trip (show (2 : Nat) ≤ 7 from by omega)
    (grid_row g 2) 0 0 _ _ (by rw [grid_row_length])]
  rw [placement_step_sep rfl]
  rw [placement_row_round_trip (show (3 : Nat) ≤ 7 from by omega)
    (grid_row g 3) 0 0 _ _ (by rw [grid_row_length])]
  rw [placement_step_sep rfl]
  rw [placement_row_round_trip (show (4 : Nat) ≤ 7 from by omega)
    (grid_row g 4) 0 0 _ _ (by rw [grid_row_length])]
  rw [placement_step_sep rfl]
  rw [placement_row_round_trip (show (5 : Nat) ≤ 7 from by omega)
    (grid_row g 5) 0 0 _ _ (by rw [grid_row_length])]
  rw [placement_step_sep rfl]
  rw [placement_row_round_trip (show (6 : Nat) ≤ 7 from by omega)
    (grid_row g 6) 0 0 _ _ (by rw [grid_row_length])]
  rw [placement_step_sep rfl]
  rw [placement_row_round_trip (show (7 : Nat) ≤ 7 from by omega)
    (grid_row g 7) 0 0 _ _ (by rw [grid_row_length])]
  rw [placement_step_space rfl rfl]
  simp only [write_board, hfr, List.foldl_cons, List.foldl_nil, Nat.add_zero]
  rfl

/-- Re-parsing the printed board over a blank grid reproduces the grid. -/
theorem write_board_id (g : Grid) :
    write_board (fun _ _ => none) g = g := by
  suffices h : ∀ (l : List (Fin 8)), l.Nodup →
      ∀ (acc : Grid),
        (∀ r' ∈ l, ∀ c', acc r' c' = none) →
        (∀ (r' : Fin 8) (c' : Fin 8), r' ∉ l → acc r' c' = g r' c') →
        ∀ r' c',
          (l.foldl (fun a r => write_row a r 0 (grid_row g r)) acc) r' c' =
            g r' c' by
    funext r c
    refine h (List.finRange 8) (List.nodup_finRange 8) _ ?_ ?_ r c
    · intro r' _ c'
      rfl
    · intro r' c' habs
      exact absurd (List.mem_finRange r') habs
  intro l
  induction l with
  | nil =>
      intro _ acc _ hout r' c'
      exact hout r' c' (List.not_mem_nil r')
  | cons r0 rest ih =>
      intro hnd acc hin hout r' c'
      simp only [List.foldl_cons]
      refine ih (List.Nodup.of_cons hnd) _ ?_ ?_ r' c'
      · intro r1 h1 c1
        rw [write_row_other (grid_row g r0) 0 acc r1 c1 (by
          intro he
          subst he
          exact (List.nodup_cons.mp hnd).1 h1)]
        exact hin r1 (List.mem_cons_of_mem _ h1) c1
      · intro r1 c1 hnm
        by_cases hr : r1 = r0
        · subst hr
          exact write_row_grid_row
            (fun c2 => hin r1 (List.mem_cons_self _ _) c2) c1
        · rw [write_row_other (grid_row g r0) 0 acc r1 c1 hr]
          exact hout r1 c1 (fun hm => (List.mem_cons.mp hm).elim hr hnm)

/-- Re-parsing the printed castling field reproduces the rights. -/
theorem castling_print_parse (cr : CastlingRights) (rest : List Char) :
    fen_castling_loop
      ((if ((if cr.white_king_side then ['K'] else []) ++
            ((if cr.white_queen_side then ['Q'] else []) ++
            ((if cr.black_king_side then ['k'] else []) ++
            (if cr.black_queen_side then ['q'] else [])))).isEmpty then ['-']
        else (if cr.white_king_side then ['K'] else []) ++
            ((if cr.white_queen_side then ['Q'] else []) ++
            ((if cr.black_king_side then ['k'] else []) ++
            (if cr.black_queen_side then ['q'] else [])))) ++ ' ' :: rest)
      CastlingRights.no_rights = .ok (cr, rest) := by
  obtain ⟨wk, wq, bk, bq⟩ := cr
  cases wk <;> cases wq <;> cases bk <;> cases bq <;>
    simp [fen_castling_loop, lex_castling_char, CastlingRights.no_rights,
      CastlingRights.enable_white_king_side, CastlingRights.enable_white_queen_side,
      CastlingRights.enable_black_king_side, CastlingRights.enable_black_queen_side]

theorem lex_ep_rank_shape {x rc : Char}
    (h : lex_en_passant_char x = some (.EnPassantRank rc)) :
    rc = x ∧ (x = '3' ∨ x = '6') := by
  unfold lex_en_passant_char at h
  split_ifs at h with h1 h2 h3
  · cases h
  · injection h with h
    injection h with h
    exact ⟨h.symm, h2⟩
  · cases h

/-- Any en-passant target `from_fen` accepts lies on row 2 or row 5. -/
theorem fen_en_passant_rows {input : List Char} {tgt : Option Coordinates}
    {rest : List Char} (h : fen_en_passant input = .ok (tgt, rest)) :
    ∀ c, tgt = some c → c.row.val = 2 ∨ c.row.val = 5 := by
  intro c hc
  rw [hc] at h
  unfold fen_en_passant at h
  split at h
  · cases h
  · cases h
  · rename_i c0 rest0
    split at h
    · injection h with h
      injection h with h1 h2
      cases h1
    · rename_i file hlex
      split at h
      · rename_i c2 rest2
        split at h
        · cases h
        · split at h
          · rename_i rank_char hlex2
            obtain ⟨hrc, h36⟩ := lex_ep_rank_shape hlex2
            subst hrc
            injection h with h
            injection h with h1 h2
            have hnew := Coordinates.new_eq_some.mp h1
            rcases h36 with h3 | h3 <;> subst h3
            · have hv : ('3'.toNat - '0'.toNat : Nat) = 3 := by decide
              rw [hv] at hnew
              omega
            · have hv : ('6'.toNat - '0'.toNat : Nat) = 6 := by decide
              rw [hv] at hnew
              omega
          · cases h
      · cases h
    · cases h
    · cases h
    · cases h

/-- Re-parsing a printed en-passant target (on row 2 or 5) reproduces it,
leaving the tail untouched. -/
theorem ep_print_parse {c : Coordinates}
    (hrow : c.row.val = 2 ∨ c.row.val = 5) (T : List Char) :
    fen_en_passant (to_algebraic c ++ T) = .ok (some c, T) := by
  obtain ⟨row, col⟩ := c
  rcases hrow with hr | hr
  · have hre : row = ⟨2, by decide⟩ := Fin.ext hr
    subst hre
    fin_cases col <;> rfl
  · have hre : row = ⟨5, by decide⟩ := Fin.ext hr
    subst hre
    fin_cases col <;> rfl

theorem next_token_halfmove {v : Nat} (hv : v ≤ USIZE_MAX) {r : List Char} :
    FenLexer.next_token ⟨nat_to_chars v ++ ' ' :: r, 4⟩ =
      some (some (.Halfmove v), ⟨' ' :: r, 4⟩) := by
  obtain ⟨hall, hne⟩ := nat_to_chars_digits v
  rcases hd : nat_to_chars v with _ | ⟨d, ds⟩
  · exact absurd hd hne
  · rw [hd] at hall
    have hdd : d.isDigit = true := by
      simp only [List.all_cons, Bool.and_eq_true] at hall
      exact hall.1
    unfold FenLexer.next_token
    split
    · next heq =>
        have hsp : d = ' ' := List.head_eq_of_cons_eq heq
        rw [hsp] at hdd
        exact absurd hdd (by decide)
    · next input heq =>
        simp only []
        rw [(takeWhile_digits_space hall).1,
          (takeWhile_digits_space hall).2, ← hd,
          parse_usize_nat_to_chars hv]
        rw [if_neg (by simpa using hne)]

theorem next_token_fullmove {v : Nat} (hv : v ≤ USIZE_MAX) :
    FenLexer.next_token ⟨nat_to_chars v, 5⟩ =
      some (some (.Fullmove v), ⟨[], 5⟩) := by
  obtain ⟨hall, hne⟩ := nat_to_chars_digits v
  rcases hd : nat_to_chars v with _ | ⟨d, ds⟩
  · exact absurd hd hne
  · rw [hd] at hall
    have hdd : d.isDigit = true := by
      simp only [List.all_cons, Bool.and_eq_true] at hall
      exact hall.1
    unfold FenLexer.next_token
    split
    · next heq =>
        have hsp : d = ' ' := List.head_eq_of_cons_eq heq
        rw [hsp] at hdd
        exact absurd hdd (by decide)
    · next input heq =>
        simp only []
        rw [(takeWhile_digits_all hall).1, (takeWhile_digits_all hall).2, ← hd,
          parse_usize_nat_to_chars hv]
        rw [if_neg (by simpa using hne)]

/-- Re-parsing the two printed clock fields reproduces both values. -/
theorem clocks_print_parse {h f : Nat} (hh : h ≤ USIZE_MAX)
    (hf : f ≤ USIZE_MAX) :
    fen_clocks ⟨' ' :: (nat_to_chars h ++ ' ' :: nat_to_chars f), 3⟩ =
      some (.ok (h, f)) := by
  unfold fen_clocks
  simp only [show FenLexer.next_token
      ⟨' ' :: (nat_to_chars h ++ ' ' :: nat_to_chars f), 3⟩ =
      some (some .WhiteSpace, ⟨nat_to_chars h ++ ' ' :: nat_to_chars f, 4⟩)
    from rfl]
  simp only [next_token_halfmove hh]
  unfold fen_clocks.fen_full
  simp only [show FenLexer.next_token ⟨' ' :: nat_to_chars f, 4⟩ =
      some (some .WhiteSpace, ⟨nat_to_chars f, 5⟩) from rfl]
  simp only [next_token_fullmove hf]

/-- Printing a snapshot and re-parsing yields the same snapshot (the move
counter is rebuilt from the printed clock fields). -/
theorem from_fen_to_fen {snap : PositionSnapshot} {mc : MoveCounter}
    (hep : ∀ c, snap.en_passant = some c → c.row.val = 2 ∨ c.row.val = 5)
    (hh : mc.fifty_counter ≤ USIZE_MAX) (hf : mc.fullmove ≤ USIZE_MAX) :
    from_fen (to_fen snap mc) =
      some (.ok (snap, MoveCounter.from_parts mc.fifty_counter
        ((mc.fullmove - 1) * 2 + (if snap.turn = .Black then 1 else 0))
        mc.fullmove)) := by
  obtain ⟨grid, turn, cr, ep⟩ := snap
  have h1 : (to_fen ⟨grid, turn, cr, ep⟩ mc).toList =
      to_fen_chars ⟨grid, turn, cr, ep⟩ mc := rfl
  unfold from_fen
  rw [h1]
  unfold to_fen_chars from_fen_chars
  simp only []
  cases turn with
  | White =>
      simp only [List.cons_append, List.nil_append, List.append_assoc]
      rw [placement_board_round_trip]
      simp only []
      rw [if_neg (show ¬('w' = ' ') from by decide),
        show lex_side_char 'w' = some (.SideToMove .White) from rfl]
      simp only []
      rw [if_true]
      rw [castling_print_parse]
      simp only []
      cases ep with
      | none =>
          simp only [List.singleton_append]
          simp only [show fen_en_passant ('-' ::
              (' ' :: (nat_to_chars mc.fifty_counter ++
                ' ' :: nat_to_chars mc.fullmove))) =
            .ok (none, ' ' :: (nat_to_chars mc.fifty_counter ++
              ' ' :: nat_to_chars mc.fullmove)) from rfl]
          rw [clocks_print_parse hh hf]
          simp only [write_board_id]
      | some c =>
          rw [ep_print_parse (hep c rfl)]
          simp only []
          rw [clocks_print_parse hh hf]
          simp only [write_board_id]

  | Black =>
      simp only [List.cons_append, List.nil_append, List.append_assoc]
      rw [placement_board_round_trip]
      simp only []
      rw [if_neg (show ¬('b' = ' ') from by decide),
        show lex_side_char 'b' = some (.SideToMove .Black) from rfl]
      simp only []
      rw [if_true]
      rw [castling_print_parse]
      simp only []
      cases ep with
      | none =>
          simp only [List.singleton_append]
          simp only [show fen_en_passant ('-' ::
              (' ' :: (nat_to_chars mc.fifty_counter ++
                ' ' :: nat_to_chars mc.fullmove))) =
            .ok (none, ' ' :: (nat_to_chars mc.fifty_counter ++
              ' ' :: nat_to_chars mc.fullmove)) from rfl]
          rw [clocks_print_parse hh hf]
          simp only [write_board_id]
      | some c =>
          rw [ep_print_parse (hep c rfl)]
          simp only []
          rw [clocks_print_parse hh hf]
          simp only [write_board_id]


theorem parse_usize_bound {l : List Char} {v : Nat}
    (h : parse_usize l = some v) : v ≤ USIZE_MAX := by
  unfold parse_usize at h
  simp only [] at h
  split at h
  · split at h
    · next hv2 =>
        injection h with h
        subst h
        exact hv2
    · cases h
  · cases h

theorem lex_piece_char_no_clock {c : Char} {t : FenToken}
    (h : lex_piece_placement_char c = some t) :
    (∀ v, t ≠ .Halfmove v) ∧ (∀ v, t ≠ .Fullmove v) := by
  unfold lex_piece_placement_char at h
  split_ifs at h <;>
    first
    | (injection h with h
       subst h
       exact ⟨fun v hv => FenToken.noConfusion hv,
         fun v hv => FenToken.noConfusion hv⟩)
    | cases h
    | (split at h <;>
        first
        | (injection h with h
           subst h
           exact ⟨fun v hv => FenToken.noConfusion hv,
             fun v hv => FenToken.noConfusion hv⟩)
        | cases h)

theorem lex_side_char_no_clock {c : Char} {t : FenToken}
    (h : lex_side_char c = some t) :
    (∀ v, t ≠ .Halfmove v) ∧ (∀ v, t ≠ .Fullmove v) := by
  unfold lex_side_char at h
  split_ifs at h <;>
    first
    | (injection h with h
       subst h
       exact ⟨fun v hv => FenToken.noConfusion hv,
         fun v hv => FenToken.noConfusion hv⟩)
    | cases h

theorem lex_castling_char_no_clock {c : Char} {t : FenToken}
    (h : lex_castling_char c = some t) :
    (∀ v, t ≠ .Halfmove v) ∧ (∀ v, t ≠ .Fullmove v) := by
  unfold lex_castling_char at h
  split_ifs at h <;>
    first
    | (injection h with h
       subst h
       exact ⟨fun v hv => FenToken.noConfusion hv,
         fun v hv => FenToken.noConfusion hv⟩)
    | cases h

theorem lex_en_passant_char_no_clock {c : Char} {t : FenToken}
    (h : lex_en_passant_char c = some t) :
    (∀ v, t ≠ .Halfmove v) ∧ (∀ v, t ≠ .Fullmove v) := by
  unfold lex_en_passant_char at h
  split_ifs at h <;>
    first
    | (injection h with h
       subst h
       exact ⟨fun v hv => FenToken.noConfusion hv,
         fun v hv => FenToken.noConfusion hv⟩)
    | cases h

/-- Any clock token the lexer produces carries a value at most
`usize::MAX`. -/
theorem next_token_clock_bound {lx lx2 : FenLexer} {t : FenToken}
    (h : lx.next_token = some (some t, lx2)) :
    (∀ v, t = .Halfmove v → v ≤ USIZE_MAX) ∧
      (∀ v, t = .Fullmove v → v ≤ USIZE_MAX) := by
  unfold FenLexer.next_token at h
  split at h
  · injection h with h
    injection h with h1 h2
    injection h1 with h1
    subst h1
    exact ⟨fun v hv => FenToken.noConfusion hv,
      fun v hv => FenToken.noConfusion hv⟩
  · split at h
    · split at h
      · cases h
      · injection h with h
        injection h with h1 h2
        obtain ⟨hm, hf⟩ := lex_piece_char_no_clock h1
        exact ⟨fun v hv => absurd hv (hm v), fun v hv => absurd hv (hf v)⟩
    · split at h
      · cases h
      · injection h with h
        injection h with h1 h2
        obtain ⟨hm, hf⟩ := lex_side_char_no_clock h1
        exact ⟨fun v hv => absurd hv (hm v), fun v hv => absurd hv (hf v)⟩
    · split at h
      · cases h
      · injection h with h
        injection h with h1 h2
        obtain ⟨hm, hf⟩ := lex_castling_char_no_clock h1
        exact ⟨fun v hv => absurd hv (hm v), fun v hv => absurd hv (hf v)⟩
    · split at h
      · cases h
      · injection h with h
        injection h with h1 h2
        obtain ⟨hm, hf⟩ := lex_en_passant_char_no_clock h1
        exact ⟨fun v hv => absurd hv (hm v), fun v hv => absurd hv (hf v)⟩
    · simp only [] at h
      split at h
      · cases h
      · split at h
        · next hv2 =>
            injection h with h
            injection h with h1 h2
            injection h1 with h1
            subst h1
            refine ⟨fun v hv => ?_, fun v hv => FenToken.noConfusion hv⟩
            injection hv with hv
            subst hv
            exact parse_usize_bound hv2
        · cases h
    · simp only [] at h
      split at h
      · cases h
      · split at h
        · next hv2 =>
            injection h with h
            injection h with h1 h2
            injection h1 with h1
            subst h1
            refine ⟨fun v hv => FenToken.noConfusion hv, fun v hv => ?_⟩
            injection hv with hv
            subst hv
            exact parse_usize_bound hv2
        · cases h
    · injection h with h
      injection h with h1 h2
      cases h1

/-- The fullmove stage of `fen_clocks` keeps both clocks bounded. -/
theorem fen_full_bounds {lx : FenLexer} {hm h f : Nat}
    (hhm : hm ≤ USIZE_MAX)
    (hc : fen_clocks.fen_full lx hm = some (.ok (h, f))) :
    h ≤ USIZE_MAX ∧ f ≤ USIZE_MAX := by
  unfold fen_clocks.fen_full at hc
  split at hc
  · cases hc
  · simp only [Option.some.injEq, Except.ok.injEq, Prod.mk.injEq] at hc
    obtain ⟨hc1, hc3⟩ := hc
    subst hc1
    subst hc3
    exact ⟨hhm, by unfold USIZE_MAX; omega⟩
  · split at hc
    · cases hc
    · next heq =>
        simp only [Option.some.injEq, Except.ok.injEq, Prod.mk.injEq] at hc
        obtain ⟨hc1, hc3⟩ := hc
        subst hc1
        subst hc3
        exact ⟨hhm, (next_token_clock_bound heq).2 _ rfl⟩
    · cases hc
  · cases hc

/-- `fen_clocks` only succeeds with clocks at most `usize::MAX`. -/
theorem fen_clocks_bounds {lx : FenLexer} {h f : Nat}
    (hc : fen_clocks lx = some (.ok (h, f))) :
    h ≤ USIZE_MAX ∧ f ≤ USIZE_MAX := by
  unfold fen_clocks at hc
  split at hc
  · cases hc
  · exact fen_full_bounds (by unfold USIZE_MAX; omega) hc
  · split at hc
    · cases hc
    · next heq =>
        exact fen_full_bounds ((next_token_clock_bound heq).1 _ rfl) hc
    · cases hc
  · cases hc

/-- Every successful `from_fen` parse yields an en-passant target on row 2
or 5 and clock values at most `usize::MAX`. -/
theorem from_fen_ok_props {input : List Char} {snap : PositionSnapshot}
    {mc : MoveCounter} (h : from_fen_chars input = some (.ok (snap, mc))) :
    (∀ c, snap.en_passant = some c → c.row.val = 2 ∨ c.row.val = 5) ∧
      mc.fifty_counter ≤ USIZE_MAX ∧ mc.fullmove ≤ USIZE_MAX := by
  unfold from_fen_chars at h
  split at h
  · simp at h
  · split at h
    · simp at h
    · split at h
      · simp at h
      · split at h
        · split at h
          · simp at h
          · split at h
            · split at h
              · simp at h
              · split at h
                · simp at h
                · next hepq =>
                    split at h
                    · simp at h
                    · simp at h
                    · next hckq =>
                        simp only [Option.some.injEq, Except.ok.injEq,
                          Prod.mk.injEq] at h
                        obtain ⟨hsnap, hmc⟩ := h
                        subst hsnap
                        subst hmc
                        refine ⟨fen_en_passant_rows hepq, ?_, ?_⟩
                        · exact (fen_clocks_bounds hckq).1
                        · exact (fen_clocks_bounds hckq).2
            · split at h
              · simp at h
              · simp at h
        · simp at h
/-! ## C7: transposition table -/

/-- **C7**: `get` returns the stored entry for a snapshot regardless of its
depth (it is the raw lookup); `insert` stores a fresh snapshot
unconditionally and replaces an existing entry exactly when the new depth is
at least the stored depth, leaving every other key unchanged; hence the
stored depth at any key never decreases across an `insert`. -/
theorem C7_transposition_table_policy :
    ∀ (t : TranspositionTable) (k k' : PositionSnapshot) (e : TTEntry),
      t.get k = t k ∧
      (t.insert k e).get k' =
        (if k' = k then
          match t.get k with
          | none => some e
          | some existing =>
              if existing.depth ≤ e.depth then some e else some existing
        else t.get k') ∧
      ((t.get k).elim 0 TTEntry.depth ≤ ((t.insert k e).get k).elim 0 TTEntry.depth) := by
  intro t k k' e
  refine ⟨rfl, ?_, ?_⟩
  · unfold TranspositionTable.insert TranspositionTable.get TranspositionTable.raw_insert
    by_cases hk : k' = k
    · subst hk
      cases ht : t k' with
      | none => simp [ht]
      | some existing =>
          by_cases hd : existing.depth ≤ e.depth
          · simp [ht, hd, ge_iff_le]
          · simp [ht, hd, ge_iff_le]
    · cases ht : t k with
      | none => simp [ht, hk]
      | some existing =>
          by_cases hd : existing.depth ≤ e.depth
          · simp [ht, hd, hk, ge_iff_le]
          · simp [ht, hd, hk, ge_iff_le]
  · unfold TranspositionTable.insert TranspositionTable.get TranspositionTable.raw_insert
    cases ht : t k with
    | none => simp [ht]
    | some existing =>
        by_cases hd : existing.depth ≤ e.depth
        · simp [ht, hd, ge_iff_le]
        · simp [ht, hd, ge_iff_le]

/-! ## C5: make_move is a no-op on a finished game -/

/-- **C5**: when an outcome is already set, `make_move` returns (and leaves)
the state completely unchanged, for every ply argument. -/
theorem C5_make_move_noop_when_finished :
    ∀ (s : BoardFrontend) (ply : Ply), s.outcome.isSome →
      s.make_move ply = some s := by
  intro s ply h
  unfold BoardFrontend.make_move
  simp [h]

/-- Witness for C5 at a concrete finished game and concrete ply. -/
theorem C5_witness :
    finished_game.outcome.isSome = true ∧
      finished_game.make_move sample_ply = some finished_game :=
  ⟨rfl, C5_make_move_noop_when_finished finished_game sample_ply rfl⟩

/-! ## C6: claimable vs forced draw thresholds -/

/-- **C6**: the draw claims use the claimable thresholds — threefold
repetition succeeds exactly when the current snapshot's count is ≥ 3
(`CAN_CLAIM_THREEFOLD_REPETITION_THRESHOLD`), the fifty-move claim exactly
when the counter is ≥ 100 — setting a Draw outcome on success and returning
a failure message with the state unchanged otherwise; `make_move` itself
forces the repetition draw only at a count of 5 and the fifty-move draw only
at 150 half-moves (its `mm_repetition`/`mm_fifty` stages). -/
theorem C6_claim_thresholds :
    (CAN_CLAIM_THREEFOLD_REPETITION_THRESHOLD = 3 ∧
      CAN_CLAIM_FIFTY_MOVE_RULE_THRESHOLD = 100 ∧
      FORCED_THREEFOLD_REPETITION_THRESHOLD = 5 ∧
      FORCED_FIFTY_MOVE_RULE_THRESHOLD = 150) ∧
    (∀ s : BoardFrontend,
      (s.can_claim_threefold_repetition = true ↔
        ∃ n, rep_get s.repetition_table s.create_snapshot = some n ∧ 3 ≤ n)) ∧
    (∀ s : BoardFrontend, s.can_claim_threefold_repetition = true →
      s.claim_threefold_repetition =
        (.ok (), { s with outcome := some (.Draw .ThreefoldRepetition) })) ∧
    (∀ s : BoardFrontend, s.can_claim_threefold_repetition = false →
      s.claim_threefold_repetition =
        (.error "Cannot claim Threefold Repetition: Conditions not met.", s)) ∧
    (∀ s : BoardFrontend,
      (s.can_claim_fifty_move_rule = true ↔ 100 ≤ s.move_counter.fifty_counter)) ∧
    (∀ s : BoardFrontend, s.can_claim_fifty_move_rule = true →
      s.claim_fifty_move_rule =
        (.ok (), { s with outcome := some (.Draw .FiftyMoveRule) })) ∧
    (∀ s : BoardFrontend, s.can_claim_fifty_move_rule = false →
      s.claim_fifty_move_rule =
        (.error "Cannot claim Fifty Move Rule: Conditions not met.", s)) ∧
    (∀ s : BoardFrontend, s.outcome = none →
      (s.mm_repetition.outcome = some (.Draw .ThreefoldRepetition) ↔
        5 ≤ (rep_increment s.repetition_table s.create_snapshot).2)) ∧
    (∀ (s : BoardFrontend) (ply : Ply), s.outcome = none →
      ((s.mm_fifty ply).outcome = some (.Draw .FiftyMoveRule) ↔
        150 ≤ (s.move_counter.tick
          (decide (ply.piece_moved.kind = .Pawn) || ply.piece_captured.isSome)).fifty_counter)) := by
  refine ⟨⟨rfl, rfl, rfl, rfl⟩, ?_, ?_, ?_, ?_, ?_, ?_, ?_, ?_⟩
  · intro s
    unfold BoardFrontend.can_claim_threefold_repetition
    cases h : rep_get s.repetition_table s.create_snapshot with
    | none => simp [h]
    | some n => simp [h, CAN_CLAIM_THREEFOLD_REPETITION_THRESHOLD]
  · intro s h
    unfold BoardFrontend.claim_threefold_repetition
    simp [h]
  · intro s h
    unfold BoardFrontend.claim_threefold_repetition
    simp [h]
  · intro s
    unfold BoardFrontend.can_claim_fifty_move_rule
    simp [CAN_CLAIM_FIFTY_MOVE_RULE_THRESHOLD]
  · intro s h
    unfold BoardFrontend.claim_fifty_move_rule
    simp [h]
  · intro s h
    unfold BoardFrontend.claim_fifty_move_rule
    simp [h]
  · intro s hout
    unfold BoardFrontend.mm_repetition
    by_cases h5 : 5 ≤ (rep_increment s.repetition_table s.create_snapshot).2
    · simp [FORCED_THREEFOLD_REPETITION_THRESHOLD, hout, h5, ge_iff_le]
    · simp [FORCED_THREEFOLD_REPETITION_THRESHOLD, hout, h5, ge_iff_le]
  · intro s ply hout
    unfold BoardFrontend.mm_fifty
    by_cases h150 : 150 ≤ (s.move_counter.tick
        (decide (ply.piece_moved.kind = .Pawn) || ply.piece_captured.isSome)).fifty_counter
    · simp [FORCED_FIFTY_MOVE_RULE_THRESHOLD, hout, h150, ge_iff_le]
    · simp [FORCED_FIFTY_MOVE_RULE_THRESHOLD, hout, h150, ge_iff_le]

/-- Witness for C6: at the concrete `claimable_state` both claims succeed
(count 3, counter 100), and at the starting position both fail leaving the
state unchanged. -/
theorem C6_witness :
    claimable_state.claim_threefold_repetition =
      (.ok (), { claimable_state with
        outcome := some (.Draw .ThreefoldRepetition) }) ∧
    claimable_state.claim_fifty_move_rule =
      (.ok (), { claimable_state with outcome := some (.Draw .FiftyMoveRule) }) ∧
    BoardFrontend.from_starting_position.claim_threefold_repetition =
      (.error "Cannot claim Threefold Repetition: Conditions not met.",
        BoardFrontend.from_starting_position) ∧
    BoardFrontend.from_starting_position.outcome = none ∧
    (BoardFrontend.from_starting_position.mm_repetition.outcome =
        some (.Draw .ThreefoldRepetition) ↔
      5 ≤ (rep_increment BoardFrontend.from_starting_position.repetition_table
        BoardFrontend.from_starting_position.create_snapshot).2) :=
  ⟨C6_claim_thresholds.2.2.1 claimable_state (by decide),
    C6_claim_thresholds.2.2.2.2.2.1 claimable_state (by decide),
    C6_claim_thresholds.2.2.2.1 BoardFrontend.from_starting_position (by decide),
    rfl,
    C6_claim_thresholds.2.2.2.2.2.2.2.1 BoardFrontend.from_starting_position rfl⟩

/-! ## C3: FEN parsing errors and the clock-lexer panic -/

/-- **C3** (refuting evaluation): `from_fen` is *not* panic-free on every
input — a halfmove-clock field whose digit string exceeds `usize::MAX`
reaches `num_str.parse().unwrap()` in `Lexer::lex_halfmove_clock` and
panics (modelled by the outer `none`).  Moreover a FEN truncated after the
en-passant field ("missing clock fields") is *accepted* with defaulted
clocks instead of producing a structured error.  On the other hand a
syntactically malformed placement does produce the structured, enumerated
error value the claim describes. -/
theorem C3_fen_lexer_panics_on_huge_clock :
    from_fen "8/8/8/8/8/8/8/8 w - - 99999999999999999999 1" = none ∧
    (∃ v, from_fen "8/8/8/8/8/8/8/8 w - -" = some (.ok v)) ∧
    from_fen "8/8/8/7/8/8/8/8 w - - 0 1" =
      some (.error (.InvalidPiecePlacement "Row 3 incomplete (width 7)")) :=
  ⟨rfl, ⟨_, rfl⟩, rfl⟩

/-! ## C1: make/undo does not restore the fullmove counter -/

/-- **C1** (refuting evaluation): from the FEN-loaded position
`k7/8/8/8/8/8/8/K7 w - - 0 1`, the legal move Ka1–b1 followed by
`undo_last_move` does *not* restore the state: the fullmove counter comes
back as 0 instead of 1 (`MoveCounter::untick` tests the parity of the
already-decremented halfmove counter, inverting `tick`'s rule).  Every other
field is restored here, as the final conjunct pins down. -/
theorem C1_undo_loses_fullmove_counter :
    ∃ s s1 s2 ms s',
      BoardFrontend.from_fen "k7/8/8/8/8/8/8/K7 w - - 0 1" = some s ∧
      s.get_legal_moves = some (ms, s') ∧ kings_ply ∈ ms ∧
      s.make_move kings_ply = some s1 ∧
      s1.undo_last_move = some s2 ∧
      s.move_counter.fullmove = 1 ∧
      s2.move_counter.fullmove = 0 ∧
      s2 ≠ s ∧
      { s2 with move_counter := s.move_counter } = s := by
  refine ⟨_, _, _, _, _, rfl, rfl, by decide, rfl, rfl, rfl, by decide, by decide, by decide⟩

/-! ## C9: terminal mate/draw scores in alpha_beta -/

/-- **C9 counterexample**: as stated, the claim is false — `alpha_beta`
probes the transposition table *before* the terminal-outcome check, so on a
terminal Win it can return a cached score (here 42) instead of the mate
score `±(CHECKMATE_SCORE + depth)`. -/
theorem C9_counterexample_tt_hit_beats_mate_score :
    alpha_beta 1 mated_state 3 (-(2 ^ 63)) (2 ^ 63 - 1) none poisoned_tt =
      some (42, none, mated_state, poisoned_tt) ∧
    mated_state.outcome = some (.Win .White .Checkmate) ∧
    (42 : Int) ≠ CHECKMATE_SCORE + 3 ∧ (42 : Int) ≠ -(CHECKMATE_SCORE + 3) :=
  ⟨rfl, rfl, by decide, by decide⟩

/-- **C9 (amended)**: *provided the transposition table holds no entry of
sufficient depth for the position's snapshot* (any stored entry's depth is
below the remaining depth, so the probe cannot return early — e.g. a fresh
search), `alpha_beta` on a state with a terminal `Win` outcome returns the
mate score `CHECKMATE_SCORE + depth` if the winner is the side to move and
`-(CHECKMATE_SCORE + depth)` otherwise, leaving the state, table and
out-parameter untouched; a terminal `Draw` returns the flat `DRAW_SCORE`;
and for a fixed terminal Win position the returned magnitude strictly
increases with remaining depth (shallower mates score higher — the depth
range is bounded by the engine's own `MAX_DEPTH`, which also keeps the
`isize` arithmetic of the source far from overflow). -/
theorem C9_terminal_outcome_scores :
    ∀ (fuel : Nat) (alpha beta : Int) (bm : Option Ply)
      (state : BoardFrontend) (tt : TranspositionTable),
      (∀ (depth : Nat) winner reason,
        (∀ e, tt.get state.create_snapshot = some e → e.depth < depth) →
        state.outcome = some (.Win winner reason) →
        alpha_beta (fuel + 1) state depth alpha beta bm tt =
          some ((if winner = state.turn then CHECKMATE_SCORE + depth
            else -(CHECKMATE_SCORE + depth)), bm, state, tt)) ∧
      (∀ (depth : Nat) reason,
        (∀ e, tt.get state.create_snapshot = some e → e.depth < depth) →
        state.outcome = some (.Draw reason) →
        alpha_beta (fuel + 1) state depth alpha beta bm tt =
          some (DRAW_SCORE, bm, state, tt)) ∧
      (∀ d1 d2 : Nat, d1 < d2 → d2 ≤ MAX_DEPTH →
        (∀ e, tt.get state.create_snapshot = some e → e.depth < d1) →
        ∀ winner reason, state.outcome = some (.Win winner reason) →
        ∀ r1 r2 : Int × Option Ply × BoardFrontend × TranspositionTable,
          alpha_beta (fuel + 1) state d1 alpha beta bm tt = some r1 →
          alpha_beta (fuel + 1) state d2 alpha beta bm tt = some r2 →
          r1.1.natAbs < r2.1.natAbs) := by
  intro fuel alpha beta bm state tt
  have hterm : ∀ (d : Nat) (o : Outcome),
      (∀ e, tt.get state.create_snapshot = some e → e.depth < d) →
      state.outcome = some o →
      alpha_beta (fuel + 1) state d alpha beta bm tt =
        some ((match o with
          | .Win winner _ =>
              if winner = state.turn then CHECKMATE_SCORE + (d : Int)
              else -(CHECKMATE_SCORE + (d : Int))
          | .Draw _ => DRAW_SCORE), bm, state, tt) := by
    intro d o hdep ho
    unfold alpha_beta
    cases hg : tt.get state.create_snapshot with
    | none =>
        simp only [hg, ho]
        cases o with
        | Win winner reason => by_cases hw : winner = state.turn <;> simp [hw]
        | Draw reason => simp
    | some e =>
        have hlt := hdep e hg
        simp only [hg, ho]
        rw [if_neg (show ¬(e.depth ≥ d) from by omega)]
        cases o with
        | Win winner reason => by_cases hw : winner = state.turn <;> simp [hw]
        | Draw reason => simp
  refine ⟨?_, ?_, ?_⟩
  · intro depth winner reason hdep ho
    simpa using hterm depth (.Win winner reason) hdep ho
  · intro depth reason hdep ho
    simpa using hterm depth (.Draw reason) hdep ho
  · intro d1 d2 h12 _hmax hdep winner reason ho r1 r2 h1 h2
    rw [hterm d1 (.Win winner reason) hdep ho] at h1
    rw [hterm d2 (.Win winner reason)
      (fun e he => by have := hdep e he; omega) ho] at h2
    cases h1; cases h2
    by_cases hw : winner = state.turn <;>
      simp only [hw, if_true, if_false, reduceIte, CHECKMATE_SCORE] <;> omega

/-- Witness for C9 (amended) at a concrete mated state and the fresh table
(which stores nothing, so in particular nothing of sufficient depth). -/
theorem C9_witness :
    TranspositionTable.new.get mated_state.create_snapshot = none ∧
      mated_state.outcome = some (.Win .White .Checkmate) ∧
      alpha_beta 1 mated_state 3 (-(2 ^ 63)) (2 ^ 63 - 1) none
        TranspositionTable.new =
        some (-(CHECKMATE_SCORE + 3), none, mated_state, TranspositionTable.new) := by
  refine ⟨rfl, rfl, ?_⟩
  have h := (C9_terminal_outcome_scores 0 (-(2 ^ 63)) (2 ^ 63 - 1) none
    mated_state TranspositionTable.new).1 3 .White .Checkmate
    (fun e he => Option.noConfusion he) rfl
  simpa using h

/-! ## C2: backend make/undo symmetry -/

/-- C2 (counterexample): in the position parsed from `bogus_ep_fen`, the
en-passant capture `ep_ply` is pseudo-legal (the generator emits it), yet
undoing it after making it does not restore the backend: `undo_move`
fabricates a black pawn on a5 that was never there.  So the claim as stated
— make/undo inversion for every pseudo-legal move — is false. -/
theorem C2_counterexample_bogus_ep :
    ep_ply ∈ bogus_ep_state.get_pseudo_legal_moves ∧
    (bogus_ep_state.backend.make_move ep_ply).undo_move ep_ply ≠
      bogus_ep_state.backend := by
  exact ⟨by decide, by decide⟩

/-- C2 (amended): for every pseudo-legal move of a frontend state whose
backend king cache is coherent (`Inv`), and whose en-passant context — if
the move is an en-passant capture — is well formed (`EpOk`: enemy pawn
actually on the captured square, landing square empty), `undo_move` exactly
inverts `make_move` on the backend: grid contents and both cached king
locations are restored, including the castling-rook-relocation, promotion,
and (well-formed) en-passant special cases. -/
theorem C2_make_undo_inverse {s : BoardFrontend} {m : Ply}
    (hinv : s.backend.Inv) (hm : m ∈ s.get_pseudo_legal_moves)
    (hep : EpOk s.backend m) :
    (s.backend.make_move m).undo_move m = s.backend :=
  make_undo_id hinv (pseudo_legal_sound m hm) hep

/-- C2 witness: the amended theorem applied to the genuine en-passant
position `real_ep_state` and its en-passant capture `ep_ply`. -/
theorem C2_witness :
    (real_ep_state.backend.make_move ep_ply).undo_move ep_ply =
      real_ep_state.backend :=
  C2_make_undo_inverse (by decide) (by decide) (by decide)

/-! ## C10: get_legal_moves leaves the state unchanged -/

/-- C10 (counterexample): on the `bogus_ep_fen` position `get_legal_moves`
succeeds but returns a *changed* state: while legality-testing the
pseudo-legal en-passant capture, the tentative `undo_move` fabricates a
black pawn on a5 (see `C2_counterexample_bogus_ep`), so the final state's
board differs from the input.  The claim as stated — the state is left
exactly as it was for every state — is false. -/
theorem C10_counterexample_bogus_ep :
    (bogus_ep_state.get_legal_moves).isSome = true ∧
    (bogus_ep_state.get_legal_moves).map Prod.snd ≠ some bogus_ep_state := by
  exact ⟨by decide, by decide⟩

/-- C10 (amended): whenever the backend king cache is coherent and every
pseudo-legal move has a well-formed en-passant context (`EpOk` — true in
every position reachable by play), `get_legal_moves` returns the threaded
state exactly equal to the input state: board grid, king locations, turn,
castling-rights log, en-passant target, counters, move log, repetition
table, outcome and check flag are all unchanged. -/
theorem C10_get_legal_moves_frame {s : BoardFrontend}
    (hinv : s.backend.Inv)
    (hep : ∀ m ∈ s.get_pseudo_legal_moves, EpOk s.backend m)
    {ms : List Ply} {st : BoardFrontend}
    (h : s.get_legal_moves = some (ms, st)) : st = s :=
  legal_filter_frame hinv s.get_pseudo_legal_moves []
    (fun m hm => ⟨pseudo_legal_sound m hm, hep m hm⟩) ms st h

/-- C10 witness: the amended theorem applied to the genuine en-passant
position `real_ep_state`, whose `get_legal_moves` output state is its
input state. -/
theorem C10_witness :
    real_ep_state.backend.Inv ∧ real_ep_state = real_ep_state :=
  ⟨by decide, @C10_get_legal_moves_frame real_ep_state (by decide) (by decide)
    real_ep_legal_moves real_ep_state (by
      have hp : (real_ep_state.get_legal_moves).getD ([], real_ep_state) =
          (real_ep_legal_moves, real_ep_state) := by decide
      have hs : (real_ep_state.get_legal_moves).isSome = true := by rfl
      cases hgo : real_ep_state.get_legal_moves with
      | none => rw [hgo] at hs; cases hs
      | some p =>
          rw [hgo] at hp
          simp only [Option.getD_some] at hp
          rw [hp])⟩

/-! ## C8: castling generation -/

/-- C8: the king generator emits a Castle move for a side iff that side's
castling right is still held, the king is not currently attacked, all
squares strictly between king and rook are empty, every square the king
transits through (including its destination) is not attacked by the
opponent, and a rook of the correct team sits at the expected corner
(`spec_castle_ok`, the specification's conditions verbatim); moreover every
emitted castle move is the canonical ply tagged with its castling side. -/
theorem C8_castling_iff (lp : LocatedPiece) (b : BoardBackend)
    (cr : CastlingRights) (side : CastlingSide) :
    ((⟨lp.position, castle_destination side (castle_row lp.piece.team),
        lp.piece, none, some (.Castle side)⟩ : Ply) ∈ king_moves lp b cr ↔
      spec_castle_ok lp b cr side) ∧
    (∀ m ∈ king_moves lp b cr, m.special_move = some (.Castle side) →
      m = ⟨lp.position, castle_destination side (castle_row lp.piece.team),
        lp.piece, none, some (.Castle side)⟩) := by
  constructor
  · constructor
    · intro hmem
      have hc := king_moves_castle_mem hmem rfl
      rcases mem_castling_char.mp hc with ⟨hok, heq⟩ | ⟨hok, heq⟩
      · have hs := congrArg Ply.special_move heq
        injection hs with hs
        injection hs with hs
        subst hs
        exact hok
      · have hs := congrArg Ply.special_move heq
        injection hs with hs
        injection hs with hs
        subst hs
        exact hok
    · intro hok
      have hcr : cr ≠ CastlingRights.no_rights :=
        right_held_ne_no_rights hok.1
      refine castling_sub_king hcr (mem_castling_char.mpr ?_)
      cases side
      · exact Or.inl ⟨hok, rfl⟩
      · exact Or.inr ⟨hok, rfl⟩
  · intro m hm htag
    have hc := king_moves_castle_mem hm htag
    rcases mem_castling_char.mp hc with ⟨hok, heq⟩ | ⟨hok, heq⟩
    · subst heq
      injection htag with htag
      injection htag with htag
      subst htag
      rfl
    · subst heq
      injection htag with htag
      injection htag with htag
      subst htag
      rfl

/-- C8 witness: in `castle_state` (`4k3/8/8/8/8/8/8/R3K2R w KQ - 0 1`) the
kingside castle e1–g1 is emitted. -/
theorem C8_witness :
    (⟨⟨7, 4⟩, ⟨7, 6⟩, Piece.new .White .King, none,
      some (.Castle .Short)⟩ : Ply) ∈
      king_moves ⟨Piece.new .White .King, ⟨7, 4⟩⟩ castle_state.backend
        (castle_state.castling_rights_log.headD CastlingRights.no_rights) :=
  (C8_castling_iff ⟨Piece.new .White .King, ⟨7, 4⟩⟩ castle_state.backend
      (castle_state.castling_rights_log.headD CastlingRights.no_rights)
      .Short).1.mpr (by decide)

/-! ## C4: FEN round trip -/

/-- C4: for every syntactically valid FEN string `s` — one `from_fen`
parses successfully — re-exporting the parsed snapshot with `to_fen` yields
a string that parses back to exactly the same `PositionSnapshot`: piece
placement, side to move, castling rights, and en-passant target all equal
to those parsed from `s` (the move counter is rebuilt from the printed
clock fields). -/
theorem C4_fen_round_trip {s : String} {snap : PositionSnapshot}
    {mc : MoveCounter} (h : from_fen s = some (.ok (snap, mc))) :
    ∃ mc2, from_fen (to_fen snap mc) = some (.ok (snap, mc2)) := by
  obtain ⟨hep, hh, hf⟩ := from_fen_ok_props h
  exact ⟨_, from_fen_to_fen hep hh hf⟩

/-- C4 witness: the round trip at the concrete FEN `sample_fen`. -/
theorem C4_witness :
    ∃ mc2, from_fen (to_fen sample_parse.1 sample_parse.2) =
      some (.ok (sample_parse.1, mc2)) :=
  C4_fen_round_trip (s := sample_fen) (by rfl)

end Bonsai
